import Mathlib

/-!
# A shallow embedding of the `simd` library

The development follows the five headers of the repository:

* `simd.h`          : the two vector backends (`SSE2`, `AVX2`) and the operation descriptors
* `simd_map.h`      : `Map` and `Square`
* `simd_zip.h`      : `Zip` and `Add`, `Sub`, `Mul`, `Div`
* `simd_reduce.h`   : `Reduce` and `Min`, `Max`, `Sum`
* `simd_convolve.h` : `ConvolveScalar` and `ConvolveAVX2`

Conventions of the embedding.

* An `int32_t` is an `Int`; every arithmetic result is brought back into
  `[-2^31, 2^31)` by `wrap32` (two's complement wrap-around, which is what the
  vector instructions do and what the scalar code compiles to).
* A vector register is the list of its lanes, lane 0 first.
* Memory is a family of blocks (one block per caller buffer); a pointer is a
  block together with an element offset, and `p + i` only moves the offset.
  Every load and store is bounds checked against the block and yields
  `Fault.OutOfBounds` when it leaves the block.
* Code that can fault returns `Except Fault _`.
* A `for` loop with unit stride is unrolled by its trip count (`forRange`); a
  loop whose guard is re-evaluated with a stride (`forStep`) carries fuel and
  yields `Fault.OutOfFuel` when the fuel is used up before the guard fails.
* `size_t` indices of `Map`, `Zip` and `Reduce` are natural numbers: `n` elements
  of four bytes lie in a 64-bit address space, so `i + lanes` cannot wrap. The
  convolutions, whose index arithmetic mixes signed and unsigned 64-bit values
  and subtracts, are modelled with explicit reduction modulo `2^64`.
-/

namespace simd

/-! ## Machine integers -/

/-- Two's complement wrap-around of an integer into `[-2^31, 2^31)`. -/
def wrap32 (x : Int) : Int := (x + 2147483648) % 4294967296 - 2147483648

/-- The value is representable as an `int32_t`. -/
def isInt32 (x : Int) : Prop := -2147483648 ≤ x ∧ x ≤ 2147483647

instance (x : Int) : Decidable (isInt32 x) := by
  unfold isInt32
  exact inferInstance

/-- The constant `std::numeric_limits<int32_t>::max()`. -/
def INT32_MAX : Int := 2147483647

/-- The constant `std::numeric_limits<int32_t>::min()`. -/
def INT32_MIN : Int := -2147483648

/-- Conversion of an integer to `size_t` (reduction modulo `2^64`). -/
def toU64 (x : Int) : Int := x % 18446744073709551616

/-- Conversion of an integer to `ptrdiff_t` (two's complement, 64 bits). -/
def toI64 (x : Int) : Int :=
  if x % 18446744073709551616 < 9223372036854775808 then x % 18446744073709551616
  else x % 18446744073709551616 - 18446744073709551616

/-! ## Faults, pointers and memory -/

/-- The ways in which a call can fail to return normally. -/
inductive Fault where
  | OutOfBounds
  | DivideByZero
  | Overflow
  | OutOfFuel
  deriving DecidableEq, Repr

/-- A pointer to an `int32_t`: a block and an element offset inside it. -/
structure Ptr where
  block : Nat
  off : Nat
  deriving DecidableEq, Repr

/-- Pointer arithmetic `p + i`. -/
def Ptr.add (p : Ptr) (i : Nat) : Ptr := ⟨p.block, p.off + i⟩

/-- Memory: the contents of every block. -/
abbrev Mem := Nat → List Int

/-- The `n` elements found at `p` (fewer when the block ends before). -/
def Mem.read (m : Mem) (p : Ptr) (n : Nat) : List Int := ((m p.block).drop p.off).take n

/-- The `n` elements at `p` lie inside the block of `p`. -/
def Mem.valid (m : Mem) (p : Ptr) (n : Nat) : Prop := p.off + n ≤ (m p.block).length

instance (m : Mem) (p : Ptr) (n : Nat) : Decidable (m.valid p n) := by
  unfold Mem.valid
  exact inferInstance

/-- Overwrite the elements at `p` by `vs` (no bounds check; see `storeVec`). -/
def Mem.write (m : Mem) (p : Ptr) (vs : List Int) : Mem :=
  Function.update m p.block
    ((m p.block).take p.off ++ vs ++ (m p.block).drop (p.off + vs.length))

/-- The element `p[i]`, or 0 when it lies outside the block (used in statements only). -/
def Mem.get (m : Mem) (p : Ptr) (i : Nat) : Int := (m p.block).getD (p.off + i) 0

/-- Scalar read `p[0]`. -/
def Mem.load (m : Mem) (p : Ptr) : Except Fault Int :=
  match (m p.block)[p.off]? with
  | some v => .ok v
  | none => .error .OutOfBounds

/-- Scalar write `p[0] = v`. -/
def Mem.store (m : Mem) (p : Ptr) (v : Int) : Except Fault Mem :=
  if p.off + 1 ≤ (m p.block).length then .ok (m.write p [v]) else .error .OutOfBounds

/-- Unaligned vector load of `lanes` consecutive elements at `p`. -/
def Mem.loadVec (m : Mem) (p : Ptr) (lanes : Nat) : Except Fault (List Int) :=
  if p.off + lanes ≤ (m p.block).length then .ok (m.read p lanes) else .error .OutOfBounds

/-- Unaligned vector store of the lanes of `v` at `p`. -/
def Mem.storeVec (m : Mem) (p : Ptr) (v : List Int) : Except Fault Mem :=
  if p.off + v.length ≤ (m p.block).length then .ok (m.write p v) else .error .OutOfBounds

/-- Bounds-checked read of a local `std::array`. -/
def arrGet {α : Type} (a : List α) (i : Nat) : Except Fault α :=
  match a[i]? with
  | some v => .ok v
  | none => .error .OutOfBounds

/-- Bounds-checked write of a local `std::array`. -/
def arrSet {α : Type} (a : List α) (i : Nat) (v : α) : Except Fault (List α) :=
  if i < a.length then .ok (a.set i v) else .error .OutOfBounds

/-! ## Loops -/

/-- The loop `for (i = lo; i < lo + count; ++i) s = body(i, s)`, by its trip count. -/
def forCount {σ : Type} (body : Nat → σ → Except Fault σ) : Nat → Nat → σ → Except Fault σ
  | 0, _, s => .ok s
  | count + 1, i, s => do
    let s1 ← body i s
    forCount body count (i + 1) s1

/-- The loop `for (i = lo; i < hi; ++i) s = body(i, s)`. -/
def forRange {σ : Type} (lo hi : Nat) (body : Nat → σ → Except Fault σ) (s : σ) :
    Except Fault σ :=
  forCount body (hi - lo) lo s

/-- The loop `for (; i + step <= n; i += step) s = body(i, s)`; returns the final `i` too. -/
def forStep {σ : Type} (step n : Nat) (body : Nat → σ → Except Fault σ) :
    Nat → Nat → σ → Except Fault (Nat × σ)
  | 0, i, s => if i + step ≤ n then .error .OutOfFuel else .ok (i, s)
  | fuel + 1, i, s =>
    if i + step ≤ n then do
      let s1 ← body i s
      forStep step n body fuel (i + step) s1
    else .ok (i, s)

/-! ## `simd.h`: vector backends -/

/-- The instruction-set tags `struct SSE2` and `struct AVX2`. -/
inductive ISA where
  | SSE2
  | AVX2
  deriving DecidableEq, Repr

/-- The constant `ISA::kLanes`. -/
def ISA.kLanes : ISA → Nat
  | .SSE2 => 4
  | .AVX2 => 8

/-- The intrinsic `_mm_loadu_si128`: four lanes. -/
def mm_loadu_si128 (m : Mem) (p : Ptr) : Except Fault (List Int) := m.loadVec p 4

/-- The intrinsic `_mm256_loadu_si256`: eight lanes. -/
def mm256_loadu_si256 (m : Mem) (p : Ptr) : Except Fault (List Int) := m.loadVec p 8

/-- The intrinsic `_mm_storeu_si128`; a register that does not hold four lanes is a fault. -/
def mm_storeu_si128 (m : Mem) (p : Ptr) (v : List Int) : Except Fault Mem :=
  if v.length = 4 then m.storeVec p v else .error .OutOfBounds

/-- The intrinsic `_mm256_storeu_si256`; a register that does not hold eight lanes is a fault. -/
def mm256_storeu_si256 (m : Mem) (p : Ptr) (v : List Int) : Except Fault Mem :=
  if v.length = 8 then m.storeVec p v else .error .OutOfBounds

/-- The function `ISA::Load`. -/
def ISA.Load : ISA → Mem → Ptr → Except Fault (List Int)
  | .SSE2, m, data => mm_loadu_si128 m data
  | .AVX2, m, data => mm256_loadu_si256 m data

/-- The function `ISA::Store`. -/
def ISA.Store : ISA → Mem → Ptr → List Int → Except Fault Mem
  | .SSE2, m, data, v => mm_storeu_si128 m data v
  | .AVX2, m, data, v => mm256_storeu_si256 m data v

/-! ## `simd.h`: lane-wise intrinsics -/

/-- Lane-wise 32-bit addition (`_mm_add_epi32`, `_mm256_add_epi32`). -/
def add_epi32 (a b : List Int) : List Int := List.zipWith (fun x y => wrap32 (x + y)) a b

/-- Lane-wise 32-bit subtraction (`_mm_sub_epi32`, `_mm256_sub_epi32`). -/
def sub_epi32 (a b : List Int) : List Int := List.zipWith (fun x y => wrap32 (x - y)) a b

/-- Lane-wise low 32 bits of the product (`_mm_mullo_epi32`, `_mm256_mullo_epi32`). -/
def mullo_epi32 (a b : List Int) : List Int := List.zipWith (fun x y => wrap32 (x * y)) a b

/-- Lane-wise signed minimum (`_mm_min_epi32`, `_mm256_min_epi32`). -/
def min_epi32 (a b : List Int) : List Int := List.zipWith (fun x y => min x y) a b

/-- Lane-wise signed maximum (`_mm_max_epi32`, `_mm256_max_epi32`). -/
def max_epi32 (a b : List Int) : List Int := List.zipWith (fun x y => max x y) a b

/-- Broadcast of one value to `lanes` lanes (`_mm_set1_epi32`, `_mm256_set1_epi32`). -/
def set1_epi32 (lanes : Nat) (x : Int) : List Int := List.replicate lanes x

/-- The all-zero register (`_mm_setzero_si128`, `_mm256_setzero_si256`). -/
def setzero (lanes : Nat) : List Int := List.replicate lanes 0

/-! ## `simd.h`: operation descriptors -/

/-- A unary elementwise descriptor: `ProcessScalar(a)` and `Process(V)`. -/
structure UnaryOp where
  ProcessScalar : Int → Int
  Process : List Int → List Int

/-- A binary elementwise descriptor: `ProcessScalar(a, b)` and `Process(V, V)`;
both may fault (integer division). -/
structure BinaryOp where
  ProcessScalar : Int → Int → Except Fault Int
  Process : List Int → List Int → Except Fault (List Int)

/-- A reduction descriptor: `ProcessScalar(a, b)`, `Process(V, V)` and `Identity()`. -/
structure ReduceOp where
  ProcessScalar : Int → Int → Int
  Process : List Int → List Int → List Int
  Identity : List Int

/-- The descriptor `SimdAdd<ISA>`. -/
def SimdAdd : ISA → BinaryOp
  | .SSE2 => { ProcessScalar := fun a b => .ok (wrap32 (a + b)),
               Process := fun a b => .ok (add_epi32 a b) }
  | .AVX2 => { ProcessScalar := fun a b => .ok (wrap32 (a + b)),
               Process := fun a b => .ok (add_epi32 a b) }

/-- The descriptor `SimdSub<ISA>`. -/
def SimdSub : ISA → BinaryOp
  | .SSE2 => { ProcessScalar := fun a b => .ok (wrap32 (a - b)),
               Process := fun a b => .ok (sub_epi32 a b) }
  | .AVX2 => { ProcessScalar := fun a b => .ok (wrap32 (a - b)),
               Process := fun a b => .ok (sub_epi32 a b) }

/-- The descriptor `SimdMul<ISA>`. -/
def SimdMul : ISA → BinaryOp
  | .SSE2 => { ProcessScalar := fun a b => .ok (wrap32 (a * b)),
               Process := fun a b => .ok (mullo_epi32 a b) }
  | .AVX2 => { ProcessScalar := fun a b => .ok (wrap32 (a * b)),
               Process := fun a b => .ok (mullo_epi32 a b) }

/-- The function `SimdDiv<ISA>::ProcessScalar`, the quotient `a / b` of two `int32_t`
(truncation toward zero). A zero divisor is undefined in the source language and traps on
the target; so does `INT32_MIN / -1`, whose quotient is not representable. -/
def SimdDiv.ProcessScalar (a b : Int) : Except Fault Int :=
  if b = 0 then .error .DivideByZero
  else if a = INT32_MIN ∧ b = -1 then .error .Overflow
  else .ok (Int.tdiv a b)

/-- Modelled from the spec: `_mm_div_epi32` and `_mm256_div_epi32` are library routines
whose code is not in the repository; the spec requires the vector form of a descriptor to
equal its scalar form applied to each lane, so the scalar rule is applied lane by lane. -/
def div_epi32 : List Int → List Int → Except Fault (List Int)
  | x :: a, y :: b => do
    let q ← SimdDiv.ProcessScalar x y
    let r ← div_epi32 a b
    pure (q :: r)
  | _, _ => .ok []

/-- The descriptor `SimdDiv<ISA>`. -/
def SimdDiv : ISA → BinaryOp
  | .SSE2 => { ProcessScalar := SimdDiv.ProcessScalar, Process := div_epi32 }
  | .AVX2 => { ProcessScalar := SimdDiv.ProcessScalar, Process := div_epi32 }

/-- The function `SimdMinBase::ProcessScalar`, that is `std::min(a, b)`. -/
def SimdMinBase.ProcessScalar (a b : Int) : Int := if b < a then b else a

/-- The descriptor `SimdMin<ISA>`. -/
def SimdMin : ISA → ReduceOp
  | .SSE2 => { ProcessScalar := SimdMinBase.ProcessScalar,
               Identity := set1_epi32 4 INT32_MAX,
               Process := min_epi32 }
  | .AVX2 => { ProcessScalar := SimdMinBase.ProcessScalar,
               Identity := set1_epi32 8 INT32_MAX,
               Process := min_epi32 }

/-- The function `SimdMaxBase::ProcessScalar`, that is `std::max(a, b)`. -/
def SimdMaxBase.ProcessScalar (a b : Int) : Int := if a < b then b else a

/-- The descriptor `SimdMax<ISA>`. -/
def SimdMax : ISA → ReduceOp
  | .SSE2 => { ProcessScalar := SimdMaxBase.ProcessScalar,
               Identity := set1_epi32 4 INT32_MIN,
               Process := max_epi32 }
  | .AVX2 => { ProcessScalar := SimdMaxBase.ProcessScalar,
               Identity := set1_epi32 8 INT32_MIN,
               Process := max_epi32 }

/-- The function `SimdSumBase::ProcessScalar`. -/
def SimdSumBase.ProcessScalar (a b : Int) : Int := wrap32 (a + b)

/-- The descriptor `SimdSum<ISA>`. -/
def SimdSum : ISA → ReduceOp
  | .SSE2 => { ProcessScalar := SimdSumBase.ProcessScalar,
               Identity := setzero 4,
               Process := add_epi32 }
  | .AVX2 => { ProcessScalar := SimdSumBase.ProcessScalar,
               Identity := setzero 8,
               Process := add_epi32 }

/-- The function `SimdSquareBase::ProcessScalar`. -/
def SimdSquareBase.ProcessScalar (a : Int) : Int := wrap32 (a * a)

/-- The descriptor `SimdSquare<ISA>`. -/
def SimdSquare : ISA → UnaryOp
  | .SSE2 => { ProcessScalar := SimdSquareBase.ProcessScalar,
               Process := fun a => mullo_epi32 a a }
  | .AVX2 => { ProcessScalar := SimdSquareBase.ProcessScalar,
               Process := fun a => mullo_epi32 a a }

/-! ## `simd_map.h` -/

/-- Body of the vector loop of `Map`: load, `Process`, store. -/
def Map.vectorStep (isa : ISA) (Op : ISA → UnaryOp) (src dst : Ptr) (i : Nat) (m : Mem) :
    Except Fault Mem := do
  let v1 ← isa.Load m (src.add i)
  let v2 := (Op isa).Process v1
  isa.Store m (dst.add i) v2

/-- Body of the remainder loop of `Map`: `dst[i] = ProcessScalar(src[i])`. -/
def Map.scalarStep (isa : ISA) (Op : ISA → UnaryOp) (src dst : Ptr) (i : Nat) (m : Mem) :
    Except Fault Mem := do
  let a ← m.load (src.add i)
  m.store (dst.add i) ((Op isa).ProcessScalar a)

/-- The function template `Map<ISA, Op>(src, dst, n)`. -/
def Map (isa : ISA) (Op : ISA → UnaryOp) (m : Mem) (src dst : Ptr) (n : Nat) :
    Except Fault Mem := do
  let lanes := isa.kLanes
  -- while at least `lanes` elements remain, process a full vector
  let (i, m1) ← forStep lanes n (Map.vectorStep isa Op src dst) n 0 m
  -- linearly process any remaining elements that do not fill a vector
  forRange i n (Map.scalarStep isa Op src dst) m1

/-- The function template `Square<ISA>(src, dst, n)`. -/
def Square (isa : ISA) (m : Mem) (src dst : Ptr) (n : Nat) : Except Fault Mem :=
  Map isa SimdSquare m src dst n

/-! ## `simd_zip.h` -/

/-- Body of the vector loop of `Zip`: two loads, `Process`, store. -/
def Zip.vectorStep (isa : ISA) (Op : ISA → BinaryOp) (src1 src2 dst : Ptr) (i : Nat) (m : Mem) :
    Except Fault Mem := do
  let v1 ← isa.Load m (src1.add i)
  let v2 ← isa.Load m (src2.add i)
  let v3 ← (Op isa).Process v1 v2
  isa.Store m (dst.add i) v3

/-- Body of the remainder loop of `Zip`: `dst[i] = ProcessScalar(src1[i], src2[i])`. -/
def Zip.scalarStep (isa : ISA) (Op : ISA → BinaryOp) (src1 src2 dst : Ptr) (i : Nat) (m : Mem) :
    Except Fault Mem := do
  let a ← m.load (src1.add i)
  let b ← m.load (src2.add i)
  let c ← (Op isa).ProcessScalar a b
  m.store (dst.add i) c

/-- The function template `Zip<ISA, Op>(src1, src2, dst, n)`. -/
def Zip (isa : ISA) (Op : ISA → BinaryOp) (m : Mem) (src1 src2 dst : Ptr) (n : Nat) :
    Except Fault Mem := do
  let lanes := isa.kLanes
  -- while at least `lanes` elements remain, process a full vector
  let (i, m1) ← forStep lanes n (Zip.vectorStep isa Op src1 src2 dst) n 0 m
  -- linearly process any remaining elements that do not fill a vector
  forRange i n (Zip.scalarStep isa Op src1 src2 dst) m1

/-- The function template `Add<ISA>(src1, src2, dst, n)`. -/
def Add (isa : ISA) (m : Mem) (src1 src2 dst : Ptr) (n : Nat) : Except Fault Mem :=
  Zip isa SimdAdd m src1 src2 dst n

/-- The function template `Sub<ISA>(src1, src2, dst, n)`. -/
def Sub (isa : ISA) (m : Mem) (src1 src2 dst : Ptr) (n : Nat) : Except Fault Mem :=
  Zip isa SimdSub m src1 src2 dst n

/-- The function template `Mul<ISA>(src1, src2, dst, n)`. -/
def Mul (isa : ISA) (m : Mem) (src1 src2 dst : Ptr) (n : Nat) : Except Fault Mem :=
  Zip isa SimdMul m src1 src2 dst n

/-- The function template `Div<ISA>(src1, src2, dst, n)`. -/
def Div (isa : ISA) (m : Mem) (src1 src2 dst : Ptr) (n : Nat) : Except Fault Mem :=
  Zip isa SimdDiv m src1 src2 dst n

/-! ## `simd_reduce.h` -/

/-- The store `ISA::Store(horizontal_accumulator.data(), accumulator)` into the local
`std::array<int32_t, lanes>`: the array receives the lanes of the register. -/
def ISA.StoreLocal (isa : ISA) (v : List Int) : Except Fault (List Int) :=
  if v.length = isa.kLanes then .ok v else .error .OutOfBounds

/-- Body of the loop that sets each accumulator to the identity element. -/
def Reduce.initStep (isa : ISA) (Op : ISA → ReduceOp) (i : Nat)
    (accumulators : List (List Int)) : Except Fault (List (List Int)) :=
  arrSet accumulators i (Op isa).Identity

/-- Body of the loop over the bank of accumulators, for the chunk that starts at `i`. -/
def Reduce.bankStep (isa : ISA) (Op : ISA → ReduceOp) (m : Mem) (src : Ptr) (i j : Nat)
    (accumulators : List (List Int)) : Except Fault (List (List Int)) := do
  let v ← isa.Load m (src.add (i + j * isa.kLanes))
  let a ← arrGet accumulators j
  arrSet accumulators j ((Op isa).Process a v)

/-- Body of the chunk loop: one pass over the full bank of accumulators. -/
def Reduce.chunkStep (isa : ISA) (Op : ISA → ReduceOp) (AccumulatorCount : Nat) (m : Mem)
    (src : Ptr) (i : Nat) (accumulators : List (List Int)) : Except Fault (List (List Int)) :=
  forRange 0 AccumulatorCount (Reduce.bankStep isa Op m src i) accumulators

/-- Body of the loop that merges all accumulators into one. -/
def Reduce.mergeStep (isa : ISA) (Op : ISA → ReduceOp) (accumulators : List (List Int))
    (j : Nat) (accumulator : List Int) : Except Fault (List Int) := do
  let a ← arrGet accumulators j
  pure ((Op isa).Process accumulator a)

/-- Body of the loop that processes one vector at a time. -/
def Reduce.vectorStep (isa : ISA) (Op : ISA → ReduceOp) (m : Mem) (src : Ptr) (i : Nat)
    (accumulator : List Int) : Except Fault (List Int) := do
  let v ← isa.Load m (src.add i)
  pure ((Op isa).Process accumulator v)

/-- Body of the horizontal accumulation of the final vector. -/
def Reduce.horizontalStep (isa : ISA) (Op : ISA → ReduceOp) (horizontal_accumulator : List Int)
    (j : Nat) (result : Int) : Except Fault Int := do
  let x ← arrGet horizontal_accumulator j
  pure ((Op isa).ProcessScalar result x)

/-- Body of the remainder loop of `Reduce`. -/
def Reduce.scalarStep (isa : ISA) (Op : ISA → ReduceOp) (m : Mem) (src : Ptr) (i : Nat)
    (result : Int) : Except Fault Int := do
  let x ← m.load (src.add i)
  pure ((Op isa).ProcessScalar result x)

/-- The function template `Reduce<ISA, Op, AccumulatorCount>(src, n)`. -/
def Reduce (isa : ISA) (Op : ISA → ReduceOp) (AccumulatorCount : Nat) (m : Mem) (src : Ptr)
    (n : Nat) : Except Fault Int := do
  let lanes := isa.kLanes
  let chunk := AccumulatorCount * lanes
  -- set each accumulator to the given operation's identity element
  let accumulators ← forRange 0 AccumulatorCount (Reduce.initStep isa Op)
    (List.replicate AccumulatorCount [])
  -- while at least `chunk` elements remain, process them using the full bank of accumulators
  let (i, accumulators) ←
    forStep chunk n (Reduce.chunkStep isa Op AccumulatorCount m src) n 0 accumulators
  -- merge all accumulators into one
  let accumulator ← arrGet accumulators 0
  let accumulator ← forRange 1 AccumulatorCount (Reduce.mergeStep isa Op accumulators) accumulator
  -- while at least one full vector's worth of data remains, process one vector at a time
  let (i, accumulator) ← forStep lanes n (Reduce.vectorStep isa Op m src) n i accumulator
  -- horizontally accumulate the final SIMD vector into a single value
  let horizontal_accumulator ← isa.StoreLocal accumulator
  let result ← arrGet horizontal_accumulator 0
  let result ← forRange 1 lanes (Reduce.horizontalStep isa Op horizontal_accumulator) result
  -- process any remaining elements that do not fill a full SIMD vector
  forRange i n (Reduce.scalarStep isa Op m src) result

/-- The constant `kAccumulatorCount`. -/
def kAccumulatorCount : Nat := 4

/-- The function template `Min<ISA>(src, n)`. -/
def Min (isa : ISA) (m : Mem) (src : Ptr) (n : Nat) : Except Fault Int :=
  Reduce isa SimdMin kAccumulatorCount m src n

/-- The function template `Max<ISA>(src, n)`. -/
def Max (isa : ISA) (m : Mem) (src : Ptr) (n : Nat) : Except Fault Int :=
  Reduce isa SimdMax kAccumulatorCount m src n

/-- The function template `Sum<ISA>(src, n)`. -/
def Sum (isa : ISA) (m : Mem) (src : Ptr) (n : Nat) : Except Fault Int :=
  Reduce isa SimdSum kAccumulatorCount m src n

/-- The algebraic laws of a reduction `f` with identity `e` on 32-bit values. -/
structure ReductionLaws (f : Int → Int → Int) (e : Int) : Prop where
  assoc : ∀ a b c, f (f a b) c = f a (f b c)
  comm : ∀ a b, f a b = f b a
  ident : ∀ x, isInt32 x → f e x = x
  closed : ∀ a b, isInt32 a → isInt32 b → isInt32 (f a b)
  ident_mem : isInt32 e

/-- Right-nested combination of the lanes of all accumulators of a bank. -/
def bankTotal (f : Int → Int → Int) (e : Int) : List (List Int) → Int
  | [] => e
  | v :: rest => f (List.foldr f e v) (bankTotal f e rest)

/-- The descriptor `Op<isa>` implements the reduction `f` with identity `e`: its vector
form is `f` lane by lane, its scalar form is `f`, its identity register is `e` in every lane. -/
structure ReduceOpSpec (isa : ISA) (Op : ISA → ReduceOp) (f : Int → Int → Int) (e : Int) :
    Prop where
  process : ∀ a b, (Op isa).Process a b = List.zipWith f a b
  scalar : ∀ a b, (Op isa).ProcessScalar a b = f a b
  identity : (Op isa).Identity = List.replicate isa.kLanes e
  laws : ReductionLaws f e

/-- Loop invariant of the chunk loop of `Reduce`: the bank holds `k` registers of `lanes`
32-bit values whose combination is the reduction of the first `pos` elements. -/
def BankInv (f : Int → Int → Int) (e : Int) (m : Mem) (src : Ptr) (lanes k pos : Nat)
    (accs : List (List Int)) : Prop :=
  accs.length = k ∧ (∀ v ∈ accs, v.length = lanes ∧ ∀ x ∈ v, isInt32 x) ∧
    bankTotal f e accs = List.foldr f e (m.read src pos)

/-- Loop invariant of the one-vector loop of `Reduce`. -/
def VecInv (f : Int → Int → Int) (e : Int) (m : Mem) (src : Ptr) (lanes pos : Nat)
    (acc : List Int) : Prop :=
  acc.length = lanes ∧ (∀ x ∈ acc, isInt32 x) ∧
    List.foldr f e acc = List.foldr f e (m.read src pos)

/-! ## `simd_convolve.h` -/

/-- The value of a `size_t` expression, as an index. -/
def sz (x : Int) : Nat := (toU64 x).toNat

/-- Innermost body of `ConvolveScalar`: the tap `(dy, dx)` of the pixel `(y, x)`. -/
def ConvolveScalar.tapStep (m : Mem) (src kernel : Ptr) (height width kernel_width : Nat)
    (half_kernel_height half_kernel_width : Nat) (y x dy dx : Nat) (sum : Int) :
    Except Fault Int :=
  let sy : Int := toI64 (toI64 (y : Int) + toU64 ((dy : Int) - (half_kernel_height : Int)))
  let sx : Int := toI64 (toI64 (x : Int) + toU64 ((dx : Int) - (half_kernel_width : Int)))
  if sy < 0 ∨ sy ≥ toI64 (height : Int) ∨ sx < 0 ∨ sx ≥ toI64 (width : Int) then
    .ok sum
  else do
    let a ← m.load (src.add (sz (sy * (width : Int) + sx)))
    let b ← m.load (kernel.add (sz ((dy : Int) * (kernel_width : Int) + (dx : Int))))
    pure (wrap32 (sum + wrap32 (a * b)))

/-- The two kernel loops of `ConvolveScalar`: the value `sum` of the pixel `(y, x)`. -/
def ConvolveScalar.pixel (m : Mem) (src kernel : Ptr)
    (height width kernel_height kernel_width : Nat) (y x : Nat) : Except Fault Int :=
  let half_kernel_height := kernel_height / 2
  let half_kernel_width := kernel_width / 2
  forRange 0 (toI64 (kernel_height : Int)).toNat (fun dy sum =>
    forRange 0 (toI64 (kernel_width : Int)).toNat
      (ConvolveScalar.tapStep m src kernel height width kernel_width
        half_kernel_height half_kernel_width y x dy) sum) 0

/-- Body of the loop over `x` of `ConvolveScalar`. -/
def ConvolveScalar.pixelStep (src dst kernel : Ptr)
    (height width kernel_height kernel_width : Nat) (y x : Nat) (m : Mem) : Except Fault Mem := do
  let sum ← ConvolveScalar.pixel m src kernel height width kernel_height kernel_width y x
  m.store (dst.add (sz ((y : Int) * (width : Int) + (x : Int)))) sum

/-- The function `ConvolveScalar(src, dst, kernel, height, width, kernel_height, kernel_width)`. -/
def ConvolveScalar (m : Mem) (src dst kernel : Ptr)
    (height width kernel_height kernel_width : Nat) : Except Fault Mem :=
  forRange 0 height (fun y m =>
    forRange 0 width
      (ConvolveScalar.pixelStep src dst kernel height width kernel_height kernel_width y) m) m

/-- The loop `for (; x <= bound; x += 8)` over a `size_t` counter, with fuel. -/
def ConvolveAVX2.vectorLoop (bound : Nat) (body : Nat → Mem → Except Fault Mem) :
    Nat → Nat → Mem → Except Fault (Nat × Mem)
  | 0, x, m => if x ≤ bound then .error .OutOfFuel else .ok (x, m)
  | fuel + 1, x, m =>
    if x ≤ bound then do
      let m1 ← body x m
      ConvolveAVX2.vectorLoop bound body fuel (sz ((x : Int) + 8)) m1
    else .ok (x, m)

/-- Body of the vector loop of `ConvolveAVX2`: eight output pixels of row `y` from column `x`. -/
def ConvolveAVX2.vectorStep (src dst : Ptr) (k00 k01 k02 k10 k11 k12 k20 k21 k22 : List Int)
    (width y x : Nat) (m : Mem) : Except Fault Mem := do
  let a0 := setzero 8
  let a1 := setzero 8
  let a2 := setzero 8
  let r0 := (src.add (sz (((y : Int) + 0) * (width : Int)))).add x
  let r1 := (src.add (sz (((y : Int) + 1) * (width : Int)))).add x
  let r2 := (src.add (sz (((y : Int) + 2) * (width : Int)))).add x
  -- process row 0
  let r00 ← mm256_loadu_si256 m (r0.add 0)
  let r01 ← mm256_loadu_si256 m (r0.add 1)
  let r02 ← mm256_loadu_si256 m (r0.add 2)
  let a0 := add_epi32 a0 (mullo_epi32 r00 k00)
  let a0 := add_epi32 a0 (mullo_epi32 r01 k01)
  let a0 := add_epi32 a0 (mullo_epi32 r02 k02)
  -- process row 1
  let r10 ← mm256_loadu_si256 m (r1.add 0)
  let r11 ← mm256_loadu_si256 m (r1.add 1)
  let r12 ← mm256_loadu_si256 m (r1.add 2)
  let a1 := add_epi32 a1 (mullo_epi32 r10 k10)
  let a1 := add_epi32 a1 (mullo_epi32 r11 k11)
  let a1 := add_epi32 a1 (mullo_epi32 r12 k12)
  -- process row 2
  let r20 ← mm256_loadu_si256 m (r2.add 0)
  let r21 ← mm256_loadu_si256 m (r2.add 1)
  let r22 ← mm256_loadu_si256 m (r2.add 2)
  let a2 := add_epi32 a2 (mullo_epi32 r20 k20)
  let a2 := add_epi32 a2 (mullo_epi32 r21 k21)
  let a2 := add_epi32 a2 (mullo_epi32 r22 k22)
  -- merge all accumulators into one
  let a0 := add_epi32 a0 a1
  let a0 := add_epi32 a0 a2
  -- store results
  mm256_storeu_si256 m ((dst.add (sz ((y : Int) * (width : Int)))).add x) a0

/-- Innermost body of the scalar tail of `ConvolveAVX2`: the tap `(yy, xx)`. -/
def ConvolveAVX2.tapStep (m : Mem) (src kernel : Ptr) (width kernel_width : Nat)
    (y x yy xx : Nat) (sum : Int) : Except Fault Int := do
  let a ← m.load (src.add (sz (((y : Int) + (yy : Int)) * (width : Int) + ((x : Int) + (xx : Int)))))
  let b ← m.load (kernel.add (sz ((yy : Int) * (kernel_width : Int) + (xx : Int))))
  pure (wrap32 (sum + wrap32 (a * b)))

/-- Body of the scalar tail of `ConvolveAVX2`: the output pixel `(y, x)`. -/
def ConvolveAVX2.scalarStep (src dst kernel : Ptr) (width kernel_width : Nat)
    (y x : Nat) (m : Mem) : Except Fault Mem := do
  let sum ← forRange 0 3 (fun yy sum =>
    forRange 0 3 (ConvolveAVX2.tapStep m src kernel width kernel_width y x yy) sum) 0
  m.store (dst.add (sz ((y : Int) * (width : Int) + (x : Int)))) sum

/-- Body of the loop over `y` of `ConvolveAVX2`: the vector loop, then the scalar tail. -/
def ConvolveAVX2.rowStep (src dst kernel : Ptr) (k00 k01 k02 k10 k11 k12 k20 k21 k22 : List Int)
    (width kernel_width : Nat) (y : Nat) (m : Mem) : Except Fault Mem := do
  let V : Nat := 8
  let x := 0
  let (x, m1) ← ConvolveAVX2.vectorLoop (sz ((width : Int) - 2 - (V : Int)))
    (ConvolveAVX2.vectorStep src dst k00 k01 k02 k10 k11 k12 k20 k21 k22 width y)
    2305843009213693952 x m
  forRange x (sz ((width : Int) - 2)) (ConvolveAVX2.scalarStep src dst kernel width kernel_width y) m1

/-- The function `ConvolveAVX2(src, dst, kernel, height, width, kernel_height, kernel_width)`.
The counter of the vector loop takes at most `2^61` values, so that fuel `2^61` is used up
only by a loop that would never end. -/
def ConvolveAVX2 (m : Mem) (src dst kernel : Ptr)
    (height width _kernel_height kernel_width : Nat) : Except Fault Mem := do
  let k00 ← m.load (kernel.add 0)
  let k01 ← m.load (kernel.add 1)
  let k02 ← m.load (kernel.add 2)
  let k10 ← m.load (kernel.add 3)
  let k11 ← m.load (kernel.add 4)
  let k12 ← m.load (kernel.add 5)
  let k20 ← m.load (kernel.add 6)
  let k21 ← m.load (kernel.add 7)
  let k22 ← m.load (kernel.add 8)
  forRange 0 (sz ((height : Int) - 2))
    (ConvolveAVX2.rowStep src dst kernel
      (set1_epi32 8 k00) (set1_epi32 8 k01) (set1_epi32 8 k02)
      (set1_epi32 8 k10) (set1_epi32 8 k11) (set1_epi32 8 k12)
      (set1_epi32 8 k20) (set1_epi32 8 k21) (set1_epi32 8 k22)
      width kernel_width) m

/-! ## Closed forms of the convolution outputs (used in statements and proofs) -/

/-- One tap of the 3x3 zero-padded stencil centred at `(y, x)`: the tap `(dy, dx)` is added
when the position `(y + dy - 1, x + dx - 1)` lies inside the image. -/
def paddedTap (m : Mem) (src kernel : Ptr) (height width y x : Nat) (sum : Int)
    (d : Nat × Nat) : Int :=
  if 1 ≤ y + d.1 ∧ y + d.1 ≤ height ∧ 1 ≤ x + d.2 ∧ x + d.2 ≤ width then
    wrap32 (sum + wrap32 (m.get src ((y + d.1 - 1) * width + (x + d.2 - 1))
      * m.get kernel (d.1 * 3 + d.2)))
  else sum

/-- The nine taps of a 3x3 kernel in the order of the loops (`dy` outer, `dx` inner). -/
def taps3 : List (Nat × Nat) :=
  [(0, 0), (0, 1), (0, 2), (1, 0), (1, 1), (1, 2), (2, 0), (2, 1), (2, 2)]

/-- The 3x3 zero-padded stencil centred at `(y, x)`. -/
def paddedPixel (m : Mem) (src kernel : Ptr) (height width y x : Nat) : Int :=
  taps3.foldl (paddedTap m src kernel height width y x) 0

/-- One tap of the 3x3 stencil whose top-left corner is `(y, x)`, no padding. -/
def validTap (m : Mem) (src kernel : Ptr) (width y x : Nat) (sum : Int) (d : Nat × Nat) : Int :=
  wrap32 (sum + wrap32 (m.get src ((y + d.1) * width + (x + d.2)) * m.get kernel (d.1 * 3 + d.2)))

/-- The 3x3 stencil whose top-left corner is `(y, x)`, no padding. -/
def validPixel (m : Mem) (src kernel : Ptr) (width y x : Nat) : Int :=
  taps3.foldl (validTap m src kernel width y x) 0

/-- The memory after the first `rows` rows of `ConvolveAVX2`: row `y` of `dst` has received
`width - 2` values. -/
def rowsWritten (dst : Ptr) (width : Nat) (val : Nat → Nat → Int) (m : Mem) : Nat → Mem
  | 0 => m
  | y + 1 => (rowsWritten dst width val m y).write (dst.add (y * width))
      ((List.range (width - 2)).map (val y))

/-- The number of positions of the 3x3 window centred at `(y, x)` that lie inside
`[0, height) x [0, width)`. -/
def windowCount (height width y x : Nat) : Nat :=
  taps3.countP (fun d => decide (1 ≤ y + d.1 ∧ y + d.1 ≤ height ∧ 1 ≤ x + d.2 ∧ x + d.2 ≤ width))

/-! ## Frames and exact sums (used in statements) -/

/-- The memory `m1` differs from `m` at most in the `n` elements at `dst`: every other block
is the same, the block of `dst` keeps its length, and so does every element of it outside
`[dst, dst + n)`. -/
def Mem.sameOutside (m m1 : Mem) (dst : Ptr) (n : Nat) : Prop :=
  (∀ b, b ≠ dst.block → m1 b = m b) ∧
    (m1 dst.block).length = (m dst.block).length ∧
    ∀ j, (j < dst.off ∨ dst.off + n ≤ j) → (m1 dst.block)[j]? = (m dst.block)[j]?

/-! ## Concrete memories for the examples -/

/-- A memory whose block 0 holds `xs` and block 1 holds `ys`. -/
def mem2 (xs ys : List Int) : Mem := fun b => if b = 0 then xs else if b = 1 then ys else []

/-- A memory whose blocks 0, 1 and 2 hold `xs`, `ys` and `zs`. -/
def mem3 (xs ys zs : List Int) : Mem :=
  fun b => if b = 0 then xs else if b = 1 then ys else if b = 2 then zs else []

/-- The values `1, 2, ..., n`, used as a test image. -/
def ramp (n : Nat) : List Int := (List.range n).map (fun i => (i : Int) + 1)

/-! ## Memory lemmas -/

theorem take_splice (a v c : List Int) : List.take (a.length + v.length) (a ++ v ++ c) = a ++ v := by
  rw [show a.length + v.length = (a ++ v).length by simp, List.take_left]

theorem drop_splice (a v c : List Int) (k : Nat) :
    List.drop (a.length + v.length + k) (a ++ v ++ c) = List.drop k c := by
  rw [show a.length + v.length + k = (a ++ v).length + k by simp, ← List.drop_drop,
    List.drop_left]

theorem length_take_off (l : List Int) (off k : Nat) (h : off + k ≤ l.length) :
    (l.take off).length = off := by
  simp only [List.length_take]
  omega

theorem Mem.write_nil (m : Mem) (p : Ptr) : m.write p [] = m := by
  simp [Mem.write]

theorem Mem.write_block (m : Mem) (p : Ptr) (vs : List Int) :
    (m.write p vs) p.block
      = (m p.block).take p.off ++ vs ++ (m p.block).drop (p.off + vs.length) := by
  simp [Mem.write]

theorem Mem.write_other (m : Mem) (p : Ptr) (vs : List Int) (b : Nat) (h : b ≠ p.block) :
    (m.write p vs) b = m b := by
  simp [Mem.write, Function.update_noteq h]

theorem Mem.length_write (m : Mem) (p : Ptr) (vs : List Int) (b : Nat)
    (h : m.valid p vs.length) : ((m.write p vs) b).length = (m b).length := by
  unfold Mem.valid at h
  by_cases hb : b = p.block
  · subst hb
    rw [Mem.write_block]
    simp only [List.length_append, List.length_take, List.length_drop]
    omega
  · rw [Mem.write_other m p vs b hb]

theorem Mem.valid_write (m : Mem) (p q : Ptr) (vs : List Int) (k : Nat)
    (h : m.valid p vs.length) : (m.write p vs).valid q k ↔ m.valid q k := by
  unfold Mem.valid
  rw [Mem.length_write m p vs q.block h]

theorem Mem.write_write_adj (m : Mem) (p : Ptr) (vs ws : List Int)
    (h : m.valid p vs.length) :
    (m.write p vs).write (p.add vs.length) ws = m.write p (vs ++ ws) := by
  unfold Mem.valid at h
  have hlen := length_take_off (m p.block) p.off vs.length h
  have h1 : List.take (p.off + vs.length)
      ((m p.block).take p.off ++ vs ++ (m p.block).drop (p.off + vs.length))
      = (m p.block).take p.off ++ vs := by
    have := take_splice ((m p.block).take p.off) vs ((m p.block).drop (p.off + vs.length))
    rw [hlen] at this
    exact this
  have h2 : List.drop (p.off + vs.length + ws.length)
      ((m p.block).take p.off ++ vs ++ (m p.block).drop (p.off + vs.length))
      = (m p.block).drop (p.off + (vs.length + ws.length)) := by
    have := drop_splice ((m p.block).take p.off) vs ((m p.block).drop (p.off + vs.length))
      ws.length
    rw [hlen] at this
    rw [this, List.drop_drop]
    congr 1
    omega
  show Function.update (m.write p vs) p.block _ = Function.update m p.block _
  simp only [Ptr.add]
  rw [Mem.write_block, h1, h2]
  unfold Mem.write
  rw [Function.update_idem]
  simp [List.append_assoc]

theorem Mem.read_add (m : Mem) (p : Ptr) (a b : Nat) :
    m.read p (a + b) = m.read p a ++ m.read (p.add a) b := by
  simp [Mem.read, Ptr.add, List.take_add, List.drop_drop]

theorem Mem.length_read (m : Mem) (p : Ptr) (n : Nat) (h : m.valid p n) :
    (m.read p n).length = n := by
  unfold Mem.valid at h
  simp only [Mem.read, List.length_take, List.length_drop]
  omega

theorem Mem.read_write_other (m : Mem) (p q : Ptr) (vs : List Int) (k : Nat)
    (h : q.block ≠ p.block) : (m.write p vs).read q k = m.read q k := by
  simp [Mem.read, Mem.write_other m p vs q.block h]

theorem Mem.read_write_after (m : Mem) (p : Ptr) (vs : List Int) (j k : Nat)
    (h : m.valid p vs.length) :
    (m.write p vs).read (p.add (vs.length + j)) k = m.read (p.add (vs.length + j)) k := by
  unfold Mem.valid at h
  have hlen := length_take_off (m p.block) p.off vs.length h
  simp only [Mem.read, Ptr.add]
  rw [Mem.write_block]
  congr 1
  have := drop_splice ((m p.block).take p.off) vs ((m p.block).drop (p.off + vs.length)) j
  rw [hlen] at this
  rw [show p.off + (vs.length + j) = p.off + vs.length + j by omega, this, List.drop_drop]

theorem Mem.read_write_same (m : Mem) (p : Ptr) (vs : List Int)
    (h : m.valid p vs.length) : (m.write p vs).read p vs.length = vs := by
  unfold Mem.valid at h
  have hlen := length_take_off (m p.block) p.off vs.length h
  simp only [Mem.read]
  rw [Mem.write_block, List.append_assoc]
  have h1 : List.drop p.off
      ((m p.block).take p.off ++ (vs ++ (m p.block).drop (p.off + vs.length)))
      = vs ++ (m p.block).drop (p.off + vs.length) := by
    have := List.drop_left ((m p.block).take p.off)
      (vs ++ (m p.block).drop (p.off + vs.length))
    rw [hlen] at this
    exact this
  rw [h1, List.take_left]

theorem Mem.valid_mono (m : Mem) (p : Ptr) (a b : Nat) (hab : a ≤ b) (h : m.valid p b) :
    m.valid p a := by
  unfold Mem.valid at *
  omega

theorem Mem.valid_add (m : Mem) (p : Ptr) (i k n : Nat) (hik : i + k ≤ n) (h : m.valid p n) :
    m.valid (p.add i) k := by
  unfold Mem.valid at *
  simp only [Ptr.add]
  omega

theorem Mem.load_eq (m : Mem) (p : Ptr) (h : m.valid p 1) :
    ∃ x, m.load p = .ok x ∧ m.read p 1 = [x] := by
  unfold Mem.valid at h
  have hlt : p.off < (m p.block).length := by omega
  refine ⟨(m p.block)[p.off], ?_, ?_⟩
  · simp [Mem.load, List.getElem?_eq_getElem hlt]
  · simp only [Mem.read]
    rw [List.drop_eq_getElem_cons hlt]
    rfl

theorem Mem.loadVec_eq (m : Mem) (p : Ptr) (k : Nat) (h : m.valid p k) :
    m.loadVec p k = .ok (m.read p k) := by
  unfold Mem.valid at h
  simp [Mem.loadVec, h]

theorem Mem.storeVec_eq (m : Mem) (p : Ptr) (v : List Int) (h : m.valid p v.length) :
    m.storeVec p v = .ok (m.write p v) := by
  unfold Mem.valid at h
  simp [Mem.storeVec, h]

theorem Mem.store_eq (m : Mem) (p : Ptr) (x : Int) (h : m.valid p 1) :
    m.store p x = .ok (m.write p [x]) := by
  unfold Mem.valid at h
  simp [Mem.store, h]

theorem ISA.kLanes_pos (isa : ISA) : 0 < isa.kLanes := by
  cases isa <;> decide

theorem ISA.Load_eq (isa : ISA) (m : Mem) (p : Ptr) (h : m.valid p isa.kLanes) :
    isa.Load m p = .ok (m.read p isa.kLanes) := by
  cases isa
  · exact Mem.loadVec_eq m p 4 h
  · exact Mem.loadVec_eq m p 8 h

theorem ISA.Store_eq (isa : ISA) (m : Mem) (p : Ptr) (v : List Int)
    (hv : v.length = isa.kLanes) (h : m.valid p isa.kLanes) :
    isa.Store m p v = .ok (m.write p v) := by
  have h2 : m.valid p v.length := by rw [hv]; exact h
  cases isa
  · simp only [ISA.Store, mm_storeu_si128]
    rw [if_pos (by simpa [ISA.kLanes] using hv)]
    exact Mem.storeVec_eq m p v h2
  · simp only [ISA.Store, mm256_storeu_si256]
    rw [if_pos (by simpa [ISA.kLanes] using hv)]
    exact Mem.storeVec_eq m p v h2

/-! ## Loop rules -/

theorem forCount_rule {σ : Type} (Inv : Nat → σ → Prop) (body : Nat → σ → Except Fault σ) :
    ∀ (count lo : Nat) (s : σ), Inv lo s →
      (∀ i t, lo ≤ i → i < lo + count → Inv i t → ∃ t1, body i t = .ok t1 ∧ Inv (i + 1) t1) →
      ∃ s1, forCount body count lo s = .ok s1 ∧ Inv (lo + count) s1 := by
  intro count
  induction count with
  | zero =>
    intro lo s h _
    exact ⟨s, rfl, h⟩
  | succ k ih =>
    intro lo s h hb
    obtain ⟨t1, ht1, hI⟩ := hb lo s (Nat.le_refl lo) (by omega) h
    obtain ⟨s1, hs1, hI1⟩ := ih (lo + 1) t1 hI (fun i t hi1 hi2 hI2 =>
      hb i t (by omega) (by omega) hI2)
    refine ⟨s1, ?_, ?_⟩
    · simp only [forCount, ht1]
      exact hs1
    · rw [show lo + (k + 1) = lo + 1 + k by omega]
      exact hI1

theorem forRange_rule {σ : Type} (Inv : Nat → σ → Prop) (body : Nat → σ → Except Fault σ)
    (lo hi : Nat) (s : σ) (hle : lo ≤ hi) (h0 : Inv lo s)
    (hb : ∀ i t, lo ≤ i → i < hi → Inv i t → ∃ t1, body i t = .ok t1 ∧ Inv (i + 1) t1) :
    ∃ s1, forRange lo hi body s = .ok s1 ∧ Inv hi s1 := by
  obtain ⟨s1, hs1, hI⟩ := forCount_rule Inv body (hi - lo) lo s h0 (fun i t h1 h2 h3 =>
    hb i t h1 (by omega) h3)
  refine ⟨s1, hs1, ?_⟩
  rw [show hi = lo + (hi - lo) by omega]
  exact hI

theorem forStep_rule {σ : Type} (Inv : Nat → σ → Prop) (step n : Nat)
    (body : Nat → σ → Except Fault σ)
    (hb : ∀ i t, i + step ≤ n → Inv i t → ∃ t1, body i t = .ok t1 ∧ Inv (i + step) t1) :
    ∀ (fuel i : Nat) (s : σ), n < i + (fuel + 1) * step → Inv i s →
      ∃ i1 s1, forStep step n body fuel i s = .ok (i1, s1) ∧ Inv i1 s1 ∧ n < i1 + step ∧
        i ≤ i1 ∧ (i + step ≤ n → i1 ≤ n) := by
  intro fuel
  induction fuel with
  | zero =>
    intro i s hf h
    refine ⟨i, s, ?_, h, by omega, Nat.le_refl i, by omega⟩
    simp only [forStep]
    rw [if_neg (by omega)]
  | succ k ih =>
    intro i s hf h
    by_cases hg : i + step ≤ n
    · obtain ⟨t1, ht1, hI⟩ := hb i s hg h
      have hf2 : n < i + step + (k + 1) * step := by
        have : (k + 1 + 1) * step = (k + 1) * step + step := by ring
        omega
      obtain ⟨i1, s1, hs1, hI1, hex, hle, hle2⟩ := ih (i + step) t1 hf2 hI
      refine ⟨i1, s1, ?_, hI1, hex, by omega, ?_⟩
      · simp only [forStep]
        rw [if_pos hg]
        simp only [ht1]
        exact hs1
      · intro _
        by_cases hg2 : i + step + step ≤ n
        · exact hle2 hg2
        · have : forStep step n body k (i + step) t1 = .ok (i + step, t1) := by
            cases k with
            | zero => simp only [forStep]; rw [if_neg hg2]
            | succ k2 => simp only [forStep]; rw [if_neg hg2]
          rw [this] at hs1
          injection hs1 with hs1
          injection hs1 with ha hb2
          omega
    · refine ⟨i, s, ?_, h, by omega, Nat.le_refl i, by omega⟩
      simp only [forStep]
      rw [if_neg hg]

/-! ## Elementwise loops: one step -/

theorem step_valid (m : Mem) (p q : Ptr) (vs : List Int) (i k n : Nat)
    (hlen : vs.length ≤ n) (hp : m.valid p n) (hq : m.valid q n) (hik : i + k ≤ n) :
    (m.write p vs).valid (q.add i) k := by
  rw [Mem.valid_write m p (q.add i) vs k (Mem.valid_mono m p _ n hlen hp)]
  exact Mem.valid_add m q i k n hik hq

theorem step_read (m : Mem) (src dst : Ptr) (vs : List Int) (i k n : Nat)
    (hlen : vs.length = i) (hin : i ≤ n) (hdst : m.valid dst n)
    (hal : src.block ≠ dst.block ∨ src = dst) :
    (m.write dst vs).read (src.add i) k = m.read (src.add i) k := by
  rcases hal with h | h
  · exact Mem.read_write_other m dst (src.add i) vs k h
  · subst h
    have := Mem.read_write_after m src vs 0 k (Mem.valid_mono m src _ n (by omega) hdst)
    rw [Nat.add_zero, hlen] at this
    exact this

theorem step_write (m : Mem) (dst : Ptr) (vs ws : List Int) (i n : Nat)
    (hlen : vs.length = i) (hin : i ≤ n) (hdst : m.valid dst n) :
    (m.write dst vs).write (dst.add i) ws = m.write dst (vs ++ ws) := by
  have := Mem.write_write_adj m dst vs ws (Mem.valid_mono m dst _ n (by omega) hdst)
  rw [hlen] at this
  exact this

/-! ## `Map` computes the elementwise image -/

theorem Map_vectorStep_eq (isa : ISA) (Op : ISA → UnaryOp) (f : Int → Int)
    (hP : ∀ v, (Op isa).Process v = v.map f)
    (m : Mem) (src dst : Ptr) (n i : Nat) (hsrc : m.valid src n) (hdst : m.valid dst n)
    (hal : src.block ≠ dst.block ∨ src = dst) (hi : i + isa.kLanes ≤ n) :
    Map.vectorStep isa Op src dst i (m.write dst ((m.read src i).map f))
      = .ok (m.write dst ((m.read src (i + isa.kLanes)).map f)) := by
  have hl : ((m.read src i).map f).length = i := by
    rw [List.length_map, Mem.length_read m src i (Mem.valid_mono m src i n (by omega) hsrc)]
  have hv1 := step_valid m dst src ((m.read src i).map f) i isa.kLanes n (by omega) hdst hsrc hi
  have hv2 := step_valid m dst dst ((m.read src i).map f) i isa.kLanes n (by omega) hdst hdst hi
  have hr := step_read m src dst ((m.read src i).map f) i isa.kLanes n hl (by omega) hdst hal
  unfold Map.vectorStep
  rw [ISA.Load_eq isa _ _ hv1, hr]
  simp only [bind, Except.bind]
  rw [hP, ISA.Store_eq isa _ _ _ _ hv2, step_write m dst _ _ i n hl (by omega) hdst,
    Mem.read_add, List.map_append]
  rw [List.length_map]
  exact Mem.length_read m _ _ (Mem.valid_add m src i _ n hi hsrc)

theorem Map_scalarStep_eq (isa : ISA) (Op : ISA → UnaryOp) (f : Int → Int)
    (hS : ∀ a, (Op isa).ProcessScalar a = f a)
    (m : Mem) (src dst : Ptr) (n i : Nat) (hsrc : m.valid src n) (hdst : m.valid dst n)
    (hal : src.block ≠ dst.block ∨ src = dst) (hi : i + 1 ≤ n) :
    Map.scalarStep isa Op src dst i (m.write dst ((m.read src i).map f))
      = .ok (m.write dst ((m.read src (i + 1)).map f)) := by
  have hl : ((m.read src i).map f).length = i := by
    rw [List.length_map, Mem.length_read m src i (Mem.valid_mono m src i n (by omega) hsrc)]
  have hv1 := step_valid m dst src ((m.read src i).map f) i 1 n (by omega) hdst hsrc hi
  have hv2 := step_valid m dst dst ((m.read src i).map f) i 1 n (by omega) hdst hdst hi
  have hr := step_read m src dst ((m.read src i).map f) i 1 n hl (by omega) hdst hal
  obtain ⟨x, hx, hx1⟩ := Mem.load_eq _ _ hv1
  unfold Map.scalarStep
  rw [hx]
  simp only [bind, Except.bind]
  rw [hS, Mem.store_eq _ _ _ hv2, step_write m dst _ _ i n hl (by omega) hdst,
    Mem.read_add, List.map_append, ← hr, hx1]
  rfl

theorem Map_eq (isa : ISA) (Op : ISA → UnaryOp) (f : Int → Int)
    (hP : ∀ v, (Op isa).Process v = v.map f) (hS : ∀ a, (Op isa).ProcessScalar a = f a)
    (m : Mem) (src dst : Ptr) (n : Nat) (hsrc : m.valid src n) (hdst : m.valid dst n)
    (hal : src.block ≠ dst.block ∨ src = dst) :
    Map isa Op m src dst n = .ok (m.write dst ((m.read src n).map f)) := by
  obtain ⟨i1, m1, h1, ⟨hle, hm1⟩, _, _, _⟩ :=
    forStep_rule (fun i t => i ≤ n ∧ t = m.write dst ((m.read src i).map f)) isa.kLanes n
      (Map.vectorStep isa Op src dst)
      (fun i t hi hI => ⟨m.write dst ((m.read src (i + isa.kLanes)).map f),
        hI.2 ▸ Map_vectorStep_eq isa Op f hP m src dst n i hsrc hdst hal hi, hi, rfl⟩)
      n 0 m (by have := ISA.kLanes_pos isa; nlinarith)
      ⟨Nat.zero_le n, by simp [Mem.read, Mem.write_nil]⟩
  obtain ⟨m2, h2, _, hm2⟩ :=
    forRange_rule (fun i t => i ≤ n ∧ t = m.write dst ((m.read src i).map f)) 
      (Map.scalarStep isa Op src dst) i1 n m1 hle ⟨hle, hm1⟩
      (fun i t _ hi hI => ⟨m.write dst ((m.read src (i + 1)).map f),
        hI.2 ▸ Map_scalarStep_eq isa Op f hS m src dst n i hsrc hdst hal hi, hi, rfl⟩)
  unfold Map
  simp only [bind, Except.bind, h1, h2, hm2]

theorem zipWith_diag (g : Int → Int → Int) (v : List Int) :
    List.zipWith g v v = v.map (fun a => g a a) := by
  induction v with
  | nil => rfl
  | cons a t ih => simp [ih]

theorem SimdSquare_Process (isa : ISA) (v : List Int) :
    (SimdSquare isa).Process v = v.map (fun a => wrap32 (a * a)) := by
  cases isa <;> simp [SimdSquare, mullo_epi32, zipWith_diag]

theorem SimdSquare_ProcessScalar (isa : ISA) (a : Int) :
    (SimdSquare isa).ProcessScalar a = wrap32 (a * a) := by
  cases isa <;> rfl

/-! ## `Zip` computes the elementwise combination -/

theorem Zip_vectorStep_eq (isa : ISA) (Op : ISA → BinaryOp) (f : Int → Int → Int)
    (hP : ∀ a b, (Op isa).Process a b = .ok (List.zipWith f a b))
    (m : Mem) (src1 src2 dst : Ptr) (n i : Nat)
    (hsrc1 : m.valid src1 n) (hsrc2 : m.valid src2 n) (hdst : m.valid dst n)
    (hal1 : src1.block ≠ dst.block ∨ src1 = dst) (hal2 : src2.block ≠ dst.block ∨ src2 = dst)
    (hi : i + isa.kLanes ≤ n) :
    Zip.vectorStep isa Op src1 src2 dst i
        (m.write dst (List.zipWith f (m.read src1 i) (m.read src2 i)))
      = .ok (m.write dst
          (List.zipWith f (m.read src1 (i + isa.kLanes)) (m.read src2 (i + isa.kLanes)))) := by
  have hl1 := Mem.length_read m src1 i (Mem.valid_mono m src1 i n (by omega) hsrc1)
  have hl2 := Mem.length_read m src2 i (Mem.valid_mono m src2 i n (by omega) hsrc2)
  have hk1 := Mem.length_read m _ _ (Mem.valid_add m src1 i _ n hi hsrc1)
  have hk2 := Mem.length_read m _ _ (Mem.valid_add m src2 i _ n hi hsrc2)
  have hl : (List.zipWith f (m.read src1 i) (m.read src2 i)).length = i := by
    rw [List.length_zipWith, hl1, hl2, Nat.min_self]
  have hv1 := step_valid m dst src1 (List.zipWith f (m.read src1 i) (m.read src2 i))
    i isa.kLanes n (by omega) hdst hsrc1 hi
  have hv2 := step_valid m dst src2 (List.zipWith f (m.read src1 i) (m.read src2 i))
    i isa.kLanes n (by omega) hdst hsrc2 hi
  have hv3 := step_valid m dst dst (List.zipWith f (m.read src1 i) (m.read src2 i))
    i isa.kLanes n (by omega) hdst hdst hi
  have hr1 := step_read m src1 dst (List.zipWith f (m.read src1 i) (m.read src2 i))
    i isa.kLanes n hl (by omega) hdst hal1
  have hr2 := step_read m src2 dst (List.zipWith f (m.read src1 i) (m.read src2 i))
    i isa.kLanes n hl (by omega) hdst hal2
  unfold Zip.vectorStep
  rw [ISA.Load_eq isa _ _ hv1, ISA.Load_eq isa _ _ hv2, hr1, hr2]
  simp only [bind, Except.bind]
  rw [hP]
  simp only []
  rw [ISA.Store_eq isa _ _ _ _ hv3, step_write m dst _ _ i n hl (by omega) hdst,
    Mem.read_add, Mem.read_add, List.zipWith_append f _ _ _ _ (by rw [hl1, hl2])]
  rw [List.length_zipWith, hk1, hk2, Nat.min_self]

theorem Zip_scalarStep_eq (isa : ISA) (Op : ISA → BinaryOp) (f : Int → Int → Int)
    (hS : ∀ a b, (Op isa).ProcessScalar a b = .ok (f a b))
    (m : Mem) (src1 src2 dst : Ptr) (n i : Nat)
    (hsrc1 : m.valid src1 n) (hsrc2 : m.valid src2 n) (hdst : m.valid dst n)
    (hal1 : src1.block ≠ dst.block ∨ src1 = dst) (hal2 : src2.block ≠ dst.block ∨ src2 = dst)
    (hi : i + 1 ≤ n) :
    Zip.scalarStep isa Op src1 src2 dst i
        (m.write dst (List.zipWith f (m.read src1 i) (m.read src2 i)))
      = .ok (m.write dst (List.zipWith f (m.read src1 (i + 1)) (m.read src2 (i + 1)))) := by
  have hl1 := Mem.length_read m src1 i (Mem.valid_mono m src1 i n (by omega) hsrc1)
  have hl2 := Mem.length_read m src2 i (Mem.valid_mono m src2 i n (by omega) hsrc2)
  have hl : (List.zipWith f (m.read src1 i) (m.read src2 i)).length = i := by
    rw [List.length_zipWith, hl1, hl2, Nat.min_self]
  have hv1 := step_valid m dst src1 (List.zipWith f (m.read src1 i) (m.read src2 i))
    i 1 n (by omega) hdst hsrc1 hi
  have hv2 := step_valid m dst src2 (List.zipWith f (m.read src1 i) (m.read src2 i))
    i 1 n (by omega) hdst hsrc2 hi
  have hv3 := step_valid m dst dst (List.zipWith f (m.read src1 i) (m.read src2 i))
    i 1 n (by omega) hdst hdst hi
  have hr1 := step_read m src1 dst (List.zipWith f (m.read src1 i) (m.read src2 i))
    i 1 n hl (by omega) hdst hal1
  have hr2 := step_read m src2 dst (List.zipWith f (m.read src1 i) (m.read src2 i))
    i 1 n hl (by omega) hdst hal2
  obtain ⟨x, hx, hx1⟩ := Mem.load_eq _ _ hv1
  obtain ⟨y, hy, hy1⟩ := Mem.load_eq _ _ hv2
  unfold Zip.scalarStep
  rw [hx, hy]
  simp only [bind, Except.bind]
  rw [hS]
  simp only []
  rw [Mem.store_eq _ _ _ hv3, step_write m dst _ _ i n hl (by omega) hdst,
    Mem.read_add, Mem.read_add, List.zipWith_append f _ _ _ _ (by rw [hl1, hl2]),
    ← hr1, ← hr2, hx1, hy1]
  rfl

theorem Zip_eq (isa : ISA) (Op : ISA → BinaryOp) (f : Int → Int → Int)
    (hP : ∀ a b, (Op isa).Process a b = .ok (List.zipWith f a b))
    (hS : ∀ a b, (Op isa).ProcessScalar a b = .ok (f a b))
    (m : Mem) (src1 src2 dst : Ptr) (n : Nat)
    (hsrc1 : m.valid src1 n) (hsrc2 : m.valid src2 n) (hdst : m.valid dst n)
    (hal1 : src1.block ≠ dst.block ∨ src1 = dst) (hal2 : src2.block ≠ dst.block ∨ src2 = dst) :
    Zip isa Op m src1 src2 dst n
      = .ok (m.write dst (List.zipWith f (m.read src1 n) (m.read src2 n))) := by
  obtain ⟨i1, m1, h1, ⟨hle, hm1⟩, _, _, _⟩ :=
    forStep_rule
      (fun i t => i ≤ n ∧ t = m.write dst (List.zipWith f (m.read src1 i) (m.read src2 i)))
      isa.kLanes n (Zip.vectorStep isa Op src1 src2 dst)
      (fun i t hi hI => ⟨m.write dst
          (List.zipWith f (m.read src1 (i + isa.kLanes)) (m.read src2 (i + isa.kLanes))),
        hI.2 ▸ Zip_vectorStep_eq isa Op f hP m src1 src2 dst n i hsrc1 hsrc2 hdst hal1 hal2 hi,
        hi, rfl⟩)
      n 0 m (by have := ISA.kLanes_pos isa; nlinarith)
      ⟨Nat.zero_le n, by simp [Mem.read, Mem.write_nil]⟩
  obtain ⟨m2, h2, _, hm2⟩ :=
    forRange_rule
      (fun i t => i ≤ n ∧ t = m.write dst (List.zipWith f (m.read src1 i) (m.read src2 i)))
      (Zip.scalarStep isa Op src1 src2 dst) i1 n m1 hle ⟨hle, hm1⟩
      (fun i t _ hi hI => ⟨m.write dst
          (List.zipWith f (m.read src1 (i + 1)) (m.read src2 (i + 1))),
        hI.2 ▸ Zip_scalarStep_eq isa Op f hS m src1 src2 dst n i hsrc1 hsrc2 hdst hal1 hal2 hi,
        hi, rfl⟩)
  unfold Zip
  simp only [bind, Except.bind, h1, h2, hm2]

theorem Add_eq (isa : ISA) (m : Mem) (src1 src2 dst : Ptr) (n : Nat)
    (hsrc1 : m.valid src1 n) (hsrc2 : m.valid src2 n) (hdst : m.valid dst n)
    (hal1 : src1.block ≠ dst.block ∨ src1 = dst) (hal2 : src2.block ≠ dst.block ∨ src2 = dst) :
    Add isa m src1 src2 dst n = .ok (m.write dst
      (List.zipWith (fun a b => wrap32 (a + b)) (m.read src1 n) (m.read src2 n))) :=
  Zip_eq isa SimdAdd _ (by cases isa <;> intros <;> rfl) (by cases isa <;> intros <;> rfl)
    m src1 src2 dst n hsrc1 hsrc2 hdst hal1 hal2

theorem Sub_eq (isa : ISA) (m : Mem) (src1 src2 dst : Ptr) (n : Nat)
    (hsrc1 : m.valid src1 n) (hsrc2 : m.valid src2 n) (hdst : m.valid dst n)
    (hal1 : src1.block ≠ dst.block ∨ src1 = dst) (hal2 : src2.block ≠ dst.block ∨ src2 = dst) :
    Sub isa m src1 src2 dst n = .ok (m.write dst
      (List.zipWith (fun a b => wrap32 (a - b)) (m.read src1 n) (m.read src2 n))) :=
  Zip_eq isa SimdSub _ (by cases isa <;> intros <;> rfl) (by cases isa <;> intros <;> rfl)
    m src1 src2 dst n hsrc1 hsrc2 hdst hal1 hal2

theorem Mul_eq (isa : ISA) (m : Mem) (src1 src2 dst : Ptr) (n : Nat)
    (hsrc1 : m.valid src1 n) (hsrc2 : m.valid src2 n) (hdst : m.valid dst n)
    (hal1 : src1.block ≠ dst.block ∨ src1 = dst) (hal2 : src2.block ≠ dst.block ∨ src2 = dst) :
    Mul isa m src1 src2 dst n = .ok (m.write dst
      (List.zipWith (fun a b => wrap32 (a * b)) (m.read src1 n) (m.read src2 n))) :=
  Zip_eq isa SimdMul _ (by cases isa <;> intros <;> rfl) (by cases isa <;> intros <;> rfl)
    m src1 src2 dst n hsrc1 hsrc2 hdst hal1 hal2

/-! ## Reading single elements -/

theorem Mem.load_iff_read (m : Mem) (p : Ptr) (n i : Nat) (a : Int) (hi : i < n) :
    m.load (p.add i) = .ok a ↔ (m.read p n)[i]? = some a := by
  simp only [Mem.load, Mem.read, Ptr.add, List.getElem?_take, if_pos hi, List.getElem?_drop]
  cases (m p.block)[p.off + i]? with
  | none => simp
  | some v => simp

theorem Mem.load_exists (m : Mem) (p : Ptr) (n i : Nat) (hi : i < n) (h : m.valid p n) :
    ∃ a, m.load (p.add i) = .ok a := by
  obtain ⟨x, hx, _⟩ := Mem.load_eq m (p.add i) (Mem.valid_add m p i 1 n (by omega) h)
  exact ⟨x, hx⟩

theorem Mem.load_write (m : Mem) (dst : Ptr) (vs : List Int) (i : Nat) (v : Int)
    (hdst : m.valid dst vs.length) (hv : vs[i]? = some v) :
    (m.write dst vs).load (dst.add i) = .ok v := by
  have hi : i < vs.length := (List.getElem?_eq_some.mp hv).1
  rw [Mem.load_iff_read _ dst vs.length i v hi, Mem.read_write_same m dst vs hdst]
  exact hv

/-! ## Algebra of reductions -/

theorem foldr_closed {f : Int → Int → Int} {e : Int} (L : ReductionLaws f e) :
    ∀ l : List Int, (∀ x ∈ l, isInt32 x) → isInt32 (List.foldr f e l)
  | [], _ => L.ident_mem
  | x :: l, h => L.closed _ _ (h x (List.mem_cons_self x l))
      (foldr_closed L l (fun y hy => h y (List.mem_cons_of_mem x hy)))

theorem foldr_app {f : Int → Int → Int} {e : Int} (L : ReductionLaws f e)
    (l1 l2 : List Int) (h2 : ∀ x ∈ l2, isInt32 x) :
    List.foldr f e (l1 ++ l2) = f (List.foldr f e l1) (List.foldr f e l2) := by
  induction l1 with
  | nil => exact (L.ident _ (foldr_closed L l2 h2)).symm
  | cons x l ih =>
    simp only [List.cons_append, List.foldr_cons]
    rw [ih, L.assoc]

theorem foldr_single {f : Int → Int → Int} {e : Int} (L : ReductionLaws f e) (x : Int)
    (hx : isInt32 x) : List.foldr f e [x] = x := by
  simp only [List.foldr_cons, List.foldr_nil]
  rw [L.comm, L.ident x hx]

theorem foldr_snoc {f : Int → Int → Int} {e : Int} (L : ReductionLaws f e)
    (l : List Int) (x : Int) (hx : isInt32 x) :
    List.foldr f e (l ++ [x]) = f (List.foldr f e l) x := by
  rw [foldr_app L l [x] (by intro y hy; rw [List.mem_singleton.mp hy]; exact hx),
    foldr_single L x hx]

theorem foldr_zipWith {f : Int → Int → Int} {e : Int} (L : ReductionLaws f e) :
    ∀ a v : List Int, a.length = v.length →
      List.foldr f e (List.zipWith f a v) = f (List.foldr f e a) (List.foldr f e v)
  | [], [], _ => (L.ident e L.ident_mem).symm
  | [], _ :: _, h => by simp at h
  | _ :: _, [], h => by simp at h
  | x :: a, y :: v, h => by
    have ih := foldr_zipWith L a v (by simpa using h)
    simp only [List.zipWith_cons_cons, List.foldr_cons]
    rw [ih, L.assoc, L.assoc]
    congr 1
    rw [← L.assoc, ← L.assoc, L.comm y]

theorem zipWith_closed {f : Int → Int → Int} {e : Int} (L : ReductionLaws f e)
    (a v : List Int) (ha : ∀ x ∈ a, isInt32 x) (hv : ∀ x ∈ v, isInt32 x) :
    ∀ x ∈ List.zipWith f a v, isInt32 x := by
  intro x hx
  obtain ⟨i, hi⟩ := List.mem_iff_getElem?.mp hx
  obtain ⟨p, q, hp, hq, hpq⟩ := List.getElem?_zipWith_eq_some.mp hi
  rw [← hpq]
  exact L.closed _ _ (ha p (List.mem_iff_getElem?.mpr ⟨i, hp⟩))
    (hv q (List.mem_iff_getElem?.mpr ⟨i, hq⟩))

theorem foldl_eq_foldr_of_laws {f : Int → Int → Int} {e : Int} (L : ReductionLaws f e)
    (l : List Int) : List.foldl f e l = List.foldr f e l := by
  haveI : Std.Commutative f := ⟨L.comm⟩
  haveI : Std.Associative f := ⟨L.assoc⟩
  exact List.foldl_eq_foldr e l

theorem foldl_perm_of_laws {f : Int → Int → Int} {e : Int} (L : ReductionLaws f e)
    (l1 l2 : List Int) (h : l1.Perm l2) : List.foldl f e l1 = List.foldl f e l2 := by
  haveI : RightCommutative f := ⟨fun a b c => by
    rw [L.assoc, L.comm b c, ← L.assoc]⟩
  exact h.foldl_eq e

theorem bankTotal_set {f : Int → Int → Int} {e : Int} (L : ReductionLaws f e) :
    ∀ (accs : List (List Int)) (j : Nat) (a w : List Int) (x : Int),
      accs[j]? = some a → List.foldr f e w = f (List.foldr f e a) x →
      bankTotal f e (accs.set j w) = f (bankTotal f e accs) x
  | [], _, _, _, _, h, _ => by simp at h
  | u :: rest, 0, a, w, x, h, hw => by
    have hu : u = a := by simpa using h
    subst hu
    simp only [List.set_cons_zero, bankTotal]
    rw [hw, L.assoc, L.assoc, L.comm x]
  | u :: rest, j + 1, a, w, x, h, hw => by
    have ih := bankTotal_set L rest j a w x (by simpa using h) hw
    simp only [List.set_cons_succ, bankTotal]
    rw [ih, L.assoc]

theorem bankTotal_snoc {f : Int → Int → Int} {e : Int} (L : ReductionLaws f e)
    (l : List (List Int)) (v : List Int) :
    bankTotal f e (l ++ [v]) = f (bankTotal f e l) (List.foldr f e v) := by
  induction l with
  | nil =>
    simp only [List.nil_append, bankTotal]
    exact L.comm _ _
  | cons u l ih =>
    show f (List.foldr f e u) (bankTotal f e (l ++ [v])) = _
    rw [ih, bankTotal, L.assoc]

theorem foldr_replicate_ident {f : Int → Int → Int} {e : Int} (L : ReductionLaws f e)
    (k : Nat) : List.foldr f e (List.replicate k e) = e := by
  induction k with
  | zero => rfl
  | succ k ih =>
    simp only [List.replicate_succ, List.foldr_cons]
    rw [ih, L.ident e L.ident_mem]

theorem bankTotal_replicate {f : Int → Int → Int} {e : Int} (L : ReductionLaws f e)
    (k lanes : Nat) : bankTotal f e (List.replicate k (List.replicate lanes e)) = e := by
  induction k with
  | zero => rfl
  | succ k ih =>
    simp only [List.replicate_succ, bankTotal]
    rw [ih, foldr_replicate_ident L, L.ident e L.ident_mem]

theorem bankTotal_take_succ {f : Int → Int → Int} {e : Int} (L : ReductionLaws f e)
    (accs : List (List Int)) (j : Nat) (a : List Int) (h : accs[j]? = some a) :
    bankTotal f e (accs.take (j + 1)) = f (bankTotal f e (accs.take j)) (List.foldr f e a) := by
  rw [List.take_succ, h]
  exact bankTotal_snoc L _ a

theorem Mem.mem_read_sub (m : Mem) (p : Ptr) (i k n : Nat) (hik : i + k ≤ n) :
    ∀ x ∈ m.read (p.add i) k, x ∈ m.read p n := by
  intro x hx
  have h1 : m.read p n = m.read p i ++ (m.read (p.add i) k ++ m.read ((p.add i).add k) (n - i - k)) := by
    rw [← Mem.read_add, ← Mem.read_add]
    congr 1
    omega
  rw [h1]
  exact List.mem_append_right _ (List.mem_append_left _ hx)

theorem arrGet_eq {α : Type} (a : List α) (i : Nat) (v : α) (h : a[i]? = some v) :
    arrGet a i = .ok v := by
  simp [arrGet, h]

theorem arrSet_eq {α : Type} (a : List α) (i : Nat) (v : α) (h : i < a.length) :
    arrSet a i v = .ok (a.set i v) := by
  simp [arrSet, h]

/-! ## `Reduce` computes the fold of the array -/

theorem Reduce_init_eq (isa : ISA) (Op : ISA → ReduceOp) (k : Nat) :
    forRange 0 k (Reduce.initStep isa Op) (List.replicate k [])
      = .ok (List.replicate k (Op isa).Identity) := by
  obtain ⟨s1, h1, hlen, hget⟩ :=
    forRange_rule (fun i accs => accs.length = k ∧ ∀ j, j < i → accs[j]? = some (Op isa).Identity)
      (Reduce.initStep isa Op) 0 k (List.replicate k []) (Nat.zero_le k)
      ⟨List.length_replicate k [], fun j hj => absurd hj (Nat.not_lt_zero j)⟩
      (fun i t _ hi hI => ⟨t.set i (Op isa).Identity,
        arrSet_eq t i _ (by rw [hI.1]; exact hi),
        by rw [List.length_set]; exact hI.1,
        fun j hj => by
          rw [List.getElem?_set]
          by_cases hij : i = j
          · rw [if_pos hij, if_pos (by rw [hI.1]; exact hi)]
          · rw [if_neg hij]
            exact hI.2 j (by omega)⟩)
  rw [h1]
  congr 1
  rw [List.eq_replicate_iff]
  refine ⟨hlen, ?_⟩
  intro b hb
  obtain ⟨j, hj⟩ := List.mem_iff_getElem?.mp hb
  have hjk : j < k := by
    rw [← hlen]
    exact (List.getElem?_eq_some.mp hj).1
  rw [hget j hjk] at hj
  exact (Option.some.inj hj).symm

theorem BankInv_init {isa : ISA} {Op : ISA → ReduceOp} {f : Int → Int → Int} {e : Int}
    (S : ReduceOpSpec isa Op f e) (m : Mem) (src : Ptr) (k : Nat) :
    BankInv f e m src isa.kLanes k 0 (List.replicate k (Op isa).Identity) := by
  refine ⟨List.length_replicate _ _, ?_, ?_⟩
  · intro v hv
    rw [(List.mem_replicate.mp hv).2, S.identity]
    refine ⟨List.length_replicate _ _, ?_⟩
    intro x hx
    rw [(List.mem_replicate.mp hx).2]
    exact S.laws.ident_mem
  · rw [S.identity, bankTotal_replicate S.laws]
    rfl

theorem Reduce_bankStep_ok {isa : ISA} {Op : ISA → ReduceOp} {f : Int → Int → Int} {e : Int}
    (S : ReduceOpSpec isa Op f e) (m : Mem) (src : Ptr) (n k i j : Nat)
    (hval : ∀ a b, 0 < b → a + b ≤ n → m.valid (src.add a) b)
    (hD : ∀ x ∈ m.read src n, isInt32 x)
    (hj : j < k) (hi : i + k * isa.kLanes ≤ n) (accs : List (List Int))
    (hI : BankInv f e m src isa.kLanes k (i + j * isa.kLanes) accs) :
    ∃ accs1, Reduce.bankStep isa Op m src i j accs = .ok accs1 ∧
      BankInv f e m src isa.kLanes k (i + (j + 1) * isa.kLanes) accs1 := by
  obtain ⟨hlen, hall, htot⟩ := hI
  have hle : (j + 1) * isa.kLanes ≤ k * isa.kLanes := Nat.mul_le_mul_right _ hj
  have hsm : (j + 1) * isa.kLanes = j * isa.kLanes + isa.kLanes := Nat.succ_mul _ _
  have hin : i + j * isa.kLanes + isa.kLanes ≤ n := by omega
  have hv := hval (i + j * isa.kLanes) isa.kLanes (ISA.kLanes_pos isa) hin
  have hjl : j < accs.length := by rw [hlen]; exact hj
  have hget : accs[j]? = some accs[j] := List.getElem?_eq_getElem hjl
  have hmem : accs[j] ∈ accs := List.getElem_mem hjl
  have hvD : ∀ x ∈ m.read (src.add (i + j * isa.kLanes)) isa.kLanes, isInt32 x :=
    fun x hx => hD x (Mem.mem_read_sub m src _ _ n hin x hx)
  have hvl := Mem.length_read m _ _ hv
  refine ⟨accs.set j (List.zipWith f accs[j] (m.read (src.add (i + j * isa.kLanes)) isa.kLanes)),
    ?_, ?_, ?_, ?_⟩
  · unfold Reduce.bankStep
    rw [ISA.Load_eq isa m _ hv, arrGet_eq accs j _ hget]
    simp only [bind, Except.bind]
    rw [S.process, arrSet_eq _ _ _ hjl]
  · rw [List.length_set]
    exact hlen
  · intro v hv2
    rcases List.mem_or_eq_of_mem_set hv2 with h | h
    · exact hall v h
    · rw [h]
      refine ⟨?_, zipWith_closed S.laws _ _ (hall _ hmem).2 hvD⟩
      rw [List.length_zipWith, (hall _ hmem).1, hvl, Nat.min_self]
  · rw [bankTotal_set S.laws accs j accs[j] _
        (List.foldr f e (m.read (src.add (i + j * isa.kLanes)) isa.kLanes)) hget
        (foldr_zipWith S.laws _ _ (by rw [(hall _ hmem).1, hvl])),
      htot, ← foldr_app S.laws _ _ hvD, ← Mem.read_add, hsm, Nat.add_assoc]

theorem Reduce_chunkStep_ok {isa : ISA} {Op : ISA → ReduceOp} {f : Int → Int → Int} {e : Int}
    (S : ReduceOpSpec isa Op f e) (m : Mem) (src : Ptr) (n k i : Nat)
    (hval : ∀ a b, 0 < b → a + b ≤ n → m.valid (src.add a) b)
    (hD : ∀ x ∈ m.read src n, isInt32 x)
    (hi : i + k * isa.kLanes ≤ n) (accs : List (List Int))
    (hI : BankInv f e m src isa.kLanes k i accs) :
    ∃ accs1, Reduce.chunkStep isa Op k m src i accs = .ok accs1 ∧
      BankInv f e m src isa.kLanes k (i + k * isa.kLanes) accs1 := by
  obtain ⟨s1, h1, hI1⟩ :=
    forRange_rule (fun j t => BankInv f e m src isa.kLanes k (i + j * isa.kLanes) t)
      (Reduce.bankStep isa Op m src i) 0 k accs (Nat.zero_le k)
      (by simpa using hI)
      (fun j t _ hj hIj => Reduce_bankStep_ok S m src n k i j hval hD hj hi t hIj)
  exact ⟨s1, h1, hI1⟩

theorem Reduce_mergeStep_ok {isa : ISA} {Op : ISA → ReduceOp} {f : Int → Int → Int} {e : Int}
    (S : ReduceOpSpec isa Op f e) (accs : List (List Int))
    (hall : ∀ v ∈ accs, v.length = isa.kLanes ∧ ∀ x ∈ v, isInt32 x)
    (j : Nat) (hj : j < accs.length) (acc : List Int)
    (hI : acc.length = isa.kLanes ∧ (∀ x ∈ acc, isInt32 x) ∧
      List.foldr f e acc = bankTotal f e (accs.take j)) :
    ∃ acc1, Reduce.mergeStep isa Op accs j acc = .ok acc1 ∧
      (acc1.length = isa.kLanes ∧ (∀ x ∈ acc1, isInt32 x) ∧
        List.foldr f e acc1 = bankTotal f e (accs.take (j + 1))) := by
  obtain ⟨hlen, hDa, htot⟩ := hI
  have hget : accs[j]? = some accs[j] := List.getElem?_eq_getElem hj
  have hmem : accs[j] ∈ accs := List.getElem_mem hj
  refine ⟨List.zipWith f acc accs[j], ?_, ?_, ?_, ?_⟩
  · unfold Reduce.mergeStep
    rw [arrGet_eq accs j _ hget]
    simp only [bind, Except.bind, pure, Except.pure]
    rw [S.process]
  · rw [List.length_zipWith, hlen, (hall _ hmem).1, Nat.min_self]
  · exact zipWith_closed S.laws _ _ hDa (hall _ hmem).2
  · rw [foldr_zipWith S.laws _ _ (by rw [hlen, (hall _ hmem).1]), htot,
      bankTotal_take_succ S.laws accs j _ hget]

theorem Reduce_merge_ok {isa : ISA} {Op : ISA → ReduceOp} {f : Int → Int → Int} {e : Int}
    (S : ReduceOpSpec isa Op f e) (m : Mem) (src : Ptr) (k pos : Nat) (hk : 1 ≤ k)
    (accs : List (List Int)) (hI : BankInv f e m src isa.kLanes k pos accs) :
    ∃ a0 acc, arrGet accs 0 = .ok a0 ∧
      forRange 1 k (Reduce.mergeStep isa Op accs) a0 = .ok acc ∧
      VecInv f e m src isa.kLanes pos acc := by
  obtain ⟨hlen, hall, htot⟩ := hI
  have h0 : 0 < accs.length := by omega
  have hget : accs[0]? = some accs[0] := List.getElem?_eq_getElem h0
  have hmem : accs[0] ∈ accs := List.getElem_mem h0
  have hstart : List.foldr f e accs[0] = bankTotal f e (accs.take 1) := by
    have := bankTotal_take_succ S.laws accs 0 _ hget
    rw [this]
    simp only [List.take_zero, bankTotal]
    rw [S.laws.ident _ (foldr_closed S.laws _ (hall _ hmem).2)]
  obtain ⟨acc, h1, hl, hDa, hf⟩ :=
    forRange_rule (fun j acc => acc.length = isa.kLanes ∧ (∀ x ∈ acc, isInt32 x) ∧
        List.foldr f e acc = bankTotal f e (accs.take j))
      (Reduce.mergeStep isa Op accs) 1 k accs[0] hk
      ⟨(hall _ hmem).1, (hall _ hmem).2, hstart⟩
      (fun j t _ hj hIj => Reduce_mergeStep_ok S accs hall j (by omega) t hIj)
  refine ⟨accs[0], acc, arrGet_eq accs 0 _ hget, h1, hl, hDa, ?_⟩
  rw [hf, List.take_of_length_le (by omega), htot]

theorem Reduce_vectorStep_ok {isa : ISA} {Op : ISA → ReduceOp} {f : Int → Int → Int} {e : Int}
    (S : ReduceOpSpec isa Op f e) (m : Mem) (src : Ptr) (n i : Nat)
    (hval : ∀ a b, 0 < b → a + b ≤ n → m.valid (src.add a) b)
    (hD : ∀ x ∈ m.read src n, isInt32 x)
    (hi : i + isa.kLanes ≤ n) (acc : List Int) (hI : VecInv f e m src isa.kLanes i acc) :
    ∃ acc1, Reduce.vectorStep isa Op m src i acc = .ok acc1 ∧
      VecInv f e m src isa.kLanes (i + isa.kLanes) acc1 := by
  obtain ⟨hlen, hDa, htot⟩ := hI
  have hv := hval i isa.kLanes (ISA.kLanes_pos isa) hi
  have hvD : ∀ x ∈ m.read (src.add i) isa.kLanes, isInt32 x :=
    fun x hx => hD x (Mem.mem_read_sub m src _ _ n hi x hx)
  have hvl := Mem.length_read m _ _ hv
  refine ⟨List.zipWith f acc (m.read (src.add i) isa.kLanes), ?_, ?_, ?_, ?_⟩
  · unfold Reduce.vectorStep
    rw [ISA.Load_eq isa m _ hv]
    simp only [bind, Except.bind, pure, Except.pure]
    rw [S.process]
  · rw [List.length_zipWith, hlen, hvl, Nat.min_self]
  · exact zipWith_closed S.laws _ _ hDa hvD
  · rw [foldr_zipWith S.laws _ _ (by rw [hlen, hvl]), htot, ← foldr_app S.laws _ _ hvD,
      ← Mem.read_add]

theorem Reduce_horizontal_ok {isa : ISA} {Op : ISA → ReduceOp} {f : Int → Int → Int} {e : Int}
    (S : ReduceOpSpec isa Op f e) (h : List Int) (hlen : h.length = isa.kLanes)
    (hDh : ∀ x ∈ h, isInt32 x) :
    ∃ r0, arrGet h 0 = .ok r0 ∧
      forRange 1 isa.kLanes (Reduce.horizontalStep isa Op h) r0 = .ok (List.foldr f e h) := by
  have hpos := ISA.kLanes_pos isa
  have h0 : 0 < h.length := by omega
  have hget : h[0]? = some h[0] := List.getElem?_eq_getElem h0
  have hstart : h[0] = List.foldr f e (h.take 1) := by
    rw [List.take_succ, hget]
    simp only [List.take_zero, List.nil_append, Option.toList]
    rw [foldr_single S.laws _ (hDh _ (List.getElem_mem h0))]
  obtain ⟨r, h1, hr⟩ :=
    forRange_rule (fun j r => r = List.foldr f e (h.take j))
      (Reduce.horizontalStep isa Op h) 1 isa.kLanes h[0] hpos hstart
      (fun j t _ hj hIj => by
        have hjl : j < h.length := by omega
        have hgj : h[j]? = some h[j] := List.getElem?_eq_getElem hjl
        refine ⟨f t h[j], ?_, ?_⟩
        · unfold Reduce.horizontalStep
          rw [arrGet_eq h j _ hgj]
          simp only [bind, Except.bind, pure, Except.pure]
          rw [S.scalar]
        · show f t h[j] = List.foldr f e (h.take (j + 1))
          rw [List.take_succ, hgj]
          simp only [Option.toList]
          rw [foldr_snoc S.laws _ _ (hDh _ (List.getElem_mem hjl))]
          exact congrArg (fun z => f z h[j]) hIj)
  refine ⟨h[0], arrGet_eq h 0 _ hget, ?_⟩
  rw [h1, hr, List.take_of_length_le (by omega)]

theorem Reduce_scalarStep_ok {isa : ISA} {Op : ISA → ReduceOp} {f : Int → Int → Int} {e : Int}
    (S : ReduceOpSpec isa Op f e) (m : Mem) (src : Ptr) (n i : Nat)
    (hval : ∀ a b, 0 < b → a + b ≤ n → m.valid (src.add a) b)
    (hD : ∀ x ∈ m.read src n, isInt32 x) (hi : i + 1 ≤ n) :
    Reduce.scalarStep isa Op m src i (List.foldr f e (m.read src i))
      = .ok (List.foldr f e (m.read src (i + 1))) := by
  obtain ⟨x, hx, hx1⟩ := Mem.load_eq m (src.add i) (hval i 1 Nat.one_pos hi)
  have hxD : isInt32 x :=
    hD x (Mem.mem_read_sub m src i 1 n hi x (by rw [hx1]; exact List.mem_singleton_self x))
  unfold Reduce.scalarStep
  rw [hx]
  simp only [bind, Except.bind, pure, Except.pure]
  rw [S.scalar, Mem.read_add, hx1, foldr_snoc S.laws _ _ hxD]

theorem Reduce_eq {isa : ISA} {Op : ISA → ReduceOp} {f : Int → Int → Int} {e : Int}
    (S : ReduceOpSpec isa Op f e) (k : Nat) (hk : 1 ≤ k) (m : Mem) (src : Ptr) (n : Nat)
    (hsrc : n = 0 ∨ m.valid src n) (hD : ∀ x ∈ m.read src n, isInt32 x) :
    Reduce isa Op k m src n = .ok (List.foldl f e (m.read src n)) := by
  have hpos := ISA.kLanes_pos isa
  have hval : ∀ a b, 0 < b → a + b ≤ n → m.valid (src.add a) b := by
    intro a b hb hab
    rcases hsrc with h | h
    · omega
    · exact Mem.valid_add m src a b n hab h
  have hchunk : 0 < k * isa.kLanes := Nat.mul_pos hk hpos
  -- the chunk loop
  obtain ⟨i1, accs, h1, ⟨hle1, hB⟩, _, _, _⟩ :=
    forStep_rule (fun i t => i ≤ n ∧ BankInv f e m src isa.kLanes k i t) (k * isa.kLanes) n
      (Reduce.chunkStep isa Op k m src)
      (fun i t hi hI => by
        obtain ⟨t1, ht1, hI1⟩ := Reduce_chunkStep_ok S m src n k i hval hD hi t hI.2
        exact ⟨t1, ht1, hi, hI1⟩)
      n 0 (List.replicate k (Op isa).Identity) (by nlinarith)
      ⟨Nat.zero_le n, BankInv_init S m src k⟩
  -- the merge
  obtain ⟨a0, acc, hg0, h2, hV⟩ := Reduce_merge_ok S m src k i1 hk accs hB
  -- the one-vector loop
  obtain ⟨i2, acc2, h3, ⟨hle2, hV2⟩, _, _, _⟩ :=
    forStep_rule (fun i t => i ≤ n ∧ VecInv f e m src isa.kLanes i t) isa.kLanes n
      (Reduce.vectorStep isa Op m src)
      (fun i t hi hI => by
        obtain ⟨t1, ht1, hI1⟩ := Reduce_vectorStep_ok S m src n i hval hD hi t hI.2
        exact ⟨t1, ht1, hi, hI1⟩)
      n i1 acc (by nlinarith) ⟨hle1, hV⟩
  -- the horizontal accumulation
  obtain ⟨hl2, hD2, hf2⟩ := hV2
  obtain ⟨r0, hg1, h4⟩ := Reduce_horizontal_ok S acc2 hl2 hD2
  -- the remainder loop
  obtain ⟨r, h5, _, hr⟩ :=
    forRange_rule (fun i r => i ≤ n ∧ r = List.foldr f e (m.read src i))
      (Reduce.scalarStep isa Op m src) i2 n (List.foldr f e acc2) hle2 ⟨hle2, hf2⟩
      (fun i t _ hi hI => ⟨List.foldr f e (m.read src (i + 1)),
        hI.2 ▸ Reduce_scalarStep_ok S m src n i hval hD hi, hi, rfl⟩)
  unfold Reduce
  simp only [bind, Except.bind, Reduce_init_eq, h1, hg0, h2, h3, ISA.StoreLocal, hl2, if_true,
    hg1, h4, h5, hr]
  rw [foldl_eq_foldr_of_laws S.laws]

/-! ## 64-bit index arithmetic -/

theorem toI64_eq (v : Int) (h1 : -9223372036854775808 ≤ v) (h2 : v < 9223372036854775808) :
    toI64 v = v := by
  unfold toI64
  split <;> omega

theorem sz_eq (v : Int) (h1 : 0 ≤ v) (h2 : v < 18446744073709551616) : sz v = v.toNat := by
  unfold sz toU64
  rw [Int.emod_eq_of_lt h1 h2]

theorem sz_nat (n : Nat) (h : n < 18446744073709551616) : sz (n : Int) = n := by
  rw [sz_eq _ (Int.ofNat_nonneg n) (by omega)]
  exact Int.toNat_ofNat n

theorem tap_coord (y d hk : Nat) (hy : y < 4611686018427387904) (hd : d < 4611686018427387904)
    (hhk : hk < 4611686018427387904) :
    toI64 (toI64 (y : Int) + toU64 ((d : Int) - (hk : Int))) = (y : Int) + d - hk := by
  rw [toI64_eq (y : Int) (by omega) (by omega)]
  unfold toI64 toU64
  split <;> omega

theorem mul_add_lt (q r h w : Nat) (hq : q < h) (hr : r < w) : q * w + r < h * w := by
  have h1 : (q + 1) * w ≤ h * w := Nat.mul_le_mul_right w hq
  have h2 : (q + 1) * w = q * w + w := Nat.succ_mul q w
  omega

theorem dims_lt (h w y x : Nat) (hy : y < h) (hx : x < w) (hsz : h * w < 4611686018427387904) :
    h < 4611686018427387904 ∧ w < 4611686018427387904 := by
  have h1 : h * 1 ≤ h * w := Nat.mul_le_mul_left h (by omega)
  have h2 : 1 * w ≤ h * w := Nat.mul_le_mul_right w (by omega)
  omega

/-! ## Pure reads -/

theorem Mem.load_get (m : Mem) (p : Ptr) (n i : Nat) (h : m.valid p n) (hi : i < n) :
    m.load (p.add i) = .ok (m.get p i) := by
  unfold Mem.valid at h
  have hlt : p.off + i < (m p.block).length := by omega
  simp [Mem.load, Mem.get, Ptr.add, List.getD, List.getElem?_eq_getElem hlt]

theorem Mem.load_congr (m m2 : Mem) (p : Ptr) (h : m2 p.block = m p.block) :
    m2.load p = m.load p := by
  simp [Mem.load, h]

theorem Mem.read_congr (m m2 : Mem) (p : Ptr) (n : Nat) (h : m2 p.block = m p.block) :
    m2.read p n = m.read p n := by
  simp [Mem.read, h]

theorem Mem.valid_congr (m m2 : Mem) (p : Ptr) (n : Nat)
    (h : (m2 p.block).length = (m p.block).length) : m2.valid p n ↔ m.valid p n := by
  simp [Mem.valid, h]

theorem Mem.get_eq_of_read (m : Mem) (p : Ptr) (n i : Nat) (v : Int)
    (h : (m.read p n)[i]? = some v) : m.get p i = v := by
  simp only [Mem.read, List.getElem?_take, List.getElem?_drop] at h
  split at h
  · simp [Mem.get, List.getD, h]
  · simp at h

theorem Mem.valid_of_read (m : Mem) (p : Ptr) (n : Nat) (l : List Int) (h : m.read p n = l)
    (hl : l.length = n) (hn : 1 ≤ n) : m.valid p n := by
  have h1 : (m.read p n).length = n := by rw [h, hl]
  simp only [Mem.read, List.length_take, List.length_drop] at h1
  unfold Mem.valid
  omega

theorem Ptr.add_add (p : Ptr) (a b : Nat) : (p.add a).add b = p.add (a + b) := by
  simp [Ptr.add, Nat.add_assoc]

theorem Ptr.add_zero (p : Ptr) : p.add 0 = p := by
  simp [Ptr.add]

/-! ## Loops whose body cannot fault -/

theorem forCount_pure {σ : Type} (body : Nat → σ → Except Fault σ) (g : σ → Nat → σ) :
    ∀ (count lo : Nat) (s : σ),
      (∀ i t, lo ≤ i → i < lo + count → body i t = .ok (g t i)) →
      forCount body count lo s = .ok ((List.range' lo count).foldl g s) := by
  intro count
  induction count with
  | zero => intro lo s _; rfl
  | succ k ih =>
    intro lo s hb
    simp only [forCount, hb lo s (Nat.le_refl lo) (by omega), bind, Except.bind,
      List.range'_succ, List.foldl_cons]
    exact ih (lo + 1) (g s lo) (fun i t h1 h2 => hb i t (by omega) (by omega))

theorem forRange_pure {σ : Type} (body : Nat → σ → Except Fault σ) (g : σ → Nat → σ)
    (lo hi : Nat) (s : σ) (hb : ∀ i t, lo ≤ i → i < hi → body i t = .ok (g t i)) :
    forRange lo hi body s = .ok ((List.range' lo (hi - lo)).foldl g s) :=
  forCount_pure body g (hi - lo) lo s (fun i t h1 h2 => hb i t h1 (by omega))

/-! ## `ConvolveScalar` with a 3x3 kernel -/

theorem ConvolveScalar_tapStep_eq (m : Mem) (src kernel : Ptr) (h w y x dy dx : Nat) (sum : Int)
    (hsrc : m.valid src (h * w)) (hker : m.valid kernel 9)
    (hsz : h * w < 4611686018427387904) (hy : y < h) (hx : x < w) (hdy : dy < 3) (hdx : dx < 3) :
    ConvolveScalar.tapStep m src kernel h w 3 1 1 y x dy dx sum
      = .ok (paddedTap m src kernel h w y x sum (dy, dx)) := by
  obtain ⟨hh, hw⟩ := dims_lt h w y x hy hx hsz
  have hsy := tap_coord y dy 1 (by omega) (by omega) (by omega)
  have hsx := tap_coord x dx 1 (by omega) (by omega) (by omega)
  unfold ConvolveScalar.tapStep paddedTap
  simp only [hsy, hsx, toI64_eq (h : Int) (by omega) (by omega),
    toI64_eq (w : Int) (by omega) (by omega)]
  by_cases hg : 1 ≤ y + dy ∧ y + dy ≤ h ∧ 1 ≤ x + dx ∧ x + dx ≤ w
  · have hc : ¬ ((y : Int) + dy - (1 : Nat) < 0 ∨ (y : Int) + dy - (1 : Nat) ≥ h ∨
        (x : Int) + dx - (1 : Nat) < 0 ∨ (x : Int) + dx - (1 : Nat) ≥ w) := by omega
    rw [if_neg hc, if_pos hg]
    have hidx : (y + dy - 1) * w + (x + dx - 1) < h * w :=
      mul_add_lt _ _ h w (by omega) (by omega)
    have e1 : ((y : Int) + dy - (1 : Nat)) * (w : Int) + ((x : Int) + dx - (1 : Nat))
        = (((y + dy - 1) * w + (x + dx - 1) : Nat) : Int) := by
      have a1 : ((y + dy - 1 : Nat) : Int) = (y : Int) + dy - (1 : Nat) := by omega
      have a2 : ((x + dx - 1 : Nat) : Int) = (x : Int) + dx - (1 : Nat) := by omega
      rw [Nat.cast_add, Nat.cast_mul, a1, a2]
    have e2 : (dy : Int) * ((3 : Nat) : Int) + (dx : Int) = ((dy * 3 + dx : Nat) : Int) := by
      push_cast
      rfl
    rw [e1, e2, sz_nat _ (by omega), sz_nat _ (by omega),
      Mem.load_get m src (h * w) _ hsrc hidx, Mem.load_get m kernel 9 _ hker (by omega)]
    rfl
  · have hc : ((y : Int) + dy - (1 : Nat) < 0 ∨ (y : Int) + dy - (1 : Nat) ≥ h ∨
        (x : Int) + dx - (1 : Nat) < 0 ∨ (x : Int) + dx - (1 : Nat) ≥ w) := by omega
    rw [if_pos hc, if_neg hg]

theorem ConvolveScalar_pixel_eq (m : Mem) (src kernel : Ptr) (h w y x : Nat)
    (hsrc : m.valid src (h * w)) (hker : m.valid kernel 9)
    (hsz : h * w < 4611686018427387904) (hy : y < h) (hx : x < w) :
    ConvolveScalar.pixel m src kernel h w 3 3 y x = .ok (paddedPixel m src kernel h w y x) := by
  unfold ConvolveScalar.pixel
  have h3 : (toI64 ((3 : Nat) : Int)).toNat = 3 := by decide
  have hhalf : 3 / 2 = 1 := by decide
  simp only [h3, hhalf]
  have inner : ∀ dy sum, 0 ≤ dy → dy < 3 →
      forRange 0 3 (ConvolveScalar.tapStep m src kernel h w 3 1 1 y x dy) sum
        = .ok (List.foldl (fun s dx => paddedTap m src kernel h w y x s (dy, dx)) sum
            (List.range' 0 (3 - 0))) := by
    intro dy sum _ hdy
    exact forRange_pure _ (fun s dx => paddedTap m src kernel h w y x s (dy, dx)) 0 3 sum
      (fun dx t _ hdx => ConvolveScalar_tapStep_eq m src kernel h w y x dy dx t hsrc hker hsz
        hy hx hdy hdx)
  rw [forRange_pure _ (fun sum dy => List.foldl
      (fun s dx => paddedTap m src kernel h w y x s (dy, dx)) sum (List.range' 0 (3 - 0)))
      0 3 0 (fun dy t h1 h2 => inner dy t h1 h2)]
  rfl

theorem ConvolveScalar_pixel_congr (m m2 : Mem) (src kernel : Ptr) (h w kh kw y x : Nat)
    (h1 : m2 src.block = m src.block) (h2 : m2 kernel.block = m kernel.block) :
    ConvolveScalar.pixel m2 src kernel h w kh kw y x
      = ConvolveScalar.pixel m src kernel h w kh kw y x := by
  have ht : ConvolveScalar.tapStep m2 src kernel = ConvolveScalar.tapStep m src kernel := by
    have e1 : ∀ i, m2.load (src.add i) = m.load (src.add i) :=
      fun i => Mem.load_congr m m2 (src.add i) h1
    have e2 : ∀ i, m2.load (kernel.add i) = m.load (kernel.add i) :=
      fun i => Mem.load_congr m m2 (kernel.add i) h2
    funext a b c d e f g i j s
    simp only [ConvolveScalar.tapStep, e1, e2]
  unfold ConvolveScalar.pixel
  rw [ht]

theorem div_mod_index (y x w : Nat) (hx : x < w) :
    (y * w + x) / w = y ∧ (y * w + x) % w = x := by
  have hw : 0 < w := by omega
  constructor
  · rw [Nat.add_comm, Nat.add_mul_div_right _ _ hw, Nat.div_eq_of_lt hx, Nat.zero_add]
  · rw [Nat.add_comm, Nat.add_mul_mod_self_right, Nat.mod_eq_of_lt hx]

theorem ConvolveScalar_eq (m : Mem) (src dst kernel : Ptr) (h w kh kw : Nat)
    (val : Nat → Nat → Int) (hdst : m.valid dst (h * w))
    (hsz : h * w < 4611686018427387904)
    (hpix : ∀ vs y x, y < h → x < w →
      ConvolveScalar.pixel (m.write dst vs) src kernel h w kh kw y x = .ok (val y x)) :
    ConvolveScalar m src dst kernel h w kh kw
      = .ok (m.write dst ((List.range (h * w)).map (fun i => val (i / w) (i % w)))) := by
  have row : ∀ y t, y < h →
      t = m.write dst ((List.range (y * w)).map (fun i => val (i / w) (i % w))) →
      ∃ t1, forRange 0 w (ConvolveScalar.pixelStep src dst kernel h w kh kw y) t = .ok t1 ∧
        t1 = m.write dst ((List.range ((y + 1) * w)).map (fun i => val (i / w) (i % w))) := by
    intro y t hy ht
    obtain ⟨t1, h1, h2⟩ :=
      forRange_rule
        (fun x t => t = m.write dst ((List.range (y * w + x)).map (fun i => val (i / w) (i % w))))
        (ConvolveScalar.pixelStep src dst kernel h w kh kw y) 0 w t (Nat.zero_le w) ht
        (fun x t _ hx hI => by
          have hidx : y * w + x < h * w := mul_add_lt y x h w hy hx
          have hl : ((List.range (y * w + x)).map (fun i => val (i / w) (i % w))).length
              = y * w + x := by
            rw [List.length_map, List.length_range]
          refine ⟨m.write dst ((List.range (y * w + x + 1)).map
            (fun i => val (i / w) (i % w))), ?_, rfl⟩
          rw [hI]
          unfold ConvolveScalar.pixelStep
          rw [hpix _ y x hy hx]
          simp only [bind, Except.bind]
          have e1 : (y : Int) * (w : Int) + (x : Int) = ((y * w + x : Nat) : Int) := by
            push_cast
            rfl
          rw [e1, sz_nat _ (by omega),
            Mem.store_eq _ _ _ (step_valid m dst dst _ (y * w + x) 1 (h * w) (by omega)
              hdst hdst (by omega)),
            step_write m dst _ _ (y * w + x) (h * w) hl (by omega) hdst,
            List.range_succ, List.map_append, List.map_singleton,
            (div_mod_index y x w hx).1, (div_mod_index y x w hx).2])
    refine ⟨t1, h1, ?_⟩
    rw [h2, Nat.succ_mul]
  obtain ⟨t1, h1, h2⟩ :=
    forRange_rule
      (fun y t => t = m.write dst ((List.range (y * w)).map (fun i => val (i / w) (i % w))))
      (fun y t => forRange 0 w (ConvolveScalar.pixelStep src dst kernel h w kh kw y) t)
      0 h m (Nat.zero_le h) (by simp [Mem.write_nil])
      (fun y t _ hy hI => row y t hy hI)
  unfold ConvolveScalar
  rw [h1, h2]

theorem ConvolveScalar_load (m : Mem) (dst : Ptr) (h w y x : Nat) (val : Nat → Nat → Int)
    (hdst : m.valid dst (h * w)) (hy : y < h) (hx : x < w) :
    (m.write dst ((List.range (h * w)).map (fun i => val (i / w) (i % w)))).load
        (dst.add (y * w + x)) = .ok (val y x) := by
  have hidx : y * w + x < h * w := mul_add_lt y x h w hy hx
  apply Mem.load_write
  · rw [List.length_map, List.length_range]
    exact hdst
  · rw [List.getElem?_map, List.getElem?_range hidx]
    simp only [Option.map_some']
    rw [(div_mod_index y x w hx).1, (div_mod_index y x w hx).2]

theorem ConvolveScalar_3x3 (m : Mem) (src dst kernel : Ptr) (h w : Nat)
    (hsrc : m.valid src (h * w)) (hdst : m.valid dst (h * w)) (hker : m.valid kernel 9)
    (hsd : src.block ≠ dst.block) (hkd : kernel.block ≠ dst.block)
    (hsz : h * w < 4611686018427387904) :
    ConvolveScalar m src dst kernel h w 3 3
      = .ok (m.write dst ((List.range (h * w)).map
          (fun i => paddedPixel m src kernel h w (i / w) (i % w)))) := by
  apply ConvolveScalar_eq m src dst kernel h w 3 3 _ hdst hsz
  intro vs y x hy hx
  rw [ConvolveScalar_pixel_congr m (m.write dst vs) src kernel h w 3 3 y x
    (Mem.write_other m dst vs _ hsd) (Mem.write_other m dst vs _ hkd)]
  exact ConvolveScalar_pixel_eq m src kernel h w y x hsrc hker hsz hy hx

/-! ## Registers as maps over the lane index -/

theorem Mem.read_getElem? (m : Mem) (p : Ptr) (n i : Nat) (h : m.valid p n) (hi : i < n) :
    (m.read p n)[i]? = some (m.get p i) :=
  (Mem.load_iff_read m p n i _ hi).mp (Mem.load_get m p n i h hi)

theorem Mem.get_mem_read (m : Mem) (p : Ptr) (n i : Nat) (h : m.valid p n) (hi : i < n) :
    m.get p i ∈ m.read p n :=
  List.mem_iff_getElem?.mpr ⟨i, Mem.read_getElem? m p n i h hi⟩

theorem Mem.read_eq_map (m : Mem) (p : Ptr) (n : Nat) (h : m.valid p n) :
    m.read p n = (List.range n).map (m.get p) := by
  apply List.ext_getElem?
  intro i
  by_cases hi : i < n
  · rw [Mem.read_getElem? m p n i h hi, List.getElem?_map, List.getElem?_range hi]
    rfl
  · rw [List.getElem?_eq_none (by rw [Mem.length_read m p n h]; omega),
      List.getElem?_eq_none (by rw [List.length_map, List.length_range]; omega)]

theorem Mem.get_add (m : Mem) (p : Ptr) (a i : Nat) : m.get (p.add a) i = m.get p (a + i) := by
  simp [Mem.get, Ptr.add, Nat.add_assoc]

theorem zipWith_map_map (f : Int → Int → Int) (g1 g2 : Nat → Int) (R : List Nat) :
    List.zipWith f (R.map g1) (R.map g2) = R.map (fun l => f (g1 l) (g2 l)) := by
  induction R with
  | nil => rfl
  | cons a t ih => simp [ih]

theorem set1_eq_map (k : Int) : set1_epi32 8 k = (List.range 8).map (fun _ => k) := rfl

theorem setzero_eq_map : setzero 8 = (List.range 8).map (fun _ => (0 : Int)) := rfl

theorem add_epi32_map (g1 g2 : Nat → Int) (R : List Nat) :
    add_epi32 (R.map g1) (R.map g2) = R.map (fun l => wrap32 (g1 l + g2 l)) :=
  zipWith_map_map _ g1 g2 R

theorem mullo_epi32_map (g1 g2 : Nat → Int) (R : List Nat) :
    mullo_epi32 (R.map g1) (R.map g2) = R.map (fun l => wrap32 (g1 l * g2 l)) :=
  zipWith_map_map _ g1 g2 R

/-! ## `ConvolveAVX2`: one vector of eight pixels -/

theorem load8 (m t : Mem) (src : Ptr) (h w y x r c : Nat)
    (hblock : t src.block = m src.block) (hsrc : m.valid src (h * w))
    (hin : (y + r) * w + (x + c) + 8 ≤ h * w) :
    mm256_loadu_si256 t (((src.add ((y + r) * w)).add x).add c)
      = .ok ((List.range 8).map (fun l => m.get src ((y + r) * w + (x + l + c)))) := by
  have hp : ((src.add ((y + r) * w)).add x).add c = src.add ((y + r) * w + (x + c)) := by
    simp only [Ptr.add, Nat.add_assoc]
  have hv : m.valid (src.add ((y + r) * w + (x + c))) 8 :=
    Mem.valid_add m src _ 8 (h * w) hin hsrc
  have hvt : t.valid (src.add ((y + r) * w + (x + c))) 8 :=
    (Mem.valid_congr m t _ 8 (by rw [show (src.add ((y + r) * w + (x + c))).block = src.block
      from rfl, hblock])).mpr hv
  unfold mm256_loadu_si256
  rw [hp, Mem.loadVec_eq t _ 8 hvt,
    Mem.read_congr m t (src.add ((y + r) * w + (x + c))) 8 hblock, Mem.read_eq_map m _ 8 hv]
  congr 1
  apply List.map_congr_left
  intro l _
  rw [Mem.get_add]
  congr 1
  omega

theorem avx_lane_eq (m : Mem) (src kernel : Ptr) (w y x l : Nat) :
    wrap32 (wrap32 (wrap32 (wrap32 (wrap32 (0
        + wrap32 (m.get src ((y + 0) * w + (x + l + 0)) * m.get kernel 0))
        + wrap32 (m.get src ((y + 0) * w + (x + l + 1)) * m.get kernel 1))
        + wrap32 (m.get src ((y + 0) * w + (x + l + 2)) * m.get kernel 2))
      + wrap32 (wrap32 (wrap32 (0
        + wrap32 (m.get src ((y + 1) * w + (x + l + 0)) * m.get kernel 3))
        + wrap32 (m.get src ((y + 1) * w + (x + l + 1)) * m.get kernel 4))
        + wrap32 (m.get src ((y + 1) * w + (x + l + 2)) * m.get kernel 5)))
      + wrap32 (wrap32 (wrap32 (0
        + wrap32 (m.get src ((y + 2) * w + (x + l + 0)) * m.get kernel 6))
        + wrap32 (m.get src ((y + 2) * w + (x + l + 1)) * m.get kernel 7))
        + wrap32 (m.get src ((y + 2) * w + (x + l + 2)) * m.get kernel 8)))
      = validPixel m src kernel w y (x + l) := by
  simp only [validPixel, taps3, List.foldl, validTap, Nat.zero_mul, Nat.zero_add, Nat.one_mul,
    Nat.reduceMul, Nat.reduceAdd]
  generalize m.get src ((y + 0) * w + (x + l + 0)) * m.get kernel 0 = p0
  generalize m.get src ((y + 0) * w + (x + l + 1)) * m.get kernel 1 = p1
  generalize m.get src ((y + 0) * w + (x + l + 2)) * m.get kernel 2 = p2
  generalize m.get src ((y + 1) * w + (x + l + 0)) * m.get kernel 3 = p3
  generalize m.get src ((y + 1) * w + (x + l + 1)) * m.get kernel 4 = p4
  generalize m.get src ((y + 1) * w + (x + l + 2)) * m.get kernel 5 = p5
  generalize m.get src ((y + 2) * w + (x + l + 0)) * m.get kernel 6 = p6
  generalize m.get src ((y + 2) * w + (x + l + 1)) * m.get kernel 7 = p7
  generalize m.get src ((y + 2) * w + (x + l + 2)) * m.get kernel 8 = p8
  simp only [wrap32]
  omega

theorem rows_le (h w y : Nat) (hy : y + 3 ≤ h) :
    (y + 0) * w = y * w ∧ (y + 1) * w = y * w + w ∧ (y + 2) * w = y * w + 2 * w ∧
      y * w + 3 * w ≤ h * w := by
  have h1 : (y + 3) * w ≤ h * w := Nat.mul_le_mul_right w hy
  refine ⟨by ring, by ring, by ring, ?_⟩
  have : (y + 3) * w = y * w + 3 * w := by ring
  omega

theorem ConvolveAVX2_vectorStep_eq (m t : Mem) (src dst kernel : Ptr) (h w y x : Nat)
    (vs : List Int) (hts : t src.block = m src.block)
    (hsrc : m.valid src (h * w)) (hdst : t.valid dst (h * w))
    (hsd : src.block ≠ dst.block) (hsz : h * w < 4611686018427387904)
    (hy : y + 3 ≤ h) (hx : x + 8 + 2 ≤ w) (hl : vs.length = x) :
    ConvolveAVX2.vectorStep src dst
        (set1_epi32 8 (m.get kernel 0)) (set1_epi32 8 (m.get kernel 1))
        (set1_epi32 8 (m.get kernel 2)) (set1_epi32 8 (m.get kernel 3))
        (set1_epi32 8 (m.get kernel 4)) (set1_epi32 8 (m.get kernel 5))
        (set1_epi32 8 (m.get kernel 6)) (set1_epi32 8 (m.get kernel 7))
        (set1_epi32 8 (m.get kernel 8)) w y x ((t.write (dst.add (y * w)) vs))
      = .ok (t.write (dst.add (y * w))
          (vs ++ (List.range 8).map (fun l => validPixel m src kernel w y (x + l)))) := by
  obtain ⟨r0, r1, r2, r3⟩ := rows_le h w y hy
  have hrow : t.valid (dst.add (y * w)) (w - 2) :=
    Mem.valid_add t dst (y * w) (w - 2) (h * w) (by omega) hdst
  have hb : (t.write (dst.add (y * w)) vs) src.block = m src.block := by
    rw [Mem.write_other t (dst.add (y * w)) vs src.block hsd, hts]
  have e0 : sz (((y : Int) + 0) * (w : Int)) = (y + 0) * w := by
    rw [show ((y : Int) + 0) * (w : Int) = (((y + 0) * w : Nat) : Int) by push_cast; rfl]
    exact sz_nat _ (by omega)
  have e1 : sz (((y : Int) + 1) * (w : Int)) = (y + 1) * w := by
    rw [show ((y : Int) + 1) * (w : Int) = (((y + 1) * w : Nat) : Int) by push_cast; rfl]
    exact sz_nat _ (by omega)
  have e2 : sz (((y : Int) + 2) * (w : Int)) = (y + 2) * w := by
    rw [show ((y : Int) + 2) * (w : Int) = (((y + 2) * w : Nat) : Int) by push_cast; rfl]
    exact sz_nat _ (by omega)
  have es : sz ((y : Int) * (w : Int)) = y * w := by
    rw [show (y : Int) * (w : Int) = ((y * w : Nat) : Int) by push_cast; rfl]
    exact sz_nat _ (by omega)
  have hstore : ∀ a0 : List Int, a0.length = 8 →
      mm256_storeu_si256 (t.write (dst.add (y * w)) vs) ((dst.add (y * w)).add x) a0
        = .ok (t.write (dst.add (y * w)) (vs ++ a0)) := by
    intro a0 ha0
    unfold mm256_storeu_si256
    rw [if_pos ha0, Mem.storeVec_eq _ _ _ (by
        rw [ha0]
        exact step_valid t (dst.add (y * w)) (dst.add (y * w)) vs x 8 (w - 2) (by omega)
          hrow hrow (by omega)),
      step_write t (dst.add (y * w)) vs a0 x (w - 2) hl (by omega) hrow]
  unfold ConvolveAVX2.vectorStep
  simp only [e0, e1, e2, es]
  rw [load8 m _ src h w y x 0 0 hb hsrc (by omega), load8 m _ src h w y x 0 1 hb hsrc (by omega),
    load8 m _ src h w y x 0 2 hb hsrc (by omega), load8 m _ src h w y x 1 0 hb hsrc (by omega),
    load8 m _ src h w y x 1 1 hb hsrc (by omega), load8 m _ src h w y x 1 2 hb hsrc (by omega),
    load8 m _ src h w y x 2 0 hb hsrc (by omega), load8 m _ src h w y x 2 1 hb hsrc (by omega),
    load8 m _ src h w y x 2 2 hb hsrc (by omega)]
  simp only [bind, Except.bind]
  simp only [set1_eq_map, setzero_eq_map]
  simp only [add_epi32_map, mullo_epi32_map]
  rw [hstore]
  · refine congrArg (fun z => Except.ok (t.write (dst.add (y * w)) (vs ++ z))) ?_
    apply List.map_congr_left
    intro l _
    exact avx_lane_eq m src kernel w y x l
  · rw [List.length_map, List.length_range]

/-! ## `ConvolveAVX2`: the loops of one row -/

theorem vectorLoop_eq_forStep (bound : Nat) (body : Nat → Mem → Except Fault Mem)
    (hb : bound + 8 < 18446744073709551616) :
    ∀ (fuel x : Nat) (m : Mem),
      ConvolveAVX2.vectorLoop bound body fuel x m = forStep 8 (bound + 8) body fuel x m := by
  intro fuel
  induction fuel with
  | zero =>
    intro x m
    simp only [ConvolveAVX2.vectorLoop, forStep]
    by_cases hx : x ≤ bound
    · rw [if_pos hx, if_pos (by omega)]
    · rw [if_neg hx, if_neg (by omega)]
  | succ k ih =>
    intro x m
    simp only [ConvolveAVX2.vectorLoop, forStep]
    by_cases hx : x ≤ bound
    · rw [if_pos hx, if_pos (by omega)]
      have e : sz ((x : Int) + 8) = x + 8 := by
        rw [show (x : Int) + 8 = ((x + 8 : Nat) : Int) by push_cast; rfl]
        exact sz_nat _ (by omega)
      rw [e]
      cases body x m with
      | error err => rfl
      | ok m1 =>
        simp only [bind, Except.bind]
        exact ih (x + 8) m1
    · rw [if_neg hx, if_neg (by omega)]

theorem ConvolveAVX2_tapStep_eq (m t : Mem) (src kernel : Ptr) (h w y x yy xx : Nat)
    (sum : Int) (hts : t src.block = m src.block) (htk : t kernel.block = m kernel.block)
    (hsrc : m.valid src (h * w)) (hker : m.valid kernel 9)
    (hsz : h * w < 4611686018427387904) (hy : y + 3 ≤ h) (hx : x + 3 ≤ w)
    (hyy : yy < 3) (hxx : xx < 3) :
    ConvolveAVX2.tapStep t src kernel w 3 y x yy xx sum
      = .ok (validTap m src kernel w y x sum (yy, xx)) := by
  have hidx : (y + yy) * w + (x + xx) < h * w := mul_add_lt _ _ h w (by omega) (by omega)
  have e1 : ((y : Int) + (yy : Int)) * (w : Int) + ((x : Int) + (xx : Int))
      = (((y + yy) * w + (x + xx) : Nat) : Int) := by
    push_cast
    rfl
  have e2 : (yy : Int) * ((3 : Nat) : Int) + (xx : Int) = ((yy * 3 + xx : Nat) : Int) := by
    push_cast
    rfl
  unfold ConvolveAVX2.tapStep validTap
  rw [e1, e2, sz_nat _ (by omega), sz_nat _ (by omega),
    Mem.load_congr m t (src.add ((y + yy) * w + (x + xx))) hts,
    Mem.load_congr m t (kernel.add (yy * 3 + xx)) htk,
    Mem.load_get m src (h * w) _ hsrc hidx, Mem.load_get m kernel 9 _ hker (by omega)]
  rfl

theorem ConvolveAVX2_scalarStep_eq (m t : Mem) (src dst kernel : Ptr) (h w y x : Nat)
    (vs : List Int) (hts : t src.block = m src.block) (htk : t kernel.block = m kernel.block)
    (hsrc : m.valid src (h * w)) (hker : m.valid kernel 9) (hdst : t.valid dst (h * w))
    (hsd : src.block ≠ dst.block) (hkd : kernel.block ≠ dst.block)
    (hsz : h * w < 4611686018427387904)
    (hy : y + 3 ≤ h) (hx : x + 3 ≤ w) (hl : vs.length = x) :
    ConvolveAVX2.scalarStep src dst kernel w 3 y x (t.write (dst.add (y * w)) vs)
      = .ok (t.write (dst.add (y * w)) (vs ++ [validPixel m src kernel w y x])) := by
  obtain ⟨_, _, _, r3⟩ := rows_le h w y hy
  have hrow : t.valid (dst.add (y * w)) (w - 2) :=
    Mem.valid_add t dst (y * w) (w - 2) (h * w) (by omega) hdst
  have hbs : (t.write (dst.add (y * w)) vs) src.block = m src.block := by
    rw [Mem.write_other t (dst.add (y * w)) vs src.block hsd, hts]
  have hbk : (t.write (dst.add (y * w)) vs) kernel.block = m kernel.block := by
    rw [Mem.write_other t (dst.add (y * w)) vs kernel.block hkd, htk]
  have inner : ∀ yy sum, 0 ≤ yy → yy < 3 →
      forRange 0 3 (ConvolveAVX2.tapStep (t.write (dst.add (y * w)) vs) src kernel w 3 y x yy) sum
        = .ok (List.foldl (fun s xx => validTap m src kernel w y x s (yy, xx)) sum
            (List.range' 0 (3 - 0))) := by
    intro yy sum _ hyy
    exact forRange_pure _ (fun s xx => validTap m src kernel w y x s (yy, xx)) 0 3 sum
      (fun xx s _ hxx => ConvolveAVX2_tapStep_eq m _ src kernel h w y x yy xx s hbs hbk hsrc hker
        hsz hy hx hyy hxx)
  have e1 : (y : Int) * (w : Int) + (x : Int) = ((y * w + x : Nat) : Int) := by
    push_cast
    rfl
  have hp : dst.add (y * w + x) = (dst.add (y * w)).add x := (Ptr.add_add dst (y * w) x).symm
  unfold ConvolveAVX2.scalarStep
  rw [forRange_pure _ (fun sum yy => List.foldl
      (fun s xx => validTap m src kernel w y x s (yy, xx)) sum (List.range' 0 (3 - 0)))
      0 3 0 (fun yy s h1 h2 => inner yy s h1 h2)]
  simp only [bind, Except.bind]
  rw [e1, sz_nat _ (by omega), hp,
    Mem.store_eq _ _ _ (step_valid t (dst.add (y * w)) (dst.add (y * w)) vs x 1 (w - 2)
      (by omega) hrow hrow (by omega)),
    step_write t (dst.add (y * w)) vs _ x (w - 2) hl (by omega) hrow]
  rfl

theorem range_add_map (g : Nat → Int) (x k : Nat) :
    (List.range (x + k)).map g = (List.range x).map g ++ (List.range k).map (fun l => g (x + l)) := by
  rw [List.range_add, List.map_append, List.map_map]
  rfl

theorem ConvolveAVX2_rowStep_eq (m t : Mem) (src dst kernel : Ptr) (h w y : Nat)
    (hts : t src.block = m src.block) (htk : t kernel.block = m kernel.block)
    (hsrc : m.valid src (h * w)) (hker : m.valid kernel 9) (hdst : t.valid dst (h * w))
    (hsd : src.block ≠ dst.block) (hkd : kernel.block ≠ dst.block)
    (hsz : h * w < 4611686018427387904) (hy : y + 3 ≤ h) (hw : 10 ≤ w) :
    ConvolveAVX2.rowStep src dst kernel
        (set1_epi32 8 (m.get kernel 0)) (set1_epi32 8 (m.get kernel 1))
        (set1_epi32 8 (m.get kernel 2)) (set1_epi32 8 (m.get kernel 3))
        (set1_epi32 8 (m.get kernel 4)) (set1_epi32 8 (m.get kernel 5))
        (set1_epi32 8 (m.get kernel 6)) (set1_epi32 8 (m.get kernel 7))
        (set1_epi32 8 (m.get kernel 8)) w 3 y t
      = .ok (t.write (dst.add (y * w))
          ((List.range (w - 2)).map (validPixel m src kernel w y))) := by
  obtain ⟨hh4, hw4⟩ := dims_lt h w 0 0 (by omega) (by omega) hsz
  have eb : sz ((w : Int) - 2 - ((8 : Nat) : Int)) = w - 10 := by
    rw [show (w : Int) - 2 - ((8 : Nat) : Int) = ((w - 10 : Nat) : Int) by omega]
    exact sz_nat _ (by omega)
  have et : sz ((w : Int) - 2) = w - 2 := by
    rw [show (w : Int) - 2 = ((w - 2 : Nat) : Int) by omega]
    exact sz_nat _ (by omega)
  obtain ⟨x1, t1, h1, ⟨hle, ht1⟩, _, _, _⟩ :=
    forStep_rule
      (fun x s => x ≤ w - 2 ∧
        s = t.write (dst.add (y * w)) ((List.range x).map (validPixel m src kernel w y)))
      8 (w - 10 + 8)
      (ConvolveAVX2.vectorStep src dst
        (set1_epi32 8 (m.get kernel 0)) (set1_epi32 8 (m.get kernel 1))
        (set1_epi32 8 (m.get kernel 2)) (set1_epi32 8 (m.get kernel 3))
        (set1_epi32 8 (m.get kernel 4)) (set1_epi32 8 (m.get kernel 5))
        (set1_epi32 8 (m.get kernel 6)) (set1_epi32 8 (m.get kernel 7))
        (set1_epi32 8 (m.get kernel 8)) w y)
      (fun x s hx hI => ⟨t.write (dst.add (y * w))
          ((List.range (x + 8)).map (validPixel m src kernel w y)), by
        rw [hI.2, range_add_map]
        exact ConvolveAVX2_vectorStep_eq m t src dst kernel h w y x _ hts hsrc hdst hsd hsz hy
          (by omega) (by rw [List.length_map, List.length_range]), by omega, rfl⟩)
      2305843009213693952 0 t (by omega) ⟨Nat.zero_le _, by simp [Mem.write_nil]⟩
  obtain ⟨t2, h2, _, ht2⟩ :=
    forRange_rule
      (fun x s => x ≤ w - 2 ∧
        s = t.write (dst.add (y * w)) ((List.range x).map (validPixel m src kernel w y)))
      (ConvolveAVX2.scalarStep src dst kernel w 3 y) x1 (w - 2) t1 hle ⟨hle, ht1⟩
      (fun x s _ hx hI => ⟨t.write (dst.add (y * w))
          ((List.range (x + 1)).map (validPixel m src kernel w y)), by
        rw [hI.2, List.range_succ, List.map_append, List.map_singleton]
        exact ConvolveAVX2_scalarStep_eq m t src dst kernel h w y x _ hts htk hsrc hker hdst
          hsd hkd hsz hy (by omega) (by rw [List.length_map, List.length_range]), by omega, rfl⟩)
  unfold ConvolveAVX2.rowStep
  simp only [eb, et]
  rw [vectorLoop_eq_forStep _ _ (by omega), h1]
  simp only [bind, Except.bind]
  rw [h2, ht2]

/-! ## `ConvolveAVX2`: all rows -/

theorem rowsWritten_other (dst : Ptr) (w : Nat) (val : Nat → Nat → Int) (m : Mem) (b : Nat)
    (hb : b ≠ dst.block) : ∀ rows, rowsWritten dst w val m rows b = m b
  | 0 => rfl
  | y + 1 => by
    rw [rowsWritten, Mem.write_other _ (dst.add (y * w)) _ b hb]
    exact rowsWritten_other dst w val m b hb y

theorem rowsWritten_length (dst : Ptr) (h w : Nat) (val : Nat → Nat → Int) (m : Mem)
    (hdst : m.valid dst (h * w)) (hw : 2 ≤ w) (rows : Nat) :
    rows ≤ h → ∀ b, (rowsWritten dst w val m rows b).length = (m b).length := by
  induction rows with
  | zero => intro _ b; rfl
  | succ y ih =>
    intro hy b
    have h1 : (y + 1) * w ≤ h * w := Nat.mul_le_mul_right w hy
    have h2 : (y + 1) * w = y * w + w := Nat.succ_mul y w
    have hv : (rowsWritten dst w val m y).valid (dst.add (y * w))
        ((List.range (w - 2)).map (val y)).length := by
      rw [List.length_map, List.length_range]
      unfold Mem.valid at hdst ⊢
      simp only [Ptr.add]
      rw [ih (by omega) dst.block]
      omega
    rw [rowsWritten, Mem.length_write _ _ _ b hv]
    exact ih (by omega) b

theorem ConvolveAVX2_eq (m : Mem) (src dst kernel : Ptr) (h w kh : Nat)
    (hsrc : m.valid src (h * w)) (hdst : m.valid dst (h * w)) (hker : m.valid kernel 9)
    (hsd : src.block ≠ dst.block) (hkd : kernel.block ≠ dst.block)
    (hsz : h * w < 4611686018427387904) (hh : 3 ≤ h) (hw : 10 ≤ w) :
    ConvolveAVX2 m src dst kernel h w kh 3
      = .ok (rowsWritten dst w (validPixel m src kernel w) m (h - 2)) := by
  obtain ⟨hh4, hw4⟩ := dims_lt h w 0 0 (by omega) (by omega) hsz
  have eh : sz ((h : Int) - 2) = h - 2 := by
    rw [show (h : Int) - 2 = ((h - 2 : Nat) : Int) by omega]
    exact sz_nat _ (by omega)
  obtain ⟨t1, h1, ht1⟩ :=
    forRange_rule (fun y s => s = rowsWritten dst w (validPixel m src kernel w) m y)
      (ConvolveAVX2.rowStep src dst kernel
        (set1_epi32 8 (m.get kernel 0)) (set1_epi32 8 (m.get kernel 1))
        (set1_epi32 8 (m.get kernel 2)) (set1_epi32 8 (m.get kernel 3))
        (set1_epi32 8 (m.get kernel 4)) (set1_epi32 8 (m.get kernel 5))
        (set1_epi32 8 (m.get kernel 6)) (set1_epi32 8 (m.get kernel 7))
        (set1_epi32 8 (m.get kernel 8)) w 3)
      0 (h - 2) m (Nat.zero_le _) rfl
      (fun y s _ hy hI => ⟨rowsWritten dst w (validPixel m src kernel w) m (y + 1), by
        rw [hI]
        exact ConvolveAVX2_rowStep_eq m _ src dst kernel h w y
          (rowsWritten_other dst w _ m _ hsd y) (rowsWritten_other dst w _ m _ hkd y)
          hsrc hker
          ((Mem.valid_congr m _ dst (h * w)
            (rowsWritten_length dst h w _ m hdst (by omega) y (by omega) dst.block)).mpr hdst)
          hsd hkd hsz (by omega) hw, rfl⟩)
  unfold ConvolveAVX2
  rw [Mem.load_get m kernel 9 0 hker (by omega), Mem.load_get m kernel 9 1 hker (by omega),
    Mem.load_get m kernel 9 2 hker (by omega), Mem.load_get m kernel 9 3 hker (by omega),
    Mem.load_get m kernel 9 4 hker (by omega), Mem.load_get m kernel 9 5 hker (by omega),
    Mem.load_get m kernel 9 6 hker (by omega), Mem.load_get m kernel 9 7 hker (by omega),
    Mem.load_get m kernel 9 8 hker (by omega)]
  simp only [bind, Except.bind, eh]
  rw [h1, ht1]

theorem getElem?_splice_lt (D vs rest : List Int) (a i : Nat) (hi : i < a)
    (ha : a ≤ D.length) : (D.take a ++ vs ++ rest)[i]? = D[i]? := by
  have hl : i < (D.take a).length := by
    rw [List.length_take]
    omega
  rw [List.append_assoc, List.getElem?_append_left hl, List.getElem?_take, if_pos hi]

theorem Mem.load_write_lt (m : Mem) (p : Ptr) (vs : List Int) (i j : Nat) (hij : i < j)
    (hv : m.valid (p.add j) vs.length) :
    (m.write (p.add j) vs).load (p.add i) = m.load (p.add i) := by
  unfold Mem.valid at hv
  simp only [Ptr.add] at hv
  have hb := Mem.write_block m (p.add j) vs
  simp only [Ptr.add] at hb
  simp only [Mem.load, Ptr.add]
  rw [hb, getElem?_splice_lt _ _ _ _ _ (by omega) (by omega)]

theorem rowsWritten_load (m : Mem) (dst : Ptr) (h w : Nat) (val : Nat → Nat → Int)
    (hdst : m.valid dst (h * w)) (hw : 2 ≤ w) (y x : Nat) (hx : x < w - 2) :
    ∀ rows, rows ≤ h → y < rows →
      (rowsWritten dst w val m rows).load (dst.add (y * w + x)) = .ok (val y x)
  | 0, _, hy => absurd hy (Nat.not_lt_zero y)
  | r + 1, hr, hy => by
    have h1 : (r + 1) * w ≤ h * w := Nat.mul_le_mul_right w hr
    have h2 : (r + 1) * w = r * w + w := Nat.succ_mul r w
    have hv : (rowsWritten dst w val m r).valid (dst.add (r * w))
        ((List.range (w - 2)).map (val r)).length := by
      rw [List.length_map, List.length_range]
      unfold Mem.valid at hdst ⊢
      simp only [Ptr.add]
      rw [rowsWritten_length dst h w val m hdst hw r (by omega) dst.block]
      omega
    rw [rowsWritten]
    by_cases hyr : y = r
    · subst hyr
      rw [← Ptr.add_add]
      apply Mem.load_write _ _ _ _ _ hv
      rw [List.getElem?_map, List.getElem?_range hx]
      rfl
    · have hlt : y < r := by omega
      have h3 : (y + 1) * w ≤ r * w := Nat.mul_le_mul_right w hlt
      have h4 : (y + 1) * w = y * w + w := Nat.succ_mul y w
      rw [Mem.load_write_lt _ dst _ (y * w + x) (r * w) (by omega) hv]
      exact rowsWritten_load m dst h w val hdst hw y x hx r (by omega) hlt

/-! ## Claims about `Map` and `Zip` -/

/-- C1: for either backend, every length `n` and every source array of `n` elements,
`Map` with the `Square` operation returns normally and leaves
`dst[i] == src[i] * src[i]` (32-bit wrap-around product) for every `i` in `[0, n)`. -/
theorem Square_correct (isa : ISA) (m : Mem) (src dst : Ptr) (n : Nat)
    (hsrc : m.valid src n) (hdst : m.valid dst n) (hne : src.block ≠ dst.block) :
    ∃ m1, Square isa m src dst n = .ok m1 ∧
      ∀ i, i < n → ∃ a, m.load (src.add i) = .ok a ∧
        m1.load (dst.add i) = .ok (wrap32 (a * a)) := by
  refine ⟨_, Map_eq isa SimdSquare _ (SimdSquare_Process isa) (SimdSquare_ProcessScalar isa)
    m src dst n hsrc hdst (Or.inl hne), ?_⟩
  intro i hi
  obtain ⟨a, ha⟩ := Mem.load_exists m src n i hi hsrc
  refine ⟨a, ha, ?_⟩
  have hl : ((m.read src n).map (fun a => wrap32 (a * a))).length = n := by
    rw [List.length_map, Mem.length_read m src n hsrc]
  apply Mem.load_write
  · rw [hl]
    exact hdst
  · rw [List.getElem?_map, (Mem.load_iff_read m src n i a hi).mp ha]
    rfl

/-- C1, witness: `src = [-3,-2,-1,0,1,2,3]` gives `dst = [9,4,1,0,1,4,9]` on both backends. -/
theorem Square_correct_witness :
    ((Square .SSE2 (mem2 [-3, -2, -1, 0, 1, 2, 3] [0, 0, 0, 0, 0, 0, 0]) ⟨0, 0⟩ ⟨1, 0⟩ 7).toOption.map
        (fun m => m.read ⟨1, 0⟩ 7) = some [9, 4, 1, 0, 1, 4, 9]) ∧
    ((Square .AVX2 (mem2 [-3, -2, -1, 0, 1, 2, 3] [0, 0, 0, 0, 0, 0, 0]) ⟨0, 0⟩ ⟨1, 0⟩ 7).toOption.map
        (fun m => m.read ⟨1, 0⟩ 7) = some [9, 4, 1, 0, 1, 4, 9]) ∧
    ∃ m1, Square .SSE2 (mem2 [-3, -2, -1, 0, 1, 2, 3] [0, 0, 0, 0, 0, 0, 0]) ⟨0, 0⟩ ⟨1, 0⟩ 7
        = .ok m1 ∧
      ∀ i, i < 7 → ∃ a,
        (mem2 [-3, -2, -1, 0, 1, 2, 3] [0, 0, 0, 0, 0, 0, 0]).load (Ptr.add ⟨0, 0⟩ i) = .ok a ∧
        m1.load (Ptr.add ⟨1, 0⟩ i) = .ok (wrap32 (a * a)) :=
  ⟨by decide, by decide,
    Square_correct .SSE2 (mem2 [-3, -2, -1, 0, 1, 2, 3] [0, 0, 0, 0, 0, 0, 0]) ⟨0, 0⟩ ⟨1, 0⟩ 7
      (by decide) (by decide) (by decide)⟩

theorem zip_load (f : Int → Int → Int) (m : Mem) (src1 src2 dst : Ptr) (n : Nat)
    (hsrc1 : m.valid src1 n) (hsrc2 : m.valid src2 n) (hdst : m.valid dst n) :
    ∀ i, i < n → ∃ a b, m.load (src1.add i) = .ok a ∧ m.load (src2.add i) = .ok b ∧
      (m.write dst (List.zipWith f (m.read src1 n) (m.read src2 n))).load (dst.add i)
        = .ok (f a b) := by
  intro i hi
  obtain ⟨a, ha⟩ := Mem.load_exists m src1 n i hi hsrc1
  obtain ⟨b, hb⟩ := Mem.load_exists m src2 n i hi hsrc2
  refine ⟨a, b, ha, hb, ?_⟩
  have hl : (List.zipWith f (m.read src1 n) (m.read src2 n)).length = n := by
    rw [List.length_zipWith, Mem.length_read m src1 n hsrc1, Mem.length_read m src2 n hsrc2,
      Nat.min_self]
  apply Mem.load_write
  · rw [hl]
    exact hdst
  · rw [List.getElem?_zipWith_eq_some]
    exact ⟨a, b, (Mem.load_iff_read m src1 n i a hi).mp ha,
      (Mem.load_iff_read m src2 n i b hi).mp hb, rfl⟩

/-- C2: for either backend, every length `n` and every pair of source arrays of `n`
elements, `Zip` with `Add`, `Sub` or `Mul` returns normally and leaves `dst[i]` equal to
`src1[i] + src2[i]`, `src1[i] - src2[i]` or `src1[i] * src2[i]` (32-bit wrap-around) for every
`i` in `[0, n)`, be it an index of the vector loop or of the remainder loop. -/
theorem Zip_correct (isa : ISA) (m : Mem) (src1 src2 dst : Ptr) (n : Nat)
    (hsrc1 : m.valid src1 n) (hsrc2 : m.valid src2 n) (hdst : m.valid dst n)
    (hne1 : src1.block ≠ dst.block) (hne2 : src2.block ≠ dst.block) :
    (∃ m1, Add isa m src1 src2 dst n = .ok m1 ∧
      ∀ i, i < n → ∃ a b, m.load (src1.add i) = .ok a ∧ m.load (src2.add i) = .ok b ∧
        m1.load (dst.add i) = .ok (wrap32 (a + b))) ∧
    (∃ m1, Sub isa m src1 src2 dst n = .ok m1 ∧
      ∀ i, i < n → ∃ a b, m.load (src1.add i) = .ok a ∧ m.load (src2.add i) = .ok b ∧
        m1.load (dst.add i) = .ok (wrap32 (a - b))) ∧
    (∃ m1, Mul isa m src1 src2 dst n = .ok m1 ∧
      ∀ i, i < n → ∃ a b, m.load (src1.add i) = .ok a ∧ m.load (src2.add i) = .ok b ∧
        m1.load (dst.add i) = .ok (wrap32 (a * b))) :=
  ⟨⟨_, Add_eq isa m src1 src2 dst n hsrc1 hsrc2 hdst (Or.inl hne1) (Or.inl hne2),
      zip_load _ m src1 src2 dst n hsrc1 hsrc2 hdst⟩,
   ⟨_, Sub_eq isa m src1 src2 dst n hsrc1 hsrc2 hdst (Or.inl hne1) (Or.inl hne2),
      zip_load _ m src1 src2 dst n hsrc1 hsrc2 hdst⟩,
   ⟨_, Mul_eq isa m src1 src2 dst n hsrc1 hsrc2 hdst (Or.inl hne1) (Or.inl hne2),
      zip_load _ m src1 src2 dst n hsrc1 hsrc2 hdst⟩⟩

/-- C2, witness: nine elements on the 8-lane backend, so that index 8 is left to the
remainder loop; the products at indices 7 and 8 wrap around. -/
theorem Zip_correct_witness :
    ((Add .AVX2 (mem3 [1, 2, 3, 4, 5, 6, 7, 2147483647, 65536] [9, 8, 7, 6, 5, 4, 3, 2, 65536]
        [0, 0, 0, 0, 0, 0, 0, 0, 1]) ⟨0, 0⟩ ⟨1, 0⟩ ⟨2, 0⟩ 9).toOption.map
        (fun m => m.read ⟨2, 0⟩ 9) = some [10, 10, 10, 10, 10, 10, 10, -2147483647, 131072]) ∧
    ((Sub .AVX2 (mem3 [1, 2, 3, 4, 5, 6, 7, 2147483647, 65536] [9, 8, 7, 6, 5, 4, 3, 2, 65536]
        [0, 0, 0, 0, 0, 0, 0, 0, 1]) ⟨0, 0⟩ ⟨1, 0⟩ ⟨2, 0⟩ 9).toOption.map
        (fun m => m.read ⟨2, 0⟩ 9) = some [-8, -6, -4, -2, 0, 2, 4, 2147483645, 0]) ∧
    ((Mul .AVX2 (mem3 [1, 2, 3, 4, 5, 6, 7, 2147483647, 65536] [9, 8, 7, 6, 5, 4, 3, 2, 65536]
        [0, 0, 0, 0, 0, 0, 0, 0, 1]) ⟨0, 0⟩ ⟨1, 0⟩ ⟨2, 0⟩ 9).toOption.map
        (fun m => m.read ⟨2, 0⟩ 9) = some [9, 16, 21, 24, 25, 24, 21, -2, 0]) ∧
    (mem3 [1, 2, 3, 4, 5, 6, 7, 2147483647, 65536] [9, 8, 7, 6, 5, 4, 3, 2, 65536]
        [0, 0, 0, 0, 0, 0, 0, 0, 1]).valid ⟨2, 0⟩ 9 ∧
    ∃ m1, Mul .AVX2 (mem3 [1, 2, 3, 4, 5, 6, 7, 2147483647, 65536]
          [9, 8, 7, 6, 5, 4, 3, 2, 65536] [0, 0, 0, 0, 0, 0, 0, 0, 1]) ⟨0, 0⟩ ⟨1, 0⟩ ⟨2, 0⟩ 9
          = .ok m1 ∧
      ∀ i, i < 9 → ∃ a b,
        (mem3 [1, 2, 3, 4, 5, 6, 7, 2147483647, 65536] [9, 8, 7, 6, 5, 4, 3, 2, 65536]
          [0, 0, 0, 0, 0, 0, 0, 0, 1]).load (Ptr.add ⟨0, 0⟩ i) = .ok a ∧
        (mem3 [1, 2, 3, 4, 5, 6, 7, 2147483647, 65536] [9, 8, 7, 6, 5, 4, 3, 2, 65536]
          [0, 0, 0, 0, 0, 0, 0, 0, 1]).load (Ptr.add ⟨1, 0⟩ i) = .ok b ∧
        m1.load (Ptr.add ⟨2, 0⟩ i) = .ok (wrap32 (a * b)) :=
  ⟨by decide, by decide, by decide, by decide,
    (Zip_correct .AVX2 (mem3 [1, 2, 3, 4, 5, 6, 7, 2147483647, 65536]
      [9, 8, 7, 6, 5, 4, 3, 2, 65536] [0, 0, 0, 0, 0, 0, 0, 0, 1]) ⟨0, 0⟩ ⟨1, 0⟩ ⟨2, 0⟩ 9
      (by decide) (by decide) (by decide) (by decide) (by decide)).2.2⟩

/-! ## The three reductions -/

theorem wrap32_isInt32 (x : Int) : isInt32 (wrap32 x) := by
  unfold isInt32 wrap32
  omega

theorem wrap32_of_isInt32 (x : Int) (h : isInt32 x) : wrap32 x = x := by
  unfold isInt32 at h
  unfold wrap32
  omega

theorem sumLaws : ReductionLaws (fun a b => wrap32 (a + b)) 0 where
  assoc := by
    intro a b c
    simp only [wrap32]
    omega
  comm := by
    intro a b
    simp only [Int.add_comm]
  ident := by
    intro x hx
    simp only [Int.zero_add]
    exact wrap32_of_isInt32 x hx
  closed := fun a b _ _ => wrap32_isInt32 (a + b)
  ident_mem := by decide

theorem minLaws : ReductionLaws (fun a b => min a b) INT32_MAX where
  assoc := fun a b c => min_assoc a b c
  comm := fun a b => min_comm a b
  ident := by
    intro x hx
    unfold isInt32 at hx
    unfold INT32_MAX
    omega
  closed := by
    intro a b ha hb
    unfold isInt32 at *
    omega
  ident_mem := by decide

theorem maxLaws : ReductionLaws (fun a b => max a b) INT32_MIN where
  assoc := fun a b c => max_assoc a b c
  comm := fun a b => max_comm a b
  ident := by
    intro x hx
    unfold isInt32 at hx
    unfold INT32_MIN
    omega
  closed := by
    intro a b ha hb
    unfold isInt32 at *
    omega
  ident_mem := by decide

theorem SimdSum_spec (isa : ISA) : ReduceOpSpec isa SimdSum (fun a b => wrap32 (a + b)) 0 where
  process := by cases isa <;> intros <;> rfl
  scalar := by cases isa <;> intros <;> rfl
  identity := by cases isa <;> rfl
  laws := sumLaws

theorem SimdMin_spec (isa : ISA) : ReduceOpSpec isa SimdMin (fun a b => min a b) INT32_MAX where
  process := by cases isa <;> intros <;> rfl
  scalar := by
    intro a b
    have : (SimdMin isa).ProcessScalar a b = if b < a then b else a := by cases isa <;> rfl
    rw [this]
    split <;> omega
  identity := by cases isa <;> rfl
  laws := minLaws

theorem SimdMax_spec (isa : ISA) : ReduceOpSpec isa SimdMax (fun a b => max a b) INT32_MIN where
  process := by cases isa <;> intros <;> rfl
  scalar := by
    intro a b
    have : (SimdMax isa).ProcessScalar a b = if a < b then b else a := by cases isa <;> rfl
    rw [this]
    split <;> omega
  identity := by cases isa <;> rfl
  laws := maxLaws

theorem foldr_min_le (l : List Int) :
    ∀ x ∈ l, List.foldr (fun a b => min a b) INT32_MAX l ≤ x := by
  induction l with
  | nil => intro x hx; simp at hx
  | cons a t ih =>
    intro x hx
    simp only [List.foldr_cons]
    rcases List.mem_cons.mp hx with h | h
    · rw [h]; exact min_le_left _ _
    · exact le_trans (min_le_right _ _) (ih x h)

theorem foldr_min_mem (l : List Int) (hD : ∀ x ∈ l, isInt32 x) (hne : l ≠ []) :
    List.foldr (fun a b => min a b) INT32_MAX l ∈ l := by
  induction l with
  | nil => exact absurd rfl hne
  | cons a t ih =>
    simp only [List.foldr_cons]
    by_cases ht : t = []
    · subst ht
      have ha := hD a (List.mem_cons_self a [])
      unfold isInt32 at ha
      have : min a (List.foldr (fun a b => min a b) INT32_MAX []) = a := by
        simp only [List.foldr_nil, INT32_MAX]
        omega
      rw [this]
      exact List.mem_cons_self a []
    · have h1 := ih (fun x hx => hD x (List.mem_cons_of_mem a hx)) ht
      rcases min_choice a (List.foldr (fun a b => min a b) INT32_MAX t) with h | h
      · rw [h]; exact List.mem_cons_self a t
      · rw [h]; exact List.mem_cons_of_mem a h1

theorem foldr_max_ge (l : List Int) :
    ∀ x ∈ l, x ≤ List.foldr (fun a b => max a b) INT32_MIN l := by
  induction l with
  | nil => intro x hx; simp at hx
  | cons a t ih =>
    intro x hx
    simp only [List.foldr_cons]
    rcases List.mem_cons.mp hx with h | h
    · rw [h]; exact le_max_left _ _
    · exact le_trans (ih x h) (le_max_right _ _)

theorem foldr_max_mem (l : List Int) (hD : ∀ x ∈ l, isInt32 x) (hne : l ≠ []) :
    List.foldr (fun a b => max a b) INT32_MIN l ∈ l := by
  induction l with
  | nil => exact absurd rfl hne
  | cons a t ih =>
    simp only [List.foldr_cons]
    by_cases ht : t = []
    · subst ht
      have ha := hD a (List.mem_cons_self a [])
      unfold isInt32 at ha
      have : max a (List.foldr (fun a b => max a b) INT32_MIN []) = a := by
        simp only [List.foldr_nil, INT32_MIN]
        omega
      rw [this]
      exact List.mem_cons_self a []
    · have h1 := ih (fun x hx => hD x (List.mem_cons_of_mem a hx)) ht
      rcases max_choice a (List.foldr (fun a b => max a b) INT32_MIN t) with h | h
      · rw [h]; exact List.mem_cons_self a t
      · rw [h]; exact List.mem_cons_of_mem a h1

theorem Mem.read_ne_nil (m : Mem) (p : Ptr) (n : Nat) (h : m.valid p n) (hn : 1 ≤ n) :
    m.read p n ≠ [] := by
  intro h0
  have := Mem.length_read m p n h
  rw [h0] at this
  simp at this
  omega

/-! ## Claims about `Reduce` -/

/-- C3: for either backend, every accumulator count `k >= 1`, every length `n` and every
array of `n` 32-bit values, `Reduce` with `Sum` returns the left-to-right scalar sum
`((0 + src[0]) + src[1]) + ... + src[n-1]` in 32-bit wrap-around arithmetic, whatever `k` is;
so does the library entry point `Sum` (which fixes `k = kAccumulatorCount`). -/
theorem Reduce_Sum_correct (isa : ISA) (k : Nat) (hk : 1 ≤ k) (m : Mem) (src : Ptr) (n : Nat)
    (hsrc : m.valid src n) (hD : ∀ x ∈ m.read src n, isInt32 x) :
    Reduce isa SimdSum k m src n
        = .ok (List.foldl (fun acc x => wrap32 (acc + x)) 0 (m.read src n)) ∧
      Sum isa m src n = .ok (List.foldl (fun acc x => wrap32 (acc + x)) 0 (m.read src n)) :=
  ⟨Reduce_eq (SimdSum_spec isa) k hk m src n (Or.inr hsrc) hD,
   Reduce_eq (SimdSum_spec isa) kAccumulatorCount (by decide) m src n (Or.inr hsrc) hD⟩

/-- C3, witness: `src = [1, ..., 9]` on the 8-lane backend gives 45. -/
theorem Reduce_Sum_correct_witness :
    Reduce .AVX2 SimdSum 4 (mem2 [1, 2, 3, 4, 5, 6, 7, 8, 9] []) ⟨0, 0⟩ 9 = .ok 45 ∧
      Sum .AVX2 (mem2 [1, 2, 3, 4, 5, 6, 7, 8, 9] []) ⟨0, 0⟩ 9 = .ok 45 :=
  Reduce_Sum_correct .AVX2 4 (by decide) (mem2 [1, 2, 3, 4, 5, 6, 7, 8, 9] []) ⟨0, 0⟩ 9
    (by decide) (by decide)

/-- C4: for either backend, every accumulator count `k >= 1` and every non-empty array of
32-bit values, `Reduce` with `Min` returns an element of the array that is `<=` every element,
and `Reduce` with `Max` returns an element of the array that is `>=` every element. -/
theorem Reduce_Min_Max_correct (isa : ISA) (k : Nat) (hk : 1 ≤ k) (m : Mem) (src : Ptr)
    (n : Nat) (hn : 1 ≤ n) (hsrc : m.valid src n) (hD : ∀ x ∈ m.read src n, isInt32 x) :
    (∃ r, Reduce isa SimdMin k m src n = .ok r ∧ r ∈ m.read src n ∧
        ∀ x ∈ m.read src n, r ≤ x) ∧
      (∃ r, Reduce isa SimdMax k m src n = .ok r ∧ r ∈ m.read src n ∧
        ∀ x ∈ m.read src n, x ≤ r) := by
  have hne := Mem.read_ne_nil m src n hsrc hn
  constructor
  · refine ⟨_, Reduce_eq (SimdMin_spec isa) k hk m src n (Or.inr hsrc) hD, ?_, ?_⟩
    · rw [foldl_eq_foldr_of_laws minLaws]
      exact foldr_min_mem _ hD hne
    · rw [foldl_eq_foldr_of_laws minLaws]
      exact foldr_min_le _
  · refine ⟨_, Reduce_eq (SimdMax_spec isa) k hk m src n (Or.inr hsrc) hD, ?_, ?_⟩
    · rw [foldl_eq_foldr_of_laws maxLaws]
      exact foldr_max_mem _ hD hne
    · rw [foldl_eq_foldr_of_laws maxLaws]
      exact foldr_max_ge _

/-- C4, witness: `src = [1, ..., 9]` on the 8-lane backend gives `Min = 1` and `Max = 9`. -/
theorem Reduce_Min_Max_correct_witness :
    ((Min .AVX2 (mem2 [1, 2, 3, 4, 5, 6, 7, 8, 9] []) ⟨0, 0⟩ 9).toOption = some 1 ∧
      (Max .AVX2 (mem2 [1, 2, 3, 4, 5, 6, 7, 8, 9] []) ⟨0, 0⟩ 9).toOption = some 9) ∧
    ((∃ r, Reduce .AVX2 SimdMin 4 (mem2 [1, 2, 3, 4, 5, 6, 7, 8, 9] []) ⟨0, 0⟩ 9 = .ok r ∧
        r ∈ (mem2 [1, 2, 3, 4, 5, 6, 7, 8, 9] []).read ⟨0, 0⟩ 9 ∧
        ∀ x ∈ (mem2 [1, 2, 3, 4, 5, 6, 7, 8, 9] []).read ⟨0, 0⟩ 9, r ≤ x) ∧
      (∃ r, Reduce .AVX2 SimdMax 4 (mem2 [1, 2, 3, 4, 5, 6, 7, 8, 9] []) ⟨0, 0⟩ 9 = .ok r ∧
        r ∈ (mem2 [1, 2, 3, 4, 5, 6, 7, 8, 9] []).read ⟨0, 0⟩ 9 ∧
        ∀ x ∈ (mem2 [1, 2, 3, 4, 5, 6, 7, 8, 9] []).read ⟨0, 0⟩ 9, x ≤ r)) :=
  ⟨⟨by decide, by decide⟩,
    Reduce_Min_Max_correct .AVX2 4 (by decide) (mem2 [1, 2, 3, 4, 5, 6, 7, 8, 9] []) ⟨0, 0⟩ 9
      (by decide) (by decide) (by decide)⟩

/-- C5: for either backend and every accumulator count `k >= 1`, `Reduce` on an empty array
(`n = 0`) returns the identity value of the operation: 0 for `Sum`, 2147483647 for `Min`
and -2147483648 for `Max`. -/
theorem Reduce_empty (isa : ISA) (k : Nat) (hk : 1 ≤ k) (m : Mem) (src : Ptr) :
    Reduce isa SimdSum k m src 0 = .ok 0 ∧
      Reduce isa SimdMin k m src 0 = .ok 2147483647 ∧
      Reduce isa SimdMax k m src 0 = .ok (-2147483648) :=
  ⟨Reduce_eq (SimdSum_spec isa) k hk m src 0 (Or.inl rfl) (by intro x hx; simp [Mem.read] at hx),
   Reduce_eq (SimdMin_spec isa) k hk m src 0 (Or.inl rfl) (by intro x hx; simp [Mem.read] at hx),
   Reduce_eq (SimdMax_spec isa) k hk m src 0 (Or.inl rfl) (by intro x hx; simp [Mem.read] at hx)⟩

/-- C5, witness: the library entry points (`k = 4`) on the 4-lane backend and an empty block. -/
theorem Reduce_empty_witness :
    Reduce .SSE2 SimdSum 4 (mem2 [] []) ⟨0, 0⟩ 0 = .ok 0 ∧
      Reduce .SSE2 SimdMin 4 (mem2 [] []) ⟨0, 0⟩ 0 = .ok 2147483647 ∧
      Reduce .SSE2 SimdMax 4 (mem2 [] []) ⟨0, 0⟩ 0 = .ok (-2147483648) :=
  Reduce_empty .SSE2 4 (by decide) (mem2 [] []) ⟨0, 0⟩

/-- C9: for every length `n` and every pair of source arrays of `n` elements, and for each
of `Add`, `Sub` and `Mul`, `Zip` on the 4-lane backend and `Zip` on the 8-lane backend both
return normally and leave the same `n` elements in `dst`. -/
theorem Zip_cross_backend (m : Mem) (src1 src2 dst : Ptr) (n : Nat)
    (hsrc1 : m.valid src1 n) (hsrc2 : m.valid src2 n) (hdst : m.valid dst n)
    (hne1 : src1.block ≠ dst.block) (hne2 : src2.block ≠ dst.block) :
    (∃ m4 m8, Add .SSE2 m src1 src2 dst n = .ok m4 ∧ Add .AVX2 m src1 src2 dst n = .ok m8 ∧
        m4.read dst n = m8.read dst n) ∧
      (∃ m4 m8, Sub .SSE2 m src1 src2 dst n = .ok m4 ∧ Sub .AVX2 m src1 src2 dst n = .ok m8 ∧
        m4.read dst n = m8.read dst n) ∧
      (∃ m4 m8, Mul .SSE2 m src1 src2 dst n = .ok m4 ∧ Mul .AVX2 m src1 src2 dst n = .ok m8 ∧
        m4.read dst n = m8.read dst n) :=
  ⟨⟨_, _, Add_eq .SSE2 m src1 src2 dst n hsrc1 hsrc2 hdst (Or.inl hne1) (Or.inl hne2),
      Add_eq .AVX2 m src1 src2 dst n hsrc1 hsrc2 hdst (Or.inl hne1) (Or.inl hne2), rfl⟩,
   ⟨_, _, Sub_eq .SSE2 m src1 src2 dst n hsrc1 hsrc2 hdst (Or.inl hne1) (Or.inl hne2),
      Sub_eq .AVX2 m src1 src2 dst n hsrc1 hsrc2 hdst (Or.inl hne1) (Or.inl hne2), rfl⟩,
   ⟨_, _, Mul_eq .SSE2 m src1 src2 dst n hsrc1 hsrc2 hdst (Or.inl hne1) (Or.inl hne2),
      Mul_eq .AVX2 m src1 src2 dst n hsrc1 hsrc2 hdst (Or.inl hne1) (Or.inl hne2), rfl⟩⟩

/-- C9, witness: two arrays of nine elements, so that the backends split the work differently. -/
theorem Zip_cross_backend_witness :
    ((Mul .SSE2 (mem3 [1, 2, 3, 4, 5, 6, 7, 8, 65536] [9, 8, 7, 6, 5, 4, 3, 2, 65536]
        [0, 0, 0, 0, 0, 0, 0, 0, 1]) ⟨0, 0⟩ ⟨1, 0⟩ ⟨2, 0⟩ 9).toOption.map
        (fun m => m.read ⟨2, 0⟩ 9) = some [9, 16, 21, 24, 25, 24, 21, 16, 0]) ∧
    ((∃ m4 m8, Add .SSE2 (mem3 [1, 2, 3, 4, 5, 6, 7, 8, 65536] [9, 8, 7, 6, 5, 4, 3, 2, 65536]
          [0, 0, 0, 0, 0, 0, 0, 0, 1]) ⟨0, 0⟩ ⟨1, 0⟩ ⟨2, 0⟩ 9 = .ok m4 ∧
        Add .AVX2 (mem3 [1, 2, 3, 4, 5, 6, 7, 8, 65536] [9, 8, 7, 6, 5, 4, 3, 2, 65536]
          [0, 0, 0, 0, 0, 0, 0, 0, 1]) ⟨0, 0⟩ ⟨1, 0⟩ ⟨2, 0⟩ 9 = .ok m8 ∧
        m4.read ⟨2, 0⟩ 9 = m8.read ⟨2, 0⟩ 9) ∧
      (∃ m4 m8, Sub .SSE2 (mem3 [1, 2, 3, 4, 5, 6, 7, 8, 65536] [9, 8, 7, 6, 5, 4, 3, 2, 65536]
          [0, 0, 0, 0, 0, 0, 0, 0, 1]) ⟨0, 0⟩ ⟨1, 0⟩ ⟨2, 0⟩ 9 = .ok m4 ∧
        Sub .AVX2 (mem3 [1, 2, 3, 4, 5, 6, 7, 8, 65536] [9, 8, 7, 6, 5, 4, 3, 2, 65536]
          [0, 0, 0, 0, 0, 0, 0, 0, 1]) ⟨0, 0⟩ ⟨1, 0⟩ ⟨2, 0⟩ 9 = .ok m8 ∧
        m4.read ⟨2, 0⟩ 9 = m8.read ⟨2, 0⟩ 9) ∧
      (∃ m4 m8, Mul .SSE2 (mem3 [1, 2, 3, 4, 5, 6, 7, 8, 65536] [9, 8, 7, 6, 5, 4, 3, 2, 65536]
          [0, 0, 0, 0, 0, 0, 0, 0, 1]) ⟨0, 0⟩ ⟨1, 0⟩ ⟨2, 0⟩ 9 = .ok m4 ∧
        Mul .AVX2 (mem3 [1, 2, 3, 4, 5, 6, 7, 8, 65536] [9, 8, 7, 6, 5, 4, 3, 2, 65536]
          [0, 0, 0, 0, 0, 0, 0, 0, 1]) ⟨0, 0⟩ ⟨1, 0⟩ ⟨2, 0⟩ 9 = .ok m8 ∧
        m4.read ⟨2, 0⟩ 9 = m8.read ⟨2, 0⟩ 9)) :=
  ⟨by decide,
    Zip_cross_backend (mem3 [1, 2, 3, 4, 5, 6, 7, 8, 65536] [9, 8, 7, 6, 5, 4, 3, 2, 65536]
      [0, 0, 0, 0, 0, 0, 0, 0, 1]) ⟨0, 0⟩ ⟨1, 0⟩ ⟨2, 0⟩ 9
      (by decide) (by decide) (by decide) (by decide) (by decide)⟩

/-- C10: for either backend, every accumulator count `k >= 1`, every length `n` and every
array of `n` 32-bit values, `Reduce` with `Sum`, `Min` or `Max` returns the same value on
the array and on every permutation of it. -/
theorem Reduce_perm (isa : ISA) (k : Nat) (hk : 1 ≤ k) (m1 m2 : Mem) (src1 src2 : Ptr)
    (n : Nat) (hsrc1 : m1.valid src1 n) (hsrc2 : m2.valid src2 n)
    (hD : ∀ x ∈ m1.read src1 n, isInt32 x)
    (hperm : (m1.read src1 n).Perm (m2.read src2 n)) :
    (∃ r, Reduce isa SimdSum k m1 src1 n = .ok r ∧ Reduce isa SimdSum k m2 src2 n = .ok r) ∧
      (∃ r, Reduce isa SimdMin k m1 src1 n = .ok r ∧ Reduce isa SimdMin k m2 src2 n = .ok r) ∧
      (∃ r, Reduce isa SimdMax k m1 src1 n = .ok r ∧ Reduce isa SimdMax k m2 src2 n = .ok r) := by
  have hD2 : ∀ x ∈ m2.read src2 n, isInt32 x := fun x hx => hD x (hperm.mem_iff.mpr hx)
  refine ⟨⟨_, Reduce_eq (SimdSum_spec isa) k hk m1 src1 n (Or.inr hsrc1) hD, ?_⟩,
    ⟨_, Reduce_eq (SimdMin_spec isa) k hk m1 src1 n (Or.inr hsrc1) hD, ?_⟩,
    ⟨_, Reduce_eq (SimdMax_spec isa) k hk m1 src1 n (Or.inr hsrc1) hD, ?_⟩⟩
  · rw [Reduce_eq (SimdSum_spec isa) k hk m2 src2 n (Or.inr hsrc2) hD2,
      foldl_perm_of_laws sumLaws _ _ hperm]
  · rw [Reduce_eq (SimdMin_spec isa) k hk m2 src2 n (Or.inr hsrc2) hD2,
      foldl_perm_of_laws minLaws _ _ hperm]
  · rw [Reduce_eq (SimdMax_spec isa) k hk m2 src2 n (Or.inr hsrc2) hD2,
      foldl_perm_of_laws maxLaws _ _ hperm]

/-- C10, witness: nine values and a permutation of them, 4-lane backend, two accumulators. -/
theorem Reduce_perm_witness :
    (∃ r, Reduce .SSE2 SimdSum 2 (mem2 [5, -3, 9, 2147483647, 1, 1, -7, 8, 0]
          [0, 8, 1, -7, 1, 2147483647, 9, -3, 5]) ⟨0, 0⟩ 9 = .ok r ∧
        Reduce .SSE2 SimdSum 2 (mem2 [5, -3, 9, 2147483647, 1, 1, -7, 8, 0]
          [0, 8, 1, -7, 1, 2147483647, 9, -3, 5]) ⟨1, 0⟩ 9 = .ok r) ∧
      (∃ r, Reduce .SSE2 SimdMin 2 (mem2 [5, -3, 9, 2147483647, 1, 1, -7, 8, 0]
          [0, 8, 1, -7, 1, 2147483647, 9, -3, 5]) ⟨0, 0⟩ 9 = .ok r ∧
        Reduce .SSE2 SimdMin 2 (mem2 [5, -3, 9, 2147483647, 1, 1, -7, 8, 0]
          [0, 8, 1, -7, 1, 2147483647, 9, -3, 5]) ⟨1, 0⟩ 9 = .ok r) ∧
      (∃ r, Reduce .SSE2 SimdMax 2 (mem2 [5, -3, 9, 2147483647, 1, 1, -7, 8, 0]
          [0, 8, 1, -7, 1, 2147483647, 9, -3, 5]) ⟨0, 0⟩ 9 = .ok r ∧
        Reduce .SSE2 SimdMax 2 (mem2 [5, -3, 9, 2147483647, 1, 1, -7, 8, 0]
          [0, 8, 1, -7, 1, 2147483647, 9, -3, 5]) ⟨1, 0⟩ 9 = .ok r) :=
  Reduce_perm .SSE2 2 (by decide) (mem2 [5, -3, 9, 2147483647, 1, 1, -7, 8, 0]
      [0, 8, 1, -7, 1, 2147483647, 9, -3, 5]) (mem2 [5, -3, 9, 2147483647, 1, 1, -7, 8, 0]
      [0, 8, 1, -7, 1, 2147483647, 9, -3, 5]) ⟨0, 0⟩ ⟨1, 0⟩ 9
    (by decide) (by decide) (by decide) (by decide)

/-! ## Claims about the convolutions -/

theorem paddedTap_kernel_zero (m : Mem) (src kernel : Ptr) (h w y x : Nat) (sum : Int)
    (d : Nat × Nat) (hk : m.get kernel (d.1 * 3 + d.2) = 0) (hs : isInt32 sum) :
    paddedTap m src kernel h w y x sum d = sum := by
  unfold paddedTap
  split
  · rw [hk, Int.mul_zero]
    unfold isInt32 at hs
    simp only [wrap32]
    omega
  · rfl

theorem paddedTap_kernel_one (m : Mem) (src kernel : Ptr) (h w y x : Nat)
    (hk : m.get kernel (1 * 3 + 1) = 1) (hy : y < h) (hx : x < w)
    (hs : isInt32 (m.get src (y * w + x))) :
    paddedTap m src kernel h w y x 0 (1, 1) = m.get src (y * w + x) := by
  unfold paddedTap
  rw [if_pos (by omega), hk, Int.mul_one]
  simp only [Nat.add_sub_cancel]
  unfold isInt32 at hs
  simp only [wrap32]
  omega

theorem paddedPixel_identity (m : Mem) (src kernel : Ptr) (h w y x : Nat)
    (hker : m.read kernel 9 = [0, 0, 0, 0, 1, 0, 0, 0, 0]) (hy : y < h) (hx : x < w)
    (hs : isInt32 (m.get src (y * w + x))) :
    paddedPixel m src kernel h w y x = m.get src (y * w + x) := by
  have k (i : Nat) (v : Int) (hv : [0, 0, 0, 0, 1, 0, 0, 0, (0 : Int)][i]? = some v) :
      m.get kernel i = v := Mem.get_eq_of_read m kernel 9 i v (by rw [hker]; exact hv)
  have z : isInt32 0 := by decide
  simp only [paddedPixel, taps3, List.foldl]
  rw [paddedTap_kernel_zero m src kernel h w y x 0 (0, 0) (k 0 0 rfl) z,
    paddedTap_kernel_zero m src kernel h w y x 0 (0, 1) (k 1 0 rfl) z,
    paddedTap_kernel_zero m src kernel h w y x 0 (0, 2) (k 2 0 rfl) z,
    paddedTap_kernel_zero m src kernel h w y x 0 (1, 0) (k 3 0 rfl) z,
    paddedTap_kernel_one m src kernel h w y x (k 4 1 rfl) hy hx hs,
    paddedTap_kernel_zero m src kernel h w y x _ (1, 2) (k 5 0 rfl) hs,
    paddedTap_kernel_zero m src kernel h w y x _ (2, 0) (k 6 0 rfl) hs,
    paddedTap_kernel_zero m src kernel h w y x _ (2, 1) (k 7 0 rfl) hs,
    paddedTap_kernel_zero m src kernel h w y x _ (2, 2) (k 8 0 rfl) hs]

/-- C6: for every height and width (of an image that fits the address space) and every image
of 32-bit values, `ConvolveScalar` with the 3x3 kernel `[[0,0,0],[0,1,0],[0,0,0]]` returns
normally and writes `dst[y*width+x] == src[y*width+x]` for every pixel `(y, x)`, borders
included. -/
theorem ConvolveScalar_identity (m : Mem) (src dst kernel : Ptr) (h w : Nat)
    (hsrc : m.valid src (h * w)) (hdst : m.valid dst (h * w))
    (hker : m.read kernel 9 = [0, 0, 0, 0, 1, 0, 0, 0, 0])
    (hsd : src.block ≠ dst.block) (hkd : kernel.block ≠ dst.block)
    (hsz : h * w < 4611686018427387904) (hD : ∀ v ∈ m.read src (h * w), isInt32 v) :
    ∃ m1, ConvolveScalar m src dst kernel h w 3 3 = .ok m1 ∧
      ∀ y x, y < h → x < w → ∃ a, m.load (src.add (y * w + x)) = .ok a ∧
        m1.load (dst.add (y * w + x)) = .ok a := by
  have hkv : m.valid kernel 9 := Mem.valid_of_read m kernel 9 _ hker rfl (by decide)
  refine ⟨_, ConvolveScalar_3x3 m src dst kernel h w hsrc hdst hkv hsd hkd hsz, ?_⟩
  intro y x hy hx
  have hidx : y * w + x < h * w := mul_add_lt y x h w hy hx
  refine ⟨m.get src (y * w + x), Mem.load_get m src (h * w) _ hsrc hidx, ?_⟩
  rw [ConvolveScalar_load m dst h w y x _ hdst hy hx,
    paddedPixel_identity m src kernel h w y x hker hy hx
      (hD _ (Mem.get_mem_read m src (h * w) _ hsrc hidx))]

/-- C6, witness: a 3x4 image with negative and extreme values is returned unchanged. -/
theorem ConvolveScalar_identity_witness :
    ((ConvolveScalar (mem3 [1, -2, 3, 2147483647, 5, 6, -2147483648, 8, 9, 10, 11, 12]
        [0, 0, 0, 0, 0, 0, 0, 0, 0, 0, 0, 0] [0, 0, 0, 0, 1, 0, 0, 0, 0])
        ⟨0, 0⟩ ⟨1, 0⟩ ⟨2, 0⟩ 3 4 3 3).toOption.map (fun m => m.read ⟨1, 0⟩ 12)
        = some [1, -2, 3, 2147483647, 5, 6, -2147483648, 8, 9, 10, 11, 12]) ∧
    ∃ m1, ConvolveScalar (mem3 [1, -2, 3, 2147483647, 5, 6, -2147483648, 8, 9, 10, 11, 12]
        [0, 0, 0, 0, 0, 0, 0, 0, 0, 0, 0, 0] [0, 0, 0, 0, 1, 0, 0, 0, 0])
        ⟨0, 0⟩ ⟨1, 0⟩ ⟨2, 0⟩ 3 4 3 3 = .ok m1 ∧
      ∀ y x, y < 3 → x < 4 → ∃ a,
        (mem3 [1, -2, 3, 2147483647, 5, 6, -2147483648, 8, 9, 10, 11, 12]
          [0, 0, 0, 0, 0, 0, 0, 0, 0, 0, 0, 0] [0, 0, 0, 0, 1, 0, 0, 0, 0]).load
            (Ptr.add ⟨0, 0⟩ (y * 4 + x)) = .ok a ∧
        m1.load (Ptr.add ⟨1, 0⟩ (y * 4 + x)) = .ok a :=
  ⟨by decide,
    ConvolveScalar_identity (mem3 [1, -2, 3, 2147483647, 5, 6, -2147483648, 8, 9, 10, 11, 12]
      [0, 0, 0, 0, 0, 0, 0, 0, 0, 0, 0, 0] [0, 0, 0, 0, 1, 0, 0, 0, 0])
      ⟨0, 0⟩ ⟨1, 0⟩ ⟨2, 0⟩ 3 4 (by decide) (by decide) (by decide) (by decide) (by decide)
      (by decide) (by decide)⟩

theorem paddedTap_ones (m : Mem) (src kernel : Ptr) (h w y x : Nat) (sum : Nat)
    (d : Nat × Nat) (hones : m.read src (h * w) = List.replicate (h * w) 1)
    (hker : m.read kernel 9 = [1, 1, 1, 1, 1, 1, 1, 1, 1])
    (hd : d.1 < 3 ∧ d.2 < 3) (hs : sum < 100) :
    paddedTap m src kernel h w y x (sum : Int) d
      = ((sum + if 1 ≤ y + d.1 ∧ y + d.1 ≤ h ∧ 1 ≤ x + d.2 ∧ x + d.2 ≤ w then 1 else 0 : Nat)
          : Int) := by
  unfold paddedTap
  by_cases hg : 1 ≤ y + d.1 ∧ y + d.1 ≤ h ∧ 1 ≤ x + d.2 ∧ x + d.2 ≤ w
  · rw [if_pos hg, if_pos hg]
    have hidx : (y + d.1 - 1) * w + (x + d.2 - 1) < h * w :=
      mul_add_lt _ _ h w (by omega) (by omega)
    have e1 : m.get src ((y + d.1 - 1) * w + (x + d.2 - 1)) = 1 :=
      Mem.get_eq_of_read m src (h * w) _ 1 (by
        rw [hones, List.getElem?_replicate, if_pos hidx])
    have e2 : m.get kernel (d.1 * 3 + d.2) = 1 :=
      Mem.get_eq_of_read m kernel 9 _ 1 (by
        rw [hker]
        have : d.1 * 3 + d.2 < 9 := by omega
        generalize d.1 * 3 + d.2 = i at this
        interval_cases i <;> rfl)
    rw [e1, e2]
    simp only [wrap32]
    omega
  · rw [if_neg hg, if_neg hg]
    rfl

theorem foldl_paddedTap_ones (m : Mem) (src kernel : Ptr) (h w y x : Nat)
    (hones : m.read src (h * w) = List.replicate (h * w) 1)
    (hker : m.read kernel 9 = [1, 1, 1, 1, 1, 1, 1, 1, 1]) :
    ∀ (l : List (Nat × Nat)) (sum : Nat), (∀ d ∈ l, d.1 < 3 ∧ d.2 < 3) →
      sum + l.length < 100 →
      List.foldl (paddedTap m src kernel h w y x) (sum : Int) l
        = ((sum + l.countP (fun d =>
            decide (1 ≤ y + d.1 ∧ y + d.1 ≤ h ∧ 1 ≤ x + d.2 ∧ x + d.2 ≤ w)) : Nat) : Int) := by
  intro l
  induction l with
  | nil => intro sum _ _; rfl
  | cons d t ih =>
    intro sum hd hs
    simp only [List.length_cons] at hs
    rw [List.foldl_cons, paddedTap_ones m src kernel h w y x sum d hones hker
      (hd d (List.mem_cons_self d t)) (by omega)]
    by_cases hg : 1 ≤ y + d.1 ∧ y + d.1 ≤ h ∧ 1 ≤ x + d.2 ∧ x + d.2 ≤ w
    · rw [if_pos hg, ih (sum + 1) (fun e he => hd e (List.mem_cons_of_mem d he)) (by omega),
        List.countP_cons_of_pos _ _ (by simpa using hg)]
      congr 1
      omega
    · rw [if_neg hg, ih (sum + 0) (fun e he => hd e (List.mem_cons_of_mem d he)) (by omega),
        List.countP_cons_of_neg _ _ (by simpa using hg)]
      rfl

/-- C7: for every height and width (of an image that fits the address space),
`ConvolveScalar` with the 3x3 all-ones kernel on an image whose pixels are all 1 returns
normally and writes at each pixel `(y, x)` the number of positions of the 3x3 window centred
there that lie inside `[0, height) x [0, width)`. -/
theorem ConvolveScalar_ones (m : Mem) (src dst kernel : Ptr) (h w : Nat)
    (hsrc : m.valid src (h * w)) (hdst : m.valid dst (h * w))
    (hones : m.read src (h * w) = List.replicate (h * w) 1)
    (hker : m.read kernel 9 = [1, 1, 1, 1, 1, 1, 1, 1, 1])
    (hsd : src.block ≠ dst.block) (hkd : kernel.block ≠ dst.block)
    (hsz : h * w < 4611686018427387904) :
    ∃ m1, ConvolveScalar m src dst kernel h w 3 3 = .ok m1 ∧
      ∀ y x, y < h → x < w →
        m1.load (dst.add (y * w + x)) = .ok (windowCount h w y x : Int) := by
  have hkv : m.valid kernel 9 := Mem.valid_of_read m kernel 9 _ hker rfl (by decide)
  refine ⟨_, ConvolveScalar_3x3 m src dst kernel h w hsrc hdst hkv hsd hkd hsz, ?_⟩
  intro y x hy hx
  rw [ConvolveScalar_load m dst h w y x _ hdst hy hx]
  congr 1
  have := foldl_paddedTap_ones m src kernel h w y x hones hker taps3 0 (by decide) (by decide)
  simp only [Nat.zero_add] at this
  exact this

/-- C7, witness: on a 4x4 image the corners get 4, the other border pixels 6, the interior 9. -/
theorem ConvolveScalar_ones_witness :
    ((ConvolveScalar (mem3 [1, 1, 1, 1, 1, 1, 1, 1, 1, 1, 1, 1, 1, 1, 1, 1]
        [0, 0, 0, 0, 0, 0, 0, 0, 0, 0, 0, 0, 0, 0, 0, 0] [1, 1, 1, 1, 1, 1, 1, 1, 1])
        ⟨0, 0⟩ ⟨1, 0⟩ ⟨2, 0⟩ 4 4 3 3).toOption.map (fun m => m.read ⟨1, 0⟩ 16)
        = some [4, 6, 6, 4, 6, 9, 9, 6, 6, 9, 9, 6, 4, 6, 6, 4]) ∧
    ∃ m1, ConvolveScalar (mem3 [1, 1, 1, 1, 1, 1, 1, 1, 1, 1, 1, 1, 1, 1, 1, 1]
        [0, 0, 0, 0, 0, 0, 0, 0, 0, 0, 0, 0, 0, 0, 0, 0] [1, 1, 1, 1, 1, 1, 1, 1, 1])
        ⟨0, 0⟩ ⟨1, 0⟩ ⟨2, 0⟩ 4 4 3 3 = .ok m1 ∧
      ∀ y x, y < 4 → x < 4 →
        m1.load (Ptr.add ⟨1, 0⟩ (y * 4 + x)) = .ok (windowCount 4 4 y x : Int) :=
  ⟨by decide,
    ConvolveScalar_ones (mem3 [1, 1, 1, 1, 1, 1, 1, 1, 1, 1, 1, 1, 1, 1, 1, 1]
      [0, 0, 0, 0, 0, 0, 0, 0, 0, 0, 0, 0, 0, 0, 0, 0] [1, 1, 1, 1, 1, 1, 1, 1, 1])
      ⟨0, 0⟩ ⟨1, 0⟩ ⟨2, 0⟩ 4 4 (by decide) (by decide) (by decide) (by decide) (by decide)
      (by decide) (by decide)⟩

theorem paddedPixel_interior (m : Mem) (src kernel : Ptr) (h w y x : Nat)
    (hy : y + 3 ≤ h) (hx : x + 3 ≤ w) :
    paddedPixel m src kernel h w (y + 1) (x + 1) = validPixel m src kernel w y x := by
  have tap : ∀ (sum : Int) (d : Nat × Nat), d.1 < 3 → d.2 < 3 →
      paddedTap m src kernel h w (y + 1) (x + 1) sum d = validTap m src kernel w y x sum d := by
    intro sum d h1 h2
    unfold paddedTap validTap
    rw [if_pos (by omega),
      show y + 1 + d.1 - 1 = y + d.1 by omega, show x + 1 + d.2 - 1 = x + d.2 by omega]
  simp only [paddedPixel, validPixel, taps3, List.foldl]
  rw [tap _ (0, 0) (by decide) (by decide), tap _ (0, 1) (by decide) (by decide),
    tap _ (0, 2) (by decide) (by decide), tap _ (1, 0) (by decide) (by decide),
    tap _ (1, 1) (by decide) (by decide), tap _ (1, 2) (by decide) (by decide),
    tap _ (2, 0) (by decide) (by decide), tap _ (2, 1) (by decide) (by decide),
    tap _ (2, 2) (by decide) (by decide)]

/-- C8, counterexample: on a 3x10 image `1, ..., 30` with the kernel that selects the
top-left tap, `ConvolveAVX2` writes `dst[0] = 1` (the pixel `src[0]`) while `ConvolveScalar`
writes `dst[0] = 0` (the tap falls in the padding); and on a 3x9 image, inside the claimed
range of widths, `ConvolveAVX2` does not return at all: its vector loop reads past the image. -/
theorem ConvolveAVX2_differs_from_scalar :
    (ConvolveAVX2 (mem3 (ramp 30) (List.replicate 30 0) [1, 0, 0, 0, 0, 0, 0, 0, 0])
        ⟨0, 0⟩ ⟨1, 0⟩ ⟨2, 0⟩ 3 10 3 3).toOption.map (fun m => m.get ⟨1, 0⟩ 0) = some 1 ∧
      (ConvolveScalar (mem3 (ramp 30) (List.replicate 30 0) [1, 0, 0, 0, 0, 0, 0, 0, 0])
        ⟨0, 0⟩ ⟨1, 0⟩ ⟨2, 0⟩ 3 10 3 3).toOption.map (fun m => m.get ⟨1, 0⟩ 0) = some 0 ∧
      ConvolveAVX2 (mem3 (ramp 27) (List.replicate 27 0) [1, 0, 0, 0, 0, 0, 0, 0, 0])
        ⟨0, 0⟩ ⟨1, 0⟩ ⟨2, 0⟩ 3 9 3 3 = .error .OutOfBounds :=
  ⟨by decide, by decide, rfl⟩

/-- C8, amended: for every image of height >= 3 and width >= 10 (that fits the address
space) and every 3x3 kernel, both convolutions return normally, and the value `ConvolveAVX2`
writes at `dst[y*width+x]` equals the value `ConvolveScalar` writes at
`dst[(y+1)*width+(x+1)]`, for every `y` in `[0, height-2)` and `x` in `[0, width-2)`. -/
theorem ConvolveAVX2_matches_scalar_shifted (m : Mem) (src dst kernel : Ptr) (h w : Nat)
    (hh : 3 ≤ h) (hw : 10 ≤ w) (hsz : h * w < 4611686018427387904)
    (hsrc : m.valid src (h * w)) (hdst : m.valid dst (h * w)) (hker : m.valid kernel 9)
    (hsd : src.block ≠ dst.block) (hkd : kernel.block ≠ dst.block) :
    ∃ mA mS, ConvolveAVX2 m src dst kernel h w 3 3 = .ok mA ∧
      ConvolveScalar m src dst kernel h w 3 3 = .ok mS ∧
      ∀ y x, y < h - 2 → x < w - 2 → ∃ v, mA.load (dst.add (y * w + x)) = .ok v ∧
        mS.load (dst.add ((y + 1) * w + (x + 1))) = .ok v := by
  refine ⟨_, _, ConvolveAVX2_eq m src dst kernel h w 3 hsrc hdst hker hsd hkd hsz hh hw,
    ConvolveScalar_3x3 m src dst kernel h w hsrc hdst hker hsd hkd hsz, ?_⟩
  intro y x hy hx
  refine ⟨validPixel m src kernel w y x,
    rowsWritten_load m dst h w _ hdst (by omega) y x hx (h - 2) (by omega) hy, ?_⟩
  rw [ConvolveScalar_load m dst h w (y + 1) (x + 1) _ hdst (by omega) (by omega),
    paddedPixel_interior m src kernel h w y x (by omega) (by omega)]

/-- C8, witness of the amended statement: a 3x10 image and the kernel `1, ..., 9`. -/
theorem ConvolveAVX2_matches_scalar_shifted_witness :
    ((ConvolveAVX2 (mem3 (ramp 30) (List.replicate 30 0) [1, 2, 3, 4, 5, 6, 7, 8, 9])
        ⟨0, 0⟩ ⟨1, 0⟩ ⟨2, 0⟩ 3 10 3 3).toOption.map (fun m => m.read ⟨1, 0⟩ 8)
        = some [726, 771, 816, 861, 906, 951, 996, 1041]) ∧
    ((ConvolveScalar (mem3 (ramp 30) (List.replicate 30 0) [1, 2, 3, 4, 5, 6, 7, 8, 9])
        ⟨0, 0⟩ ⟨1, 0⟩ ⟨2, 0⟩ 3 10 3 3).toOption.map (fun m => m.read ⟨1, 11⟩ 8)
        = some [726, 771, 816, 861, 906, 951, 996, 1041]) ∧
    ∃ mA mS, ConvolveAVX2 (mem3 (ramp 30) (List.replicate 30 0) [1, 2, 3, 4, 5, 6, 7, 8, 9])
        ⟨0, 0⟩ ⟨1, 0⟩ ⟨2, 0⟩ 3 10 3 3 = .ok mA ∧
      ConvolveScalar (mem3 (ramp 30) (List.replicate 30 0) [1, 2, 3, 4, 5, 6, 7, 8, 9])
        ⟨0, 0⟩ ⟨1, 0⟩ ⟨2, 0⟩ 3 10 3 3 = .ok mS ∧
      ∀ y x, y < 3 - 2 → x < 10 - 2 → ∃ v, mA.load (Ptr.add ⟨1, 0⟩ (y * 10 + x)) = .ok v ∧
        mS.load (Ptr.add ⟨1, 0⟩ ((y + 1) * 10 + (x + 1))) = .ok v :=
  ⟨by decide, by decide,
    ConvolveAVX2_matches_scalar_shifted
      (mem3 (ramp 30) (List.replicate 30 0) [1, 2, 3, 4, 5, 6, 7, 8, 9])
      ⟨0, 0⟩ ⟨1, 0⟩ ⟨2, 0⟩ 3 10 (by decide) (by decide) (by decide) (by decide) (by decide)
      (by decide) (by decide) (by decide)⟩

/-! ## Identity elements and lane-wise agreement of the descriptors -/

theorem zipWith_replicate_ident (f : Int → Int → Int) (e : Int) :
    ∀ (v : List Int) (k : Nat), v.length = k → (∀ y ∈ v, f e y = y) →
      List.zipWith f (List.replicate k e) v = v
  | [], k, h, _ => by
    simp only [List.length_nil] at h
    subst h
    rfl
  | y :: v, k, h, hf => by
    simp only [List.length_cons] at h
    subst h
    simp only [List.replicate_succ, List.zipWith_cons_cons]
    rw [hf y (List.mem_cons_self y v),
      zipWith_replicate_ident f e v v.length rfl (fun z hz => hf z (List.mem_cons_of_mem y hz))]

/-- C15: for each reduction (`Sum`, `Min`, `Max`), either backend and every 32-bit value `x`,
the scalar form with the identity (0, max int32, min int32) on either side returns `x`; the
identity register holds the identity in every lane, and the vector form with the identity
register returns every register `v` of 32-bit lanes unchanged. -/
theorem reduction_identity (isa : ISA) (x : Int) (v : List Int) (hx : isInt32 x)
    (hv : v.length = isa.kLanes) (hvD : ∀ y ∈ v, isInt32 y) :
    ((SimdSum isa).ProcessScalar 0 x = x ∧ (SimdSum isa).ProcessScalar x 0 = x ∧
      (SimdSum isa).Identity = List.replicate isa.kLanes 0 ∧
      (SimdSum isa).Process (SimdSum isa).Identity v = v) ∧
    ((SimdMin isa).ProcessScalar 2147483647 x = x ∧ (SimdMin isa).ProcessScalar x 2147483647 = x ∧
      (SimdMin isa).Identity = List.replicate isa.kLanes 2147483647 ∧
      (SimdMin isa).Process (SimdMin isa).Identity v = v) ∧
    ((SimdMax isa).ProcessScalar (-2147483648) x = x ∧
      (SimdMax isa).ProcessScalar x (-2147483648) = x ∧
      (SimdMax isa).Identity = List.replicate isa.kLanes (-2147483648) ∧
      (SimdMax isa).Process (SimdMax isa).Identity v = v) := by
  have hs := SimdSum_spec isa
  have hmin := SimdMin_spec isa
  have hmax := SimdMax_spec isa
  refine ⟨⟨?_, ?_, hs.identity, ?_⟩, ⟨?_, ?_, hmin.identity, ?_⟩, ⟨?_, ?_, hmax.identity, ?_⟩⟩
  · rw [hs.scalar]; exact sumLaws.ident x hx
  · rw [hs.scalar, sumLaws.comm]; exact sumLaws.ident x hx
  · rw [hs.process, hs.identity]
    exact zipWith_replicate_ident _ 0 v _ hv (fun y hy => sumLaws.ident y (hvD y hy))
  · rw [hmin.scalar]; exact minLaws.ident x hx
  · rw [hmin.scalar, minLaws.comm]; exact minLaws.ident x hx
  · rw [hmin.process, hmin.identity]
    exact zipWith_replicate_ident _ INT32_MAX v _ hv (fun y hy => minLaws.ident y (hvD y hy))
  · rw [hmax.scalar]; exact maxLaws.ident x hx
  · rw [hmax.scalar, maxLaws.comm]; exact maxLaws.ident x hx
  · rw [hmax.process, hmax.identity]
    exact zipWith_replicate_ident _ INT32_MIN v _ hv (fun y hy => maxLaws.ident y (hvD y hy))

/-- C15, witness: the value -5 and the 4-lane register `[7, -2147483648, 2147483647, 0]`. -/
theorem reduction_identity_witness :
    ((SimdSum .SSE2).ProcessScalar 0 (-5) = -5 ∧ (SimdSum .SSE2).ProcessScalar (-5) 0 = -5 ∧
      (SimdSum .SSE2).Identity = List.replicate ISA.SSE2.kLanes 0 ∧
      (SimdSum .SSE2).Process (SimdSum .SSE2).Identity [7, -2147483648, 2147483647, 0]
        = [7, -2147483648, 2147483647, 0]) ∧
    ((SimdMin .SSE2).ProcessScalar 2147483647 (-5) = -5 ∧
      (SimdMin .SSE2).ProcessScalar (-5) 2147483647 = -5 ∧
      (SimdMin .SSE2).Identity = List.replicate ISA.SSE2.kLanes 2147483647 ∧
      (SimdMin .SSE2).Process (SimdMin .SSE2).Identity [7, -2147483648, 2147483647, 0]
        = [7, -2147483648, 2147483647, 0]) ∧
    ((SimdMax .SSE2).ProcessScalar (-2147483648) (-5) = -5 ∧
      (SimdMax .SSE2).ProcessScalar (-5) (-2147483648) = -5 ∧
      (SimdMax .SSE2).Identity = List.replicate ISA.SSE2.kLanes (-2147483648) ∧
      (SimdMax .SSE2).Process (SimdMax .SSE2).Identity [7, -2147483648, 2147483647, 0]
        = [7, -2147483648, 2147483647, 0]) :=
  reduction_identity .SSE2 (-5) [7, -2147483648, 2147483647, 0] (by decide) (by decide)
    (by decide)

/-- C17: for `Add`, `Sub`, `Mul`, `Square`, `Min`, `Max`, `Sum` and either backend, lane `j`
of the vector form equals the scalar form applied to lane `j` of the operands (the scalar
forms wrap around modulo 2^32). -/
theorem vector_form_agrees_with_scalar (isa : ISA) (a b : List Int) (j : Nat) (x y : Int)
    (ha : a[j]? = some x) (hb : b[j]? = some y) :
    ((SimdAdd isa).Process a b).map (fun r => r[j]?)
        = ((SimdAdd isa).ProcessScalar x y).map some ∧
      ((SimdSub isa).Process a b).map (fun r => r[j]?)
        = ((SimdSub isa).ProcessScalar x y).map some ∧
      ((SimdMul isa).Process a b).map (fun r => r[j]?)
        = ((SimdMul isa).ProcessScalar x y).map some ∧
      ((SimdSquare isa).Process a)[j]? = some ((SimdSquare isa).ProcessScalar x) ∧
      ((SimdMin isa).Process a b)[j]? = some ((SimdMin isa).ProcessScalar x y) ∧
      ((SimdMax isa).Process a b)[j]? = some ((SimdMax isa).ProcessScalar x y) ∧
      ((SimdSum isa).Process a b)[j]? = some ((SimdSum isa).ProcessScalar x y) := by
  have lane : ∀ f : Int → Int → Int, (List.zipWith f a b)[j]? = some (f x y) := fun f =>
    List.getElem?_zipWith_eq_some.mpr ⟨x, y, ha, hb, rfl⟩
  have hmin := SimdMin_spec isa
  have hmax := SimdMax_spec isa
  have hsum := SimdSum_spec isa
  refine ⟨?_, ?_, ?_, ?_, ?_, ?_, ?_⟩
  · cases isa <;> exact congrArg Except.ok (lane _)
  · cases isa <;> exact congrArg Except.ok (lane _)
  · cases isa <;> exact congrArg Except.ok (lane _)
  · rw [SimdSquare_Process, SimdSquare_ProcessScalar, List.getElem?_map, ha]
    rfl
  · rw [hmin.process, hmin.scalar]; exact lane _
  · rw [hmax.process, hmax.scalar]; exact lane _
  · rw [hsum.process, hsum.scalar]; exact lane _

/-- C17, witness: lane 2 of two 8-lane registers, with products and sums that wrap around. -/
theorem vector_form_agrees_with_scalar_witness :
    ((SimdAdd .AVX2).Process [1, 2, 2147483647, 4, 5, 6, 7, 8] [8, 7, 65536, 5, 4, 3, 2, 1]).map
          (fun r => r[2]?)
        = ((SimdAdd .AVX2).ProcessScalar 2147483647 65536).map some ∧
      ((SimdSub .AVX2).Process [1, 2, 2147483647, 4, 5, 6, 7, 8] [8, 7, 65536, 5, 4, 3, 2, 1]).map
          (fun r => r[2]?)
        = ((SimdSub .AVX2).ProcessScalar 2147483647 65536).map some ∧
      ((SimdMul .AVX2).Process [1, 2, 2147483647, 4, 5, 6, 7, 8] [8, 7, 65536, 5, 4, 3, 2, 1]).map
          (fun r => r[2]?)
        = ((SimdMul .AVX2).ProcessScalar 2147483647 65536).map some ∧
      ((SimdSquare .AVX2).Process [1, 2, 2147483647, 4, 5, 6, 7, 8])[2]?
        = some ((SimdSquare .AVX2).ProcessScalar 2147483647) ∧
      ((SimdMin .AVX2).Process [1, 2, 2147483647, 4, 5, 6, 7, 8] [8, 7, 65536, 5, 4, 3, 2, 1])[2]?
        = some ((SimdMin .AVX2).ProcessScalar 2147483647 65536) ∧
      ((SimdMax .AVX2).Process [1, 2, 2147483647, 4, 5, 6, 7, 8] [8, 7, 65536, 5, 4, 3, 2, 1])[2]?
        = some ((SimdMax .AVX2).ProcessScalar 2147483647 65536) ∧
      ((SimdSum .AVX2).Process [1, 2, 2147483647, 4, 5, 6, 7, 8] [8, 7, 65536, 5, 4, 3, 2, 1])[2]?
        = some ((SimdSum .AVX2).ProcessScalar 2147483647 65536) :=
  vector_form_agrees_with_scalar .AVX2 [1, 2, 2147483647, 4, 5, 6, 7, 8]
    [8, 7, 65536, 5, 4, 3, 2, 1] 2 2147483647 65536 rfl rfl

/-! ## In-place use and frame of `Map` and `Zip` -/

theorem getElem?_splice_ge (D vs : List Int) (a j : Nat) (ha : a + vs.length ≤ D.length)
    (hj : a + vs.length ≤ j) : (D.take a ++ vs ++ D.drop (a + vs.length))[j]? = D[j]? := by
  have hl : (D.take a ++ vs).length = a + vs.length := by
    rw [List.length_append, List.length_take]
    omega
  rw [List.getElem?_append_right (by omega), hl, List.getElem?_drop]
  congr 1
  omega

theorem Mem.sameOutside_write (m : Mem) (dst : Ptr) (vs : List Int)
    (h : m.valid dst vs.length) : m.sameOutside (m.write dst vs) dst vs.length := by
  refine ⟨fun b hb => Mem.write_other m dst vs b hb, Mem.length_write m dst vs _ h, ?_⟩
  unfold Mem.valid at h
  intro j hj
  rw [Mem.write_block]
  rcases hj with hj | hj
  · exact getElem?_splice_lt _ _ _ _ _ hj (by omega)
  · exact getElem?_splice_ge _ _ _ _ h hj

/-- C16: for either backend, every `n` and every array `a` of `n` elements, `Map` with
`Square` run in place (`src` and `dst` are the same buffer) returns normally and leaves in
the buffer what an out-of-place run leaves in a separate `dst`: `buffer[i] == a[i] * a[i]`
(32-bit wrap-around) for every `i` in `[0, n)`. -/
theorem Square_in_place (isa : ISA) (m : Mem) (buf dst : Ptr) (n : Nat)
    (hbuf : m.valid buf n) (hdst : m.valid dst n) (hne : buf.block ≠ dst.block) :
    ∃ m1 m2, Square isa m buf buf n = .ok m1 ∧ Square isa m buf dst n = .ok m2 ∧
      m1.read buf n = m2.read dst n ∧
      ∀ i, i < n → ∃ a, m.load (buf.add i) = .ok a ∧
        m1.load (buf.add i) = .ok (wrap32 (a * a)) := by
  have hl : ((m.read buf n).map (fun a => wrap32 (a * a))).length = n := by
    rw [List.length_map, Mem.length_read m buf n hbuf]
  refine ⟨_, _,
    Map_eq isa SimdSquare _ (SimdSquare_Process isa) (SimdSquare_ProcessScalar isa)
      m buf buf n hbuf hbuf (Or.inr rfl),
    Map_eq isa SimdSquare _ (SimdSquare_Process isa) (SimdSquare_ProcessScalar isa)
      m buf dst n hbuf hdst (Or.inl hne), ?_, ?_⟩
  · have h1 := Mem.read_write_same m buf _ (by rw [hl]; exact hbuf)
    have h2 := Mem.read_write_same m dst ((m.read buf n).map (fun a => wrap32 (a * a)))
      (by rw [hl]; exact hdst)
    rw [hl] at h1 h2
    rw [h1, h2]
  · intro i hi
    obtain ⟨a, ha⟩ := Mem.load_exists m buf n i hi hbuf
    refine ⟨a, ha, ?_⟩
    apply Mem.load_write
    · rw [hl]
      exact hbuf
    · rw [List.getElem?_map, (Mem.load_iff_read m buf n i a hi).mp ha]
      rfl

/-- C16, witness: seven values squared in place on the 4-lane backend. -/
theorem Square_in_place_witness :
    ((Square .SSE2 (mem2 [-3, -2, -1, 0, 1, 2, 65536] [0, 0, 0, 0, 0, 0, 0]) ⟨0, 0⟩ ⟨0, 0⟩ 7).toOption.map
        (fun m => m.read ⟨0, 0⟩ 7) = some [9, 4, 1, 0, 1, 4, 0]) ∧
    ∃ m1 m2, Square .SSE2 (mem2 [-3, -2, -1, 0, 1, 2, 65536] [0, 0, 0, 0, 0, 0, 0])
        ⟨0, 0⟩ ⟨0, 0⟩ 7 = .ok m1 ∧
      Square .SSE2 (mem2 [-3, -2, -1, 0, 1, 2, 65536] [0, 0, 0, 0, 0, 0, 0])
        ⟨0, 0⟩ ⟨1, 0⟩ 7 = .ok m2 ∧
      m1.read ⟨0, 0⟩ 7 = m2.read ⟨1, 0⟩ 7 ∧
      ∀ i, i < 7 → ∃ a,
        (mem2 [-3, -2, -1, 0, 1, 2, 65536] [0, 0, 0, 0, 0, 0, 0]).load (Ptr.add ⟨0, 0⟩ i)
          = .ok a ∧
        m1.load (Ptr.add ⟨0, 0⟩ i) = .ok (wrap32 (a * a)) :=
  ⟨by decide,
    Square_in_place .SSE2 (mem2 [-3, -2, -1, 0, 1, 2, 65536] [0, 0, 0, 0, 0, 0, 0])
      ⟨0, 0⟩ ⟨1, 0⟩ 7 (by decide) (by decide) (by decide)⟩

theorem Map_zero (isa : ISA) (Op : ISA → UnaryOp) (m : Mem) (src dst : Ptr) :
    Map isa Op m src dst 0 = .ok m := by
  cases isa <;> rfl

theorem Zip_zero (isa : ISA) (Op : ISA → BinaryOp) (m : Mem) (src1 src2 dst : Ptr) :
    Zip isa Op m src1 src2 dst 0 = .ok m := by
  cases isa <;> rfl

theorem sameOutside_of_length (m : Mem) (dst : Ptr) (vs : List Int) (n : Nat)
    (hl : vs.length = n) (h : m.valid dst n) : m.sameOutside (m.write dst vs) dst n := by
  subst hl
  exact Mem.sameOutside_write m dst vs h

/-- C18: for either backend and every `n`, `Map` (with `Square`) and `Zip` (with `Add`, `Sub`,
`Mul`) return a memory that differs from the initial one at most in `dst[0 .. n)`: every
other buffer, in particular a source buffer distinct from the destination, is unchanged, and
so is every element of the destination block outside `[dst, dst + n)`; with `n = 0` the
memory is returned exactly as it was, whatever the operation. -/
theorem Map_Zip_frame (isa : ISA) (m : Mem) (src src1 src2 dst : Ptr) (n : Nat)
    (hsrc : m.valid src n) (hsrc1 : m.valid src1 n) (hsrc2 : m.valid src2 n)
    (hdst : m.valid dst n)
    (hal : src.block ≠ dst.block ∨ src = dst)
    (hal1 : src1.block ≠ dst.block ∨ src1 = dst) (hal2 : src2.block ≠ dst.block ∨ src2 = dst) :
    (∃ m1, Square isa m src dst n = .ok m1 ∧ m.sameOutside m1 dst n) ∧
      (∃ m1, Add isa m src1 src2 dst n = .ok m1 ∧ m.sameOutside m1 dst n) ∧
      (∃ m1, Sub isa m src1 src2 dst n = .ok m1 ∧ m.sameOutside m1 dst n) ∧
      (∃ m1, Mul isa m src1 src2 dst n = .ok m1 ∧ m.sameOutside m1 dst n) ∧
      (∀ Op, Map isa Op m src dst 0 = .ok m) ∧
      (∀ Op, Zip isa Op m src1 src2 dst 0 = .ok m) := by
  have l1 := Mem.length_read m src1 n hsrc1
  have l2 := Mem.length_read m src2 n hsrc2
  have lz : ∀ f : Int → Int → Int,
      (List.zipWith f (m.read src1 n) (m.read src2 n)).length = n := by
    intro f
    rw [List.length_zipWith, l1, l2, Nat.min_self]
  refine ⟨⟨_, Map_eq isa SimdSquare _ (SimdSquare_Process isa) (SimdSquare_ProcessScalar isa)
      m src dst n hsrc hdst hal, sameOutside_of_length m dst _ n
        (by rw [List.length_map, Mem.length_read m src n hsrc]) hdst⟩,
    ⟨_, Add_eq isa m src1 src2 dst n hsrc1 hsrc2 hdst hal1 hal2,
      sameOutside_of_length m dst _ n (lz _) hdst⟩,
    ⟨_, Sub_eq isa m src1 src2 dst n hsrc1 hsrc2 hdst hal1 hal2,
      sameOutside_of_length m dst _ n (lz _) hdst⟩,
    ⟨_, Mul_eq isa m src1 src2 dst n hsrc1 hsrc2 hdst hal1 hal2,
      sameOutside_of_length m dst _ n (lz _) hdst⟩,
    fun Op => Map_zero isa Op m src dst, fun Op => Zip_zero isa Op m src1 src2 dst⟩

/-- C18, witness: five elements written at offset 2 of a block of nine; the elements around
them and the sources keep their values. -/
theorem Map_Zip_frame_witness :
    ((Mul .SSE2 (mem3 [1, 2, 3, 4, 5] [6, 7, 8, 9, 10] [11, 12, 13, 14, 15, 16, 17, 18, 19])
        ⟨0, 0⟩ ⟨1, 0⟩ ⟨2, 2⟩ 5).toOption.map (fun m => (m 0, m 1, m 2))
        = some ([1, 2, 3, 4, 5], [6, 7, 8, 9, 10], [11, 12, 6, 14, 24, 36, 50, 18, 19])) ∧
    ((∃ m1, Square .SSE2 (mem3 [1, 2, 3, 4, 5] [6, 7, 8, 9, 10]
          [11, 12, 13, 14, 15, 16, 17, 18, 19]) ⟨0, 0⟩ ⟨2, 2⟩ 5 = .ok m1 ∧
        (mem3 [1, 2, 3, 4, 5] [6, 7, 8, 9, 10]
          [11, 12, 13, 14, 15, 16, 17, 18, 19]).sameOutside m1 ⟨2, 2⟩ 5) ∧
      (∃ m1, Add .SSE2 (mem3 [1, 2, 3, 4, 5] [6, 7, 8, 9, 10]
          [11, 12, 13, 14, 15, 16, 17, 18, 19]) ⟨0, 0⟩ ⟨1, 0⟩ ⟨2, 2⟩ 5 = .ok m1 ∧
        (mem3 [1, 2, 3, 4, 5] [6, 7, 8, 9, 10]
          [11, 12, 13, 14, 15, 16, 17, 18, 19]).sameOutside m1 ⟨2, 2⟩ 5) ∧
      (∃ m1, Sub .SSE2 (mem3 [1, 2, 3, 4, 5] [6, 7, 8, 9, 10]
          [11, 12, 13, 14, 15, 16, 17, 18, 19]) ⟨0, 0⟩ ⟨1, 0⟩ ⟨2, 2⟩ 5 = .ok m1 ∧
        (mem3 [1, 2, 3, 4, 5] [6, 7, 8, 9, 10]
          [11, 12, 13, 14, 15, 16, 17, 18, 19]).sameOutside m1 ⟨2, 2⟩ 5) ∧
      (∃ m1, Mul .SSE2 (mem3 [1, 2, 3, 4, 5] [6, 7, 8, 9, 10]
          [11, 12, 13, 14, 15, 16, 17, 18, 19]) ⟨0, 0⟩ ⟨1, 0⟩ ⟨2, 2⟩ 5 = .ok m1 ∧
        (mem3 [1, 2, 3, 4, 5] [6, 7, 8, 9, 10]
          [11, 12, 13, 14, 15, 16, 17, 18, 19]).sameOutside m1 ⟨2, 2⟩ 5) ∧
      (∀ Op, Map .SSE2 Op (mem3 [1, 2, 3, 4, 5] [6, 7, 8, 9, 10]
          [11, 12, 13, 14, 15, 16, 17, 18, 19]) ⟨0, 0⟩ ⟨2, 2⟩ 0
        = .ok (mem3 [1, 2, 3, 4, 5] [6, 7, 8, 9, 10] [11, 12, 13, 14, 15, 16, 17, 18, 19])) ∧
      (∀ Op, Zip .SSE2 Op (mem3 [1, 2, 3, 4, 5] [6, 7, 8, 9, 10]
          [11, 12, 13, 14, 15, 16, 17, 18, 19]) ⟨0, 0⟩ ⟨1, 0⟩ ⟨2, 2⟩ 0
        = .ok (mem3 [1, 2, 3, 4, 5] [6, 7, 8, 9, 10] [11, 12, 13, 14, 15, 16, 17, 18, 19]))) :=
  ⟨by decide,
    Map_Zip_frame .SSE2 (mem3 [1, 2, 3, 4, 5] [6, 7, 8, 9, 10]
      [11, 12, 13, 14, 15, 16, 17, 18, 19]) ⟨0, 0⟩ ⟨0, 0⟩ ⟨1, 0⟩ ⟨2, 2⟩ 5
      (by decide) (by decide) (by decide) (by decide) (by decide) (by decide) (by decide)⟩

/-! ## `Reduce` with `Sum` and the exact sum -/

theorem wrap32_foldl_sum : ∀ (l : List Int) (a : Int),
    wrap32 (List.foldl (fun acc x => wrap32 (acc + x)) a l) = wrap32 (a + l.sum)
  | [], a => by simp
  | x :: l, a => by
    rw [List.foldl_cons, wrap32_foldl_sum l (wrap32 (a + x)), List.sum_cons]
    generalize l.sum = s
    simp only [wrap32]
    omega

theorem isInt32_foldl_sum : ∀ (l : List Int) (a : Int), isInt32 a →
    isInt32 (List.foldl (fun acc x => wrap32 (acc + x)) a l)
  | [], _, h => h
  | x :: l, a, _ => by
    rw [List.foldl_cons]
    exact isInt32_foldl_sum l _ (wrap32_isInt32 _)

/-- C20: for either backend, every accumulator count `k >= 1` and every array `src` of `n`
32-bit values, `Reduce` with `Sum` returns the exact integer sum of the elements reduced
into `[-2^31, 2^31)`: the result is congruent to the exact sum modulo 2^32, and equals it
whenever the exact sum is itself a 32-bit value, whatever happened in the lanes. -/
theorem Reduce_Sum_exact (isa : ISA) (k : Nat) (hk : 1 ≤ k) (m : Mem) (src : Ptr) (n : Nat)
    (hsrc : m.valid src n) (hD : ∀ x ∈ m.read src n, isInt32 x) :
    ∃ r, Reduce isa SimdSum k m src n = .ok r ∧ r = wrap32 (m.read src n).sum ∧
      (r - (m.read src n).sum) % 4294967296 = 0 ∧
      (isInt32 (m.read src n).sum → r = (m.read src n).sum) := by
  refine ⟨_, Reduce_eq (SimdSum_spec isa) k hk m src n (Or.inr hsrc) hD, ?_⟩
  have h1 := wrap32_foldl_sum (m.read src n) 0
  have h2 := isInt32_foldl_sum (m.read src n) 0 (by decide)
  rw [wrap32_of_isInt32 _ h2, Int.zero_add] at h1
  refine ⟨h1, ?_, ?_⟩
  · rw [h1]
    generalize (m.read src n).sum = s
    simp only [wrap32]
    omega
  · intro hs
    rw [h1]
    exact wrap32_of_isInt32 _ hs

/-- C20, witness: on the 4-lane backend with one accumulator, lane 0 receives 2147483647 and
then 1 and overflows; the exact sum 2147483647 is returned all the same. -/
theorem Reduce_Sum_exact_witness :
    ((Reduce .SSE2 SimdSum 1 (mem2 [2147483647, -1, 0, 0, 1, 0, 0, 0] []) ⟨0, 0⟩ 8).toOption
        = some 2147483647) ∧
    ∃ r, Reduce .SSE2 SimdSum 1 (mem2 [2147483647, -1, 0, 0, 1, 0, 0, 0] []) ⟨0, 0⟩ 8 = .ok r ∧
      r = wrap32 ((mem2 [2147483647, -1, 0, 0, 1, 0, 0, 0] []).read ⟨0, 0⟩ 8).sum ∧
      (r - ((mem2 [2147483647, -1, 0, 0, 1, 0, 0, 0] []).read ⟨0, 0⟩ 8).sum) % 4294967296 = 0 ∧
      (isInt32 ((mem2 [2147483647, -1, 0, 0, 1, 0, 0, 0] []).read ⟨0, 0⟩ 8).sum →
        r = ((mem2 [2147483647, -1, 0, 0, 1, 0, 0, 0] []).read ⟨0, 0⟩ 8).sum) :=
  ⟨by decide,
    Reduce_Sum_exact .SSE2 1 (by decide) (mem2 [2147483647, -1, 0, 0, 1, 0, 0, 0] []) ⟨0, 0⟩ 8
      (by decide) (by decide)⟩

theorem Mem.load_write_ge (m : Mem) (p : Ptr) (vs : List Int) (i j : Nat)
    (hij : j + vs.length ≤ i) (hv : m.valid (p.add j) vs.length) :
    (m.write (p.add j) vs).load (p.add i) = m.load (p.add i) := by
  unfold Mem.valid at hv
  simp only [Ptr.add] at hv
  have hb := Mem.write_block m (p.add j) vs
  simp only [Ptr.add] at hb
  simp only [Mem.load, Ptr.add]
  rw [hb, getElem?_splice_ge _ _ _ _ hv (by omega)]

theorem rowsWritten_frame (m : Mem) (dst : Ptr) (h w : Nat) (val : Nat → Nat → Int)
    (hdst : m.valid dst (h * w)) (hw : 2 ≤ w) (y x : Nat) (hx : x < w) (rows : Nat) :
    rows ≤ h → (w - 2 ≤ x ∨ rows ≤ y) →
      (rowsWritten dst w val m rows).load (dst.add (y * w + x)) = m.load (dst.add (y * w + x)) := by
  induction rows with
  | zero => intro _ _; rfl
  | succ r ih =>
    intro hr hc
    have h1 : (r + 1) * w ≤ h * w := Nat.mul_le_mul_right w hr
    have h2 : (r + 1) * w = r * w + w := Nat.succ_mul r w
    have hv : (rowsWritten dst w val m r).valid (dst.add (r * w))
        ((List.range (w - 2)).map (val r)).length := by
      rw [List.length_map, List.length_range]
      unfold Mem.valid at hdst ⊢
      simp only [Ptr.add]
      rw [rowsWritten_length dst h w val m hdst hw r (by omega) dst.block]
      omega
    have hlen : ((List.range (w - 2)).map (val r)).length = w - 2 := by
      rw [List.length_map, List.length_range]
    rw [rowsWritten]
    by_cases hyr : y < r
    · have h3 : (y + 1) * w ≤ r * w := Nat.mul_le_mul_right w hyr
      have h4 : (y + 1) * w = y * w + w := Nat.succ_mul y w
      rw [Mem.load_write_lt _ dst _ (y * w + x) (r * w) (by omega) hv]
      exact ih (by omega) (by omega)
    · have h3 : r * w ≤ y * w := Nat.mul_le_mul_right w (by omega)
      by_cases hyr2 : y = r
      · subst hyr2
        rw [Mem.load_write_ge _ dst _ (y * w + x) (y * w) (by rw [hlen]; omega) hv]
        exact ih (by omega) (by omega)
      · have h5 : (r + 1) * w ≤ y * w := Nat.mul_le_mul_right w (by omega)
        rw [Mem.load_write_ge _ dst _ (y * w + x) (r * w) (by rw [hlen]; omega) hv]
        exact ih (by omega) (by omega)

/-- C19: for every height >= 3, every width >= 10 (of an image that fits the address
space), every image and every 3x3 kernel, both convolutions return normally; the value of
`ConvolveAVX2` at `dst[y*width+x]` is the value of `ConvolveScalar` at
`dst[(y+1)*width+(x+1)]` for every `y` in `[0, height-2)` and `x` in `[0, width-2)`, and
`ConvolveAVX2` leaves every element of `dst` in the last two rows and the last two columns
as it was. -/
theorem ConvolveAVX2_is_scalar_shifted (m : Mem) (src dst kernel : Ptr) (h w : Nat)
    (hh : 3 ≤ h) (hw : 10 ≤ w) (hsz : h * w < 4611686018427387904)
    (hsrc : m.valid src (h * w)) (hdst : m.valid dst (h * w)) (hker : m.valid kernel 9)
    (hsd : src.block ≠ dst.block) (hkd : kernel.block ≠ dst.block) :
    ∃ mA mS, ConvolveAVX2 m src dst kernel h w 3 3 = .ok mA ∧
      ConvolveScalar m src dst kernel h w 3 3 = .ok mS ∧
      (∀ y x, y < h - 2 → x < w - 2 → ∃ v, mA.load (dst.add (y * w + x)) = .ok v ∧
        mS.load (dst.add ((y + 1) * w + (x + 1))) = .ok v) ∧
      (∀ y x, y < h → x < w → (h - 2 ≤ y ∨ w - 2 ≤ x) →
        mA.load (dst.add (y * w + x)) = m.load (dst.add (y * w + x))) := by
  refine ⟨_, _, ConvolveAVX2_eq m src dst kernel h w 3 hsrc hdst hker hsd hkd hsz hh hw,
    ConvolveScalar_3x3 m src dst kernel h w hsrc hdst hker hsd hkd hsz, ?_, ?_⟩
  · intro y x hy hx
    refine ⟨validPixel m src kernel w y x,
      rowsWritten_load m dst h w _ hdst (by omega) y x hx (h - 2) (by omega) hy, ?_⟩
    rw [ConvolveScalar_load m dst h w (y + 1) (x + 1) _ hdst (by omega) (by omega),
      paddedPixel_interior m src kernel h w y x (by omega) (by omega)]
  · intro y x _ hx hc
    exact rowsWritten_frame m dst h w _ hdst (by omega) y x hx (h - 2) (by omega)
      (by omega)

/-- C19, witness: a 4x11 image (one vector and one scalar-tail column per row) over a
destination filled with 7. -/
theorem ConvolveAVX2_is_scalar_shifted_witness :
    ((ConvolveAVX2 (mem3 (ramp 44) (List.replicate 44 7) [1, 2, 3, 4, 5, 6, 7, 8, 9])
        ⟨0, 0⟩ ⟨1, 0⟩ ⟨2, 0⟩ 4 11 3 3).toOption.map (fun m => m.read ⟨1, 0⟩ 44)
        = some [789, 834, 879, 924, 969, 1014, 1059, 1104, 1149, 7, 7,
            1284, 1329, 1374, 1419, 1464, 1509, 1554, 1599, 1644, 7, 7,
            7, 7, 7, 7, 7, 7, 7, 7, 7, 7, 7, 7, 7, 7, 7, 7, 7, 7, 7, 7, 7, 7]) ∧
    ((ConvolveScalar (mem3 (ramp 44) (List.replicate 44 7) [1, 2, 3, 4, 5, 6, 7, 8, 9])
        ⟨0, 0⟩ ⟨1, 0⟩ ⟨2, 0⟩ 4 11 3 3).toOption.map
          (fun m => (m.read ⟨1, 12⟩ 9, m.read ⟨1, 23⟩ 9))
        = some ([789, 834, 879, 924, 969, 1014, 1059, 1104, 1149],
            [1284, 1329, 1374, 1419, 1464, 1509, 1554, 1599, 1644])) ∧
    ∃ mA mS, ConvolveAVX2 (mem3 (ramp 44) (List.replicate 44 7) [1, 2, 3, 4, 5, 6, 7, 8, 9])
        ⟨0, 0⟩ ⟨1, 0⟩ ⟨2, 0⟩ 4 11 3 3 = .ok mA ∧
      ConvolveScalar (mem3 (ramp 44) (List.replicate 44 7) [1, 2, 3, 4, 5, 6, 7, 8, 9])
        ⟨0, 0⟩ ⟨1, 0⟩ ⟨2, 0⟩ 4 11 3 3 = .ok mS ∧
      (∀ y x, y < 4 - 2 → x < 11 - 2 → ∃ v, mA.load (Ptr.add ⟨1, 0⟩ (y * 11 + x)) = .ok v ∧
        mS.load (Ptr.add ⟨1, 0⟩ ((y + 1) * 11 + (x + 1))) = .ok v) ∧
      (∀ y x, y < 4 → x < 11 → (4 - 2 ≤ y ∨ 11 - 2 ≤ x) →
        mA.load (Ptr.add ⟨1, 0⟩ (y * 11 + x))
          = (mem3 (ramp 44) (List.replicate 44 7) [1, 2, 3, 4, 5, 6, 7, 8, 9]).load
              (Ptr.add ⟨1, 0⟩ (y * 11 + x))) :=
  ⟨by decide, by decide,
    ConvolveAVX2_is_scalar_shifted
      (mem3 (ramp 44) (List.replicate 44 7) [1, 2, 3, 4, 5, 6, 7, 8, 9])
      ⟨0, 0⟩ ⟨1, 0⟩ ⟨2, 0⟩ 4 11 (by decide) (by decide) (by decide) (by decide) (by decide)
      (by decide) (by decide) (by decide)⟩

/-- C14, failing inputs: on images of 3x3, 3x9, 4x5 and 10x9 elements (height >= 3,
width in 3..9) held in buffers of exactly `height * width` elements, `ConvolveAVX2` does not
complete: the bound `width - 2 - 8` of the vector loop wraps around, the vector body runs,
and one of its eight-lane loads leaves the source image. -/
theorem ConvolveAVX2_narrow_image_faults :
    ConvolveAVX2 (mem3 (ramp 9) (List.replicate 9 0) [1, 2, 3, 4, 5, 6, 7, 8, 9])
        ⟨0, 0⟩ ⟨1, 0⟩ ⟨2, 0⟩ 3 3 3 3 = .error .OutOfBounds ∧
      ConvolveAVX2 (mem3 (ramp 27) (List.replicate 27 0) [1, 2, 3, 4, 5, 6, 7, 8, 9])
        ⟨0, 0⟩ ⟨1, 0⟩ ⟨2, 0⟩ 3 9 3 3 = .error .OutOfBounds ∧
      ConvolveAVX2 (mem3 (ramp 20) (List.replicate 20 0) [1, 2, 3, 4, 5, 6, 7, 8, 9])
        ⟨0, 0⟩ ⟨1, 0⟩ ⟨2, 0⟩ 4 5 3 3 = .error .OutOfBounds ∧
      ConvolveAVX2 (mem3 (ramp 90) (List.replicate 90 0) [1, 2, 3, 4, 5, 6, 7, 8, 9])
        ⟨0, 0⟩ ⟨1, 0⟩ ⟨2, 0⟩ 10 9 3 3 = .error .OutOfBounds ∧
      sz (((3 : Nat) : Int) - 2 - ((8 : Nat) : Int)) = 18446744073709551609 :=
  ⟨rfl, rfl, rfl, rfl, by decide⟩

/-- C11, counterexample: called with `kernel_height = 5` (and `kernel_width = 3`), and
called with `kernel_height = kernel_width = 5` on a kernel of 25 entries, `ConvolveAVX2`
reports nothing: it returns normally and has written to `dst`. -/
theorem ConvolveAVX2_accepts_other_kernel_shapes :
    (ConvolveAVX2 (mem3 (ramp 30) (List.replicate 30 0) [1, 2, 3, 4, 5, 6, 7, 8, 9])
        ⟨0, 0⟩ ⟨1, 0⟩ ⟨2, 0⟩ 3 10 5 3).toOption.map (fun m => m.read ⟨1, 0⟩ 10)
        = some [726, 771, 816, 861, 906, 951, 996, 1041, 0, 0] ∧
      (ConvolveAVX2 (mem3 (ramp 33) (List.replicate 33 0) (ramp 25))
        ⟨0, 0⟩ ⟨1, 0⟩ ⟨2, 0⟩ 3 11 5 5).toOption.map (fun m => m.read ⟨1, 0⟩ 11)
        = some [789, 834, 879, 924, 969, 1014, 1059, 1104, 1659, 0, 0] :=
  ⟨by decide, by decide⟩

/-- C11, amended: `ConvolveAVX2` does not check the kernel shape. Called with
`kernel_width = 3` and any `kernel_height` on an image of height >= 3 and width >= 10 (that
fits the address space), it returns normally, with the result of the call with
`kernel_height = 3`: `dst[y*width+x]` holds the 3x3 stencil of the first nine kernel entries
for every `y` in `[0, height-2)` and `x` in `[0, width-2)`. -/
theorem ConvolveAVX2_ignores_kernel_height (m : Mem) (src dst kernel : Ptr)
    (h w kernel_height : Nat)
    (hh : 3 ≤ h) (hw : 10 ≤ w) (hsz : h * w < 4611686018427387904)
    (hsrc : m.valid src (h * w)) (hdst : m.valid dst (h * w)) (hker : m.valid kernel 9)
    (hsd : src.block ≠ dst.block) (hkd : kernel.block ≠ dst.block) :
    ∃ mA, ConvolveAVX2 m src dst kernel h w kernel_height 3 = .ok mA ∧
      ConvolveAVX2 m src dst kernel h w 3 3 = .ok mA ∧
      ∀ y x, y < h - 2 → x < w - 2 →
        mA.load (dst.add (y * w + x)) = .ok (validPixel m src kernel w y x) :=
  ⟨_, ConvolveAVX2_eq m src dst kernel h w kernel_height hsrc hdst hker hsd hkd hsz hh hw,
    ConvolveAVX2_eq m src dst kernel h w 3 hsrc hdst hker hsd hkd hsz hh hw,
    fun y x hy hx =>
      rowsWritten_load m dst h w _ hdst (by omega) y x hx (h - 2) (by omega) hy⟩

/-- C11, witness of the amended statement: `kernel_height = 5` on a 3x10 image. -/
theorem ConvolveAVX2_ignores_kernel_height_witness :
    ∃ mA, ConvolveAVX2 (mem3 (ramp 30) (List.replicate 30 0) [1, 2, 3, 4, 5, 6, 7, 8, 9])
        ⟨0, 0⟩ ⟨1, 0⟩ ⟨2, 0⟩ 3 10 5 3 = .ok mA ∧
      ConvolveAVX2 (mem3 (ramp 30) (List.replicate 30 0) [1, 2, 3, 4, 5, 6, 7, 8, 9])
        ⟨0, 0⟩ ⟨1, 0⟩ ⟨2, 0⟩ 3 10 3 3 = .ok mA ∧
      ∀ y x, y < 3 - 2 → x < 10 - 2 →
        mA.load (Ptr.add ⟨1, 0⟩ (y * 10 + x))
          = .ok (validPixel (mem3 (ramp 30) (List.replicate 30 0) [1, 2, 3, 4, 5, 6, 7, 8, 9])
              ⟨0, 0⟩ ⟨2, 0⟩ 10 y x) :=
  ConvolveAVX2_ignores_kernel_height
    (mem3 (ramp 30) (List.replicate 30 0) [1, 2, 3, 4, 5, 6, 7, 8, 9])
    ⟨0, 0⟩ ⟨1, 0⟩ ⟨2, 0⟩ 3 10 5 (by decide) (by decide) (by decide) (by decide) (by decide)
    (by decide) (by decide) (by decide)

/-! ## Loops whose body may fault: exact results -/

theorem forCount_exact {σ : Type} (R : Nat → Except Fault σ) (body : Nat → σ → Except Fault σ) :
    ∀ (count lo : Nat) (s : σ), R lo = .ok s →
      (∀ i t, lo ≤ i → i < lo + count → R i = .ok t → body i t = R (i + 1)) →
      (∃ s1, forCount body count lo s = .ok s1 ∧ R (lo + count) = .ok s1) ∨
        (∃ j e, forCount body count lo s = .error e ∧ R j = .error e ∧ j ≤ lo + count) := by
  intro count
  induction count with
  | zero =>
    intro lo s h _
    exact Or.inl ⟨s, rfl, h⟩
  | succ k ih =>
    intro lo s h hb
    have hstep := hb lo s (Nat.le_refl lo) (by omega) h
    cases hR : R (lo + 1) with
    | error e =>
      refine Or.inr ⟨lo + 1, e, ?_, hR, by omega⟩
      simp only [forCount, hstep, hR, bind, Except.bind]
    | ok t1 =>
      rcases ih (lo + 1) t1 hR (fun i t h1 h2 h3 => hb i t (by omega) (by omega) h3) with
        ⟨s1, h1, h2⟩ | ⟨j, e, h1, h2, h3⟩
      · refine Or.inl ⟨s1, ?_, ?_⟩
        · simp only [forCount, hstep, hR, bind, Except.bind]
          exact h1
        · rw [show lo + (k + 1) = lo + 1 + k by omega]
          exact h2
      · refine Or.inr ⟨j, e, ?_, h2, by omega⟩
        simp only [forCount, hstep, hR, bind, Except.bind]
        exact h1

theorem forRange_exact {σ : Type} (R : Nat → Except Fault σ) (body : Nat → σ → Except Fault σ)
    (lo hi : Nat) (s : σ) (hle : lo ≤ hi) (h0 : R lo = .ok s)
    (hb : ∀ i t, lo ≤ i → i < hi → R i = .ok t → body i t = R (i + 1)) :
    (∃ s1, forRange lo hi body s = .ok s1 ∧ R hi = .ok s1) ∨
      (∃ j e, forRange lo hi body s = .error e ∧ R j = .error e ∧ j ≤ hi) := by
  rcases forCount_exact R body (hi - lo) lo s h0 (fun i t h1 h2 h3 => hb i t h1 (by omega) h3)
    with ⟨s1, h1, h2⟩ | ⟨j, e, h1, h2, h3⟩
  · refine Or.inl ⟨s1, h1, ?_⟩
    rw [show hi = lo + (hi - lo) by omega]
    exact h2
  · exact Or.inr ⟨j, e, h1, h2, by omega⟩

theorem forStep_exact {σ : Type} (R : Nat → Except Fault σ) (step n : Nat)
    (body : Nat → σ → Except Fault σ)
    (hb : ∀ i t, i + step ≤ n → R i = .ok t → body i t = R (i + step)) :
    ∀ (fuel i : Nat) (s : σ), n < i + (fuel + 1) * step → i ≤ n → R i = .ok s →
      (∃ i1 s1, forStep step n body fuel i s = .ok (i1, s1) ∧ R i1 = .ok s1 ∧ i1 ≤ n) ∨
        (∃ j e, forStep step n body fuel i s = .error e ∧ R j = .error e ∧ j ≤ n) := by
  intro fuel
  induction fuel with
  | zero =>
    intro i s hf hin h
    refine Or.inl ⟨i, s, ?_, h, hin⟩
    simp only [forStep]
    rw [if_neg (by omega)]
  | succ k ih =>
    intro i s hf hin h
    by_cases hg : i + step ≤ n
    · have hstep := hb i s hg h
      have hf2 : n < i + step + (k + 1) * step := by
        have : (k + 1 + 1) * step = (k + 1) * step + step := by ring
        omega
      cases hR : R (i + step) with
      | error e =>
        refine Or.inr ⟨i + step, e, ?_, hR, hg⟩
        simp only [forStep]
        rw [if_pos hg]
        simp only [hstep, hR, bind, Except.bind]
      | ok t1 =>
        rcases ih (i + step) t1 hf2 hg hR with ⟨i1, s1, h1, h2, h3⟩ | ⟨j, e, h1, h2, h3⟩
        · refine Or.inl ⟨i1, s1, ?_, h2, h3⟩
          simp only [forStep]
          rw [if_pos hg]
          simp only [hstep, hR, bind, Except.bind]
          exact h1
        · refine Or.inr ⟨j, e, ?_, h2, h3⟩
          simp only [forStep]
          rw [if_pos hg]
          simp only [hstep, hR, bind, Except.bind]
          exact h1
    · refine Or.inl ⟨i, s, ?_, h, hin⟩
      simp only [forStep]
      rw [if_neg hg]

/-! ## Lane-wise division -/

theorem div_epi32_nil_left (b : List Int) : div_epi32 [] b = .ok [] := by
  cases b <;> rfl

theorem div_epi32_nil_right (a : List Int) : div_epi32 a [] = .ok [] := by
  cases a <;> rfl

theorem div_epi32_cons (x y : Int) (a b : List Int) :
    div_epi32 (x :: a) (y :: b)
      = (SimdDiv.ProcessScalar x y).bind (fun q => (div_epi32 a b).map (fun r => q :: r)) := by
  rw [div_epi32]
  cases SimdDiv.ProcessScalar x y with
  | error e => rfl
  | ok q =>
    cases div_epi32 a b with
    | error e => rfl
    | ok r => rfl

theorem div_epi32_length : ∀ (a b r : List Int), div_epi32 a b = .ok r →
    r.length = min a.length b.length
  | [], b, r, h => by
    rw [div_epi32_nil_left] at h
    cases h
    simp
  | x :: a, [], r, h => by
    rw [div_epi32_nil_right] at h
    cases h
    simp
  | x :: a, y :: b, r, h => by
    rw [div_epi32_cons] at h
    cases hq : SimdDiv.ProcessScalar x y with
    | error e => rw [hq] at h; cases h
    | ok q =>
      cases hr : div_epi32 a b with
      | error e => rw [hq, hr] at h; cases h
      | ok r1 =>
        rw [hq, hr] at h
        cases h
        simp only [List.length_cons, div_epi32_length a b r1 hr]
        omega

theorem div_epi32_append : ∀ (a b a1 b1 : List Int), a.length = b.length →
    div_epi32 (a ++ a1) (b ++ b1)
      = (div_epi32 a b).bind (fun r => (div_epi32 a1 b1).map (fun r1 => r ++ r1))
  | [], [], a1, b1, _ => by
    rw [div_epi32_nil_left, List.nil_append, List.nil_append]
    cases div_epi32 a1 b1 with
    | error e => rfl
    | ok r => rfl
  | [], _ :: _, _, _, h => by simp at h
  | _ :: _, [], _, _, h => by simp at h
  | x :: a, y :: b, a1, b1, h => by
    have ih := div_epi32_append a b a1 b1 (by simpa using h)
    rw [List.cons_append, List.cons_append, div_epi32_cons, div_epi32_cons, ih]
    cases SimdDiv.ProcessScalar x y with
    | error e => rfl
    | ok q =>
      cases div_epi32 a b with
      | error e => rfl
      | ok r =>
        cases div_epi32 a1 b1 with
        | error e => rfl
        | ok r1 => rfl

theorem div_scalar_cases (x y : Int) :
    (y ≠ 0 ∧ ¬ (x = -2147483648 ∧ y = -1) ∧ SimdDiv.ProcessScalar x y = .ok (Int.tdiv x y)) ∨
      ((y = 0 ∨ (x = -2147483648 ∧ y = -1)) ∧
        ∃ e, SimdDiv.ProcessScalar x y = .error e ∧ (e = .DivideByZero ∨ e = .Overflow)) := by
  unfold SimdDiv.ProcessScalar INT32_MIN
  by_cases h0 : y = 0
  · exact Or.inr ⟨Or.inl h0, .DivideByZero, by rw [if_pos h0], Or.inl rfl⟩
  · by_cases h1 : x = -2147483648 ∧ y = -1
    · exact Or.inr ⟨Or.inr h1, .Overflow, by rw [if_neg h0, if_pos h1], Or.inr rfl⟩
    · exact Or.inl ⟨h0, h1, by rw [if_neg h0, if_neg h1]⟩

theorem div_epi32_spec : ∀ (a b : List Int),
    (div_epi32 a b = .ok (List.zipWith Int.tdiv a b) ∧
        ∀ (j : Nat) (x y : Int), a[j]? = some x → b[j]? = some y →
          y ≠ 0 ∧ ¬ (x = -2147483648 ∧ y = -1)) ∨
      ((∃ e, div_epi32 a b = .error e ∧ (e = .DivideByZero ∨ e = .Overflow)) ∧
        ∃ (j : Nat) (x y : Int), a[j]? = some x ∧ b[j]? = some y ∧
          (y = 0 ∨ (x = -2147483648 ∧ y = -1)))
  | [], b => by
    refine Or.inl ⟨by rw [div_epi32_nil_left]; rfl, ?_⟩
    intro j x y hx _
    simp at hx
  | x :: a, [] => by
    refine Or.inl ⟨by rw [div_epi32_nil_right]; simp, ?_⟩
    intro j x y _ hy
    simp at hy
  | x :: a, y :: b => by
    rw [div_epi32_cons]
    rcases div_scalar_cases x y with ⟨h0, h1, hq⟩ | ⟨hu, e, hq, he⟩
    · rcases div_epi32_spec a b with ⟨hr, hs⟩ | ⟨⟨e, hr, he⟩, j, u, v, hu, hv, huv⟩
      · refine Or.inl ⟨by rw [hq, hr]; rfl, ?_⟩
        intro j u v hu hv
        cases j with
        | zero =>
          simp only [List.getElem?_cons_zero, Option.some.injEq] at hu hv
          subst hu hv
          exact ⟨h0, h1⟩
        | succ j =>
          simp only [List.getElem?_cons_succ] at hu hv
          exact hs j u v hu hv
      · exact Or.inr ⟨⟨e, by rw [hq, hr]; rfl, he⟩, j + 1, u, v,
          by simpa using hu, by simpa using hv, huv⟩
    · exact Or.inr ⟨⟨e, by rw [hq]; rfl, he⟩, 0, x, y, List.getElem?_cons_zero,
        List.getElem?_cons_zero, hu⟩

/-! ## `Zip` with `Div` -/

theorem SimdDiv_Process (isa : ISA) (a b : List Int) :
    (SimdDiv isa).Process a b = div_epi32 a b := by
  cases isa <;> rfl

theorem SimdDiv_ProcessScalar (isa : ISA) (x y : Int) :
    (SimdDiv isa).ProcessScalar x y = SimdDiv.ProcessScalar x y := by
  cases isa <;> rfl

theorem div_prefix_error (m : Mem) (src1 src2 : Ptr) (n j : Nat) (e : Fault)
    (hsrc1 : m.valid src1 n) (hsrc2 : m.valid src2 n) (hj : j ≤ n)
    (h : div_epi32 (m.read src1 j) (m.read src2 j) = .error e) :
    div_epi32 (m.read src1 n) (m.read src2 n) = .error e := by
  have l1 := Mem.length_read m src1 j (Mem.valid_mono m src1 j n hj hsrc1)
  have l2 := Mem.length_read m src2 j (Mem.valid_mono m src2 j n hj hsrc2)
  rw [show n = j + (n - j) by omega, Mem.read_add, Mem.read_add,
    div_epi32_append _ _ _ _ (by rw [l1, l2]), h]
  rfl

theorem Div_vectorStep_eq (isa : ISA) (m : Mem) (src1 src2 dst : Ptr) (n i : Nat)
    (r : List Int)
    (hsrc1 : m.valid src1 n) (hsrc2 : m.valid src2 n) (hdst : m.valid dst n)
    (hal1 : src1.block ≠ dst.block ∨ src1 = dst) (hal2 : src2.block ≠ dst.block ∨ src2 = dst)
    (hi : i + isa.kLanes ≤ n) (hr : div_epi32 (m.read src1 i) (m.read src2 i) = .ok r) :
    Zip.vectorStep isa SimdDiv src1 src2 dst i (m.write dst r)
      = (div_epi32 (m.read src1 (i + isa.kLanes)) (m.read src2 (i + isa.kLanes))).map
          (m.write dst) := by
  have hl1 := Mem.length_read m src1 i (Mem.valid_mono m src1 i n (by omega) hsrc1)
  have hl2 := Mem.length_read m src2 i (Mem.valid_mono m src2 i n (by omega) hsrc2)
  have hk1 := Mem.length_read m _ _ (Mem.valid_add m src1 i _ n hi hsrc1)
  have hk2 := Mem.length_read m _ _ (Mem.valid_add m src2 i _ n hi hsrc2)
  have hl : r.length = i := by
    rw [div_epi32_length _ _ r hr, hl1, hl2, Nat.min_self]
  have hv1 := step_valid m dst src1 r i isa.kLanes n (by omega) hdst hsrc1 hi
  have hv2 := step_valid m dst src2 r i isa.kLanes n (by omega) hdst hsrc2 hi
  have hv3 := step_valid m dst dst r i isa.kLanes n (by omega) hdst hdst hi
  have hr1 := step_read m src1 dst r i isa.kLanes n hl (by omega) hdst hal1
  have hr2 := step_read m src2 dst r i isa.kLanes n hl (by omega) hdst hal2
  unfold Zip.vectorStep
  rw [ISA.Load_eq isa _ _ hv1, ISA.Load_eq isa _ _ hv2, hr1, hr2, Mem.read_add, Mem.read_add,
    div_epi32_append _ _ _ _ (by rw [hl1, hl2]), hr]
  simp only [bind, Except.bind]
  rw [SimdDiv_Process]
  cases hq : div_epi32 (m.read (src1.add i) isa.kLanes) (m.read (src2.add i) isa.kLanes) with
  | error e => rfl
  | ok v3 =>
    have hv3l : v3.length = isa.kLanes := by
      rw [div_epi32_length _ _ v3 hq, hk1, hk2, Nat.min_self]
    simp only [Except.map]
    rw [ISA.Store_eq isa _ _ _ hv3l hv3, step_write m dst r v3 i n hl (by omega) hdst]

theorem Div_scalarStep_eq (isa : ISA) (m : Mem) (src1 src2 dst : Ptr) (n i : Nat)
    (r : List Int)
    (hsrc1 : m.valid src1 n) (hsrc2 : m.valid src2 n) (hdst : m.valid dst n)
    (hal1 : src1.block ≠ dst.block ∨ src1 = dst) (hal2 : src2.block ≠ dst.block ∨ src2 = dst)
    (hi : i + 1 ≤ n) (hr : div_epi32 (m.read src1 i) (m.read src2 i) = .ok r) :
    Zip.scalarStep isa SimdDiv src1 src2 dst i (m.write dst r)
      = (div_epi32 (m.read src1 (i + 1)) (m.read src2 (i + 1))).map (m.write dst) := by
  have hl1 := Mem.length_read m src1 i (Mem.valid_mono m src1 i n (by omega) hsrc1)
  have hl2 := Mem.length_read m src2 i (Mem.valid_mono m src2 i n (by omega) hsrc2)
  have hl : r.length = i := by
    rw [div_epi32_length _ _ r hr, hl1, hl2, Nat.min_self]
  have hv1 := step_valid m dst src1 r i 1 n (by omega) hdst hsrc1 hi
  have hv2 := step_valid m dst src2 r i 1 n (by omega) hdst hsrc2 hi
  have hv3 := step_valid m dst dst r i 1 n (by omega) hdst hdst hi
  have hr1 := step_read m src1 dst r i 1 n hl (by omega) hdst hal1
  have hr2 := step_read m src2 dst r i 1 n hl (by omega) hdst hal2
  obtain ⟨x, hx, hx1⟩ := Mem.load_eq _ _ hv1
  obtain ⟨y, hy, hy1⟩ := Mem.load_eq _ _ hv2
  unfold Zip.scalarStep
  rw [hx, hy, Mem.read_add, Mem.read_add, div_epi32_append _ _ _ _ (by rw [hl1, hl2]), hr,
    ← hr1, ← hr2, hx1, hy1, div_epi32_cons]
  simp only [bind, Except.bind]
  rw [SimdDiv_ProcessScalar, div_epi32_nil_left]
  cases hq : SimdDiv.ProcessScalar x y with
  | error e => rfl
  | ok q =>
    simp only [Except.map]
    rw [Mem.store_eq _ _ _ hv3, step_write m dst r [q] i n hl (by omega) hdst]

theorem Div_eq (isa : ISA) (m : Mem) (src1 src2 dst : Ptr) (n : Nat)
    (hsrc1 : m.valid src1 n) (hsrc2 : m.valid src2 n) (hdst : m.valid dst n)
    (hal1 : src1.block ≠ dst.block ∨ src1 = dst) (hal2 : src2.block ≠ dst.block ∨ src2 = dst) :
    Div isa m src1 src2 dst n
      = (div_epi32 (m.read src1 n) (m.read src2 n)).map (m.write dst) := by
  have hpos := ISA.kLanes_pos isa
  have hR : ∀ i t, (div_epi32 (m.read src1 i) (m.read src2 i)).map (m.write dst) = .ok t →
      ∃ r, div_epi32 (m.read src1 i) (m.read src2 i) = .ok r ∧ t = m.write dst r := by
    intro i t h
    cases hq : div_epi32 (m.read src1 i) (m.read src2 i) with
    | error e => rw [hq] at h; cases h
    | ok r =>
      rw [hq] at h
      exact ⟨r, rfl, (Except.ok.inj h).symm⟩
  have hE : ∀ j e, j ≤ n →
      (div_epi32 (m.read src1 j) (m.read src2 j)).map (m.write dst) = .error e →
      (div_epi32 (m.read src1 n) (m.read src2 n)).map (m.write dst) = .error e := by
    intro j e hj h
    cases hq : div_epi32 (m.read src1 j) (m.read src2 j) with
    | ok r => rw [hq] at h; cases h
    | error e1 =>
      rw [hq] at h
      rw [div_prefix_error m src1 src2 n j e1 hsrc1 hsrc2 hj hq]
      exact h
  have h0 : (div_epi32 (m.read src1 0) (m.read src2 0)).map (m.write dst) = .ok m := by
    have : div_epi32 (m.read src1 0) (m.read src2 0) = .ok [] := by
      simp only [Mem.read, List.take_zero]
      exact div_epi32_nil_left []
    rw [this]
    simp only [Except.map, Mem.write_nil]
  unfold Div Zip
  rcases forStep_exact
      (fun i => (div_epi32 (m.read src1 i) (m.read src2 i)).map (m.write dst)) isa.kLanes n
      (Zip.vectorStep isa SimdDiv src1 src2 dst)
      (fun i t hi ht => by
        obtain ⟨r, hr, hrt⟩ := hR i t ht
        rw [hrt]
        exact Div_vectorStep_eq isa m src1 src2 dst n i r hsrc1 hsrc2 hdst hal1 hal2 hi hr)
      n 0 m (by nlinarith) (Nat.zero_le n) h0 with
    ⟨i1, s1, h1, h2, h3⟩ | ⟨j, e, h1, h2, h3⟩
  · simp only [h1, bind, Except.bind]
    rcases forRange_exact
        (fun i => (div_epi32 (m.read src1 i) (m.read src2 i)).map (m.write dst))
        (Zip.scalarStep isa SimdDiv src1 src2 dst) i1 n s1 h3 h2
        (fun i t _ hi ht => by
          obtain ⟨r, hr, hrt⟩ := hR i t ht
          rw [hrt]
          exact Div_scalarStep_eq isa m src1 src2 dst n i r hsrc1 hsrc2 hdst hal1 hal2 hi hr)
      with ⟨s2, h4, h5⟩ | ⟨j, e, h4, h5, h6⟩
    · rw [h4]
      exact h5.symm
    · rw [h4]
      exact (hE j e h6 h5).symm
  · simp only [h1, bind, Except.bind]
    exact (hE j e h3 h2).symm

/-- C12, counterexample: with `src1 = [-2147483648]` and `src2 = [-1]` (one element, handled
by the scalar loop) `Zip` with `Div` does not return normally although no divisor is zero. -/
theorem Div_faults_without_zero_divisor :
    Div .SSE2 (mem3 [-2147483648] [-1] [0]) ⟨0, 0⟩ ⟨1, 0⟩ ⟨2, 0⟩ 1 = .error .Overflow ∧
      (mem3 [-2147483648] [-1] [0]).read ⟨1, 0⟩ 1 = [-1] ∧
      ¬ ∃ i, i < 1 ∧ (mem3 [-2147483648] [-1] [0]).get ⟨1, 0⟩ i = 0 :=
  ⟨rfl, by decide, by decide⟩

/-- C12, amended: for either backend and every length `n`, `Zip` with `Div` fails if and only
if, for some `i` in `[0, n)`, `src2[i] == 0` or `src1[i] == -2147483648` and `src2[i] == -1`;
when it returns normally, every divisor is non-zero and `dst[i]` is the truncated quotient
`src1[i] / src2[i]` for every `i` in `[0, n)`. -/
theorem Div_faults_iff (isa : ISA) (m : Mem) (src1 src2 dst : Ptr) (n : Nat)
    (hsrc1 : m.valid src1 n) (hsrc2 : m.valid src2 n) (hdst : m.valid dst n)
    (hne1 : src1.block ≠ dst.block) (hne2 : src2.block ≠ dst.block) :
    ((∃ e, Div isa m src1 src2 dst n = .error e) ↔
        ∃ i, i < n ∧ (m.get src2 i = 0 ∨ (m.get src1 i = -2147483648 ∧ m.get src2 i = -1))) ∧
      (∀ m1, Div isa m src1 src2 dst n = .ok m1 → ∀ i, i < n → m.get src2 i ≠ 0 ∧
        m1.load (dst.add i) = .ok (Int.tdiv (m.get src1 i) (m.get src2 i))) := by
  have l1 := Mem.length_read m src1 n hsrc1
  have l2 := Mem.length_read m src2 n hsrc2
  have g1 := fun i (hi : i < n) => Mem.read_getElem? m src1 n i hsrc1 hi
  have g2 := fun i (hi : i < n) => Mem.read_getElem? m src2 n i hsrc2 hi
  rw [Div_eq isa m src1 src2 dst n hsrc1 hsrc2 hdst (Or.inl hne1) (Or.inl hne2)]
  rcases div_epi32_spec (m.read src1 n) (m.read src2 n) with
    ⟨hr, hs⟩ | ⟨⟨e, hr, _⟩, j, x, y, hx, hy, hu⟩
  · rw [hr]
    refine ⟨?_, ?_⟩
    · constructor
      · intro he
        obtain ⟨e, he⟩ := he
        cases he
      · intro hi
        obtain ⟨i, hi, hu⟩ := hi
        have := hs i _ _ (g1 i hi) (g2 i hi)
        rcases hu with h0 | h1
        · exact absurd h0 this.1
        · exact absurd h1 this.2
    · intro m1 hm1 i hi
      have hm : m1 = m.write dst (List.zipWith Int.tdiv (m.read src1 n) (m.read src2 n)) :=
        (Except.ok.inj hm1).symm
      refine ⟨(hs i _ _ (g1 i hi) (g2 i hi)).1, ?_⟩
      rw [hm]
      apply Mem.load_write
      · rw [List.length_zipWith, l1, l2, Nat.min_self]
        exact hdst
      · exact List.getElem?_zipWith_eq_some.mpr ⟨_, _, g1 i hi, g2 i hi, rfl⟩
  · rw [hr]
    have hj : j < n := by
      rw [← l1]
      exact (List.getElem?_eq_some.mp hx).1
    have ex := Mem.get_eq_of_read m src1 n j x hx
    have ey := Mem.get_eq_of_read m src2 n j y hy
    refine ⟨⟨fun _ => ⟨j, hj, by rw [ex, ey]; exact hu⟩, fun _ => ⟨e, rfl⟩⟩, ?_⟩
    intro m1 hm1
    cases hm1

/-- C12, witness of the amended statement: five pairs on the 4-lane backend, with a zero
divisor in the element left to the scalar loop. -/
theorem Div_faults_iff_witness :
    ((Div .SSE2 (mem3 [7, -7, 1, -2147483648, 3] [2, 2, 1, 1, 5] [0, 0, 0, 0, 0])
        ⟨0, 0⟩ ⟨1, 0⟩ ⟨2, 0⟩ 5).toOption.map (fun m => m.read ⟨2, 0⟩ 5)
        = some [3, -3, 1, -2147483648, 0]) ∧
    (Div .SSE2 (mem3 [7, -7, 1, 2, 3] [2, 2, 1, 1, 0] [0, 0, 0, 0, 0])
        ⟨0, 0⟩ ⟨1, 0⟩ ⟨2, 0⟩ 5 = .error .DivideByZero) ∧
    ((∃ e, Div .SSE2 (mem3 [7, -7, 1, 2, 3] [2, 2, 1, 1, 0] [0, 0, 0, 0, 0])
          ⟨0, 0⟩ ⟨1, 0⟩ ⟨2, 0⟩ 5 = .error e) ↔
        ∃ i, i < 5 ∧ ((mem3 [7, -7, 1, 2, 3] [2, 2, 1, 1, 0] [0, 0, 0, 0, 0]).get ⟨1, 0⟩ i = 0 ∨
          ((mem3 [7, -7, 1, 2, 3] [2, 2, 1, 1, 0] [0, 0, 0, 0, 0]).get ⟨0, 0⟩ i = -2147483648 ∧
            (mem3 [7, -7, 1, 2, 3] [2, 2, 1, 1, 0] [0, 0, 0, 0, 0]).get ⟨1, 0⟩ i = -1))) ∧
      (∀ m1, Div .SSE2 (mem3 [7, -7, 1, 2, 3] [2, 2, 1, 1, 0] [0, 0, 0, 0, 0])
          ⟨0, 0⟩ ⟨1, 0⟩ ⟨2, 0⟩ 5 = .ok m1 → ∀ i, i < 5 →
        (mem3 [7, -7, 1, 2, 3] [2, 2, 1, 1, 0] [0, 0, 0, 0, 0]).get ⟨1, 0⟩ i ≠ 0 ∧
        m1.load (Ptr.add ⟨2, 0⟩ i)
          = .ok (Int.tdiv ((mem3 [7, -7, 1, 2, 3] [2, 2, 1, 1, 0] [0, 0, 0, 0, 0]).get ⟨0, 0⟩ i)
              ((mem3 [7, -7, 1, 2, 3] [2, 2, 1, 1, 0] [0, 0, 0, 0, 0]).get ⟨1, 0⟩ i))) :=
  ⟨by decide, rfl,
    Div_faults_iff .SSE2 (mem3 [7, -7, 1, 2, 3] [2, 2, 1, 1, 0] [0, 0, 0, 0, 0])
      ⟨0, 0⟩ ⟨1, 0⟩ ⟨2, 0⟩ 5 (by decide) (by decide) (by decide) (by decide) (by decide)⟩

theorem valid_of_exact (m : Mem) (p : Ptr) (n : Nat) (h : (m p.block).length = p.off + n) :
    m.valid p n := by
  unfold Mem.valid
  omega

/-- C13: for either backend, every `n` and buffers that hold exactly `n` elements (the
block ends where the buffer ends), no bounds check of `Map`, `Zip` or `Reduce` fails:
`Square`, `Add`, `Sub`, `Mul` and the three reductions return normally, and `Div`, which may
fault on a divisor, never faults with `OutOfBounds`. -/
theorem harness_in_bounds (isa : ISA) (k : Nat) (hk : 1 ≤ k) (m : Mem)
    (src src1 src2 dst : Ptr) (n : Nat)
    (hsrc : (m src.block).length = src.off + n) (hsrc1 : (m src1.block).length = src1.off + n)
    (hsrc2 : (m src2.block).length = src2.off + n) (hdst : (m dst.block).length = dst.off + n)
    (hne : src.block ≠ dst.block) (hne1 : src1.block ≠ dst.block)
    (hne2 : src2.block ≠ dst.block) (hD : ∀ x ∈ m.read src n, isInt32 x) :
    (∃ m1, Square isa m src dst n = .ok m1) ∧
      (∃ m1, Add isa m src1 src2 dst n = .ok m1) ∧
      (∃ m1, Sub isa m src1 src2 dst n = .ok m1) ∧
      (∃ m1, Mul isa m src1 src2 dst n = .ok m1) ∧
      Div isa m src1 src2 dst n ≠ .error .OutOfBounds ∧
      (∃ r, Reduce isa SimdSum k m src n = .ok r) ∧
      (∃ r, Reduce isa SimdMin k m src n = .ok r) ∧
      (∃ r, Reduce isa SimdMax k m src n = .ok r) := by
  have vs := valid_of_exact m src n hsrc
  have v1 := valid_of_exact m src1 n hsrc1
  have v2 := valid_of_exact m src2 n hsrc2
  have vd := valid_of_exact m dst n hdst
  refine ⟨⟨_, Map_eq isa SimdSquare _ (SimdSquare_Process isa) (SimdSquare_ProcessScalar isa)
      m src dst n vs vd (Or.inl hne)⟩,
    ⟨_, Add_eq isa m src1 src2 dst n v1 v2 vd (Or.inl hne1) (Or.inl hne2)⟩,
    ⟨_, Sub_eq isa m src1 src2 dst n v1 v2 vd (Or.inl hne1) (Or.inl hne2)⟩,
    ⟨_, Mul_eq isa m src1 src2 dst n v1 v2 vd (Or.inl hne1) (Or.inl hne2)⟩, ?_,
    ⟨_, Reduce_eq (SimdSum_spec isa) k hk m src n (Or.inr vs) hD⟩,
    ⟨_, Reduce_eq (SimdMin_spec isa) k hk m src n (Or.inr vs) hD⟩,
    ⟨_, Reduce_eq (SimdMax_spec isa) k hk m src n (Or.inr vs) hD⟩⟩
  rw [Div_eq isa m src1 src2 dst n v1 v2 vd (Or.inl hne1) (Or.inl hne2)]
  rcases div_epi32_spec (m.read src1 n) (m.read src2 n) with ⟨hr, _⟩ | ⟨⟨e, hr, he⟩, _⟩
  · rw [hr]
    intro h
    cases h
  · rw [hr]
    intro h
    have : e = Fault.OutOfBounds := Except.error.inj h
    rcases he with h1 | h1 <;> rw [h1] at this <;> cases this

/-- C13, witness: four blocks of exactly nine elements, 8-lane backend, three accumulators. -/
theorem harness_in_bounds_witness :
    (∃ m1, Square .AVX2 (fun b => if b < 3 then [1, 2, 3, 4, 5, 6, 7, 8, 9] else
          if b = 3 then [0, 0, 0, 0, 0, 0, 0, 0, 0] else []) ⟨0, 0⟩ ⟨3, 0⟩ 9 = .ok m1) ∧
      (∃ m1, Add .AVX2 (fun b => if b < 3 then [1, 2, 3, 4, 5, 6, 7, 8, 9] else
          if b = 3 then [0, 0, 0, 0, 0, 0, 0, 0, 0] else []) ⟨1, 0⟩ ⟨2, 0⟩ ⟨3, 0⟩ 9 = .ok m1) ∧
      (∃ m1, Sub .AVX2 (fun b => if b < 3 then [1, 2, 3, 4, 5, 6, 7, 8, 9] else
          if b = 3 then [0, 0, 0, 0, 0, 0, 0, 0, 0] else []) ⟨1, 0⟩ ⟨2, 0⟩ ⟨3, 0⟩ 9 = .ok m1) ∧
      (∃ m1, Mul .AVX2 (fun b => if b < 3 then [1, 2, 3, 4, 5, 6, 7, 8, 9] else
          if b = 3 then [0, 0, 0, 0, 0, 0, 0, 0, 0] else []) ⟨1, 0⟩ ⟨2, 0⟩ ⟨3, 0⟩ 9 = .ok m1) ∧
      Div .AVX2 (fun b => if b < 3 then [1, 2, 3, 4, 5, 6, 7, 8, 9] else
          if b = 3 then [0, 0, 0, 0, 0, 0, 0, 0, 0] else []) ⟨1, 0⟩ ⟨2, 0⟩ ⟨3, 0⟩ 9
        ≠ .error .OutOfBounds ∧
      (∃ r, Reduce .AVX2 SimdSum 3 (fun b => if b < 3 then [1, 2, 3, 4, 5, 6, 7, 8, 9] else
          if b = 3 then [0, 0, 0, 0, 0, 0, 0, 0, 0] else []) ⟨0, 0⟩ 9 = .ok r) ∧
      (∃ r, Reduce .AVX2 SimdMin 3 (fun b => if b < 3 then [1, 2, 3, 4, 5, 6, 7, 8, 9] else
          if b = 3 then [0, 0, 0, 0, 0, 0, 0, 0, 0] else []) ⟨0, 0⟩ 9 = .ok r) ∧
      (∃ r, Reduce .AVX2 SimdMax 3 (fun b => if b < 3 then [1, 2, 3, 4, 5, 6, 7, 8, 9] else
          if b = 3 then [0, 0, 0, 0, 0, 0, 0, 0, 0] else []) ⟨0, 0⟩ 9 = .ok r) :=
  harness_in_bounds .AVX2 3 (by decide) (fun b => if b < 3 then [1, 2, 3, 4, 5, 6, 7, 8, 9] else
      if b = 3 then [0, 0, 0, 0, 0, 0, 0, 0, 0] else []) ⟨0, 0⟩ ⟨1, 0⟩ ⟨2, 0⟩ ⟨3, 0⟩ 9
    (by decide) (by decide) (by decide) (by decide) (by decide) (by decide) (by decide)
    (by decide)

end simd
